import Mathlib

/-!
# Buffered multi-stream log writer (module/cpp/logmonitor.cpp)

A shallow embedding of the `Logger` class of `logmonitor.cpp`, of the batch
command of its `main`, and of the properties stated about them.

Modelling conventions.

* A C++ `std::string` is a Lean `String`; one C++ `char` is one Lean `Char`,
  so `size()` is `String.length`.
* `std::map<std::string, ...>` is a key-ordered association list (`Map`).
  `find`, `set` and `erase` are written so that their lookup laws hold for
  every list, ordered or not.
* The log directory on disk is a `Map String` from the file name inside
  `log_dir` to the file content; the path `log_dir + "/" + x` is the entry
  `x`.  Only this process changes the directory.
* The outcome of the system calls (open, write, rename, unlink, opendir) is
  not determined by the program; it is read from an `IOEnv` given to every
  operation.  The `write` of line 275 and the `flush` of line 280 put in the
  file a part of the data, from its start: all of it, or its first `k` bytes
  when the output fails.  A failure that appears in `write()` is seen by the
  test `fail()` of line 276; a failure that appears only in `flush()`, as it
  does for data that fits the stream buffer, is not seen by the program.
  What an output did not put in the file is not written later.  The error
  state of a stream is not part of the state: that a stream left in error by a
  failed flush fails its next write is an outcome the environment of the next
  operation gives (failure after 0 bytes, seen by `fail()`).
* The steady clock is an `Int` number of nanosecond ticks, the wall-clock
  time string produced by `strftime` is an argument of the writing
  operations.
* Every public operation and every iteration of the flush thread is one
  atomic step: the interleaving of threads inside an operation is not
  modelled.
-/

namespace LogMonitor

/-! ## Finite maps -/

/-- Association list standing for a `std::map` keyed by `std::string`. -/
abbrev Map (V : Type) := List (String × V)

namespace Map

variable {V : Type}

/-- The value stored under the key, `std::map::find`. -/
def find : Map V → String → Option V
  | [], _ => none
  | (k, v) :: rest, key => if k = key then some v else find rest key

/-- Store `v` under `key`: the value of an existing entry is replaced, a new
entry is put at its place in key order (`std::less<std::string>`, the
lexicographic order of the characters). -/
def set : Map V → String → V → Map V
  | [], key, v => [(key, v)]
  | (k, w) :: rest, key, v =>
    if key.data < k.data then (key, v) :: (k, w) :: rest
    else if k = key then (key, v) :: rest
    else (k, w) :: set rest key v

/-- Remove every entry stored under `key`, `std::map::erase`. -/
def erase : Map V → String → Map V
  | [], _ => []
  | (k, v) :: rest, key => if k = key then erase rest key else (k, v) :: erase rest key

/-- The keys in iteration order. -/
def keys (m : Map V) : List String := m.map Prod.fst

end Map

/-! ## Data model -/

/-- Log levels (`enum class LogLevel`). -/
inductive LogLevel where
  | ERROR
  | WARN
  | INFO
  | DEBUG
  deriving DecidableEq, Repr

/-- The underlying integer of a log level. -/
def LogLevel.val : LogLevel → Nat
  | .ERROR => 1
  | .WARN => 2
  | .INFO => 3
  | .DEBUG => 4

/-- The sink of one stream (`struct LogFile`): whether the `ofstream` is open
and the byte counter. -/
structure LogFile where
  is_open : Bool
  current_size : Nat
  deriving DecidableEq, Repr

/-- The buffer of one stream (`struct LogBuffer`). -/
structure LogBuffer where
  content : String
  last_write : Int
  deriving DecidableEq, Repr

/-- The members of `Logger` together with the content of the log directory. -/
structure Logger where
  running : Bool
  low_power_mode : Bool
  buffer_max_size : Nat
  log_size_limit : Nat
  log_level : LogLevel
  log_files : Map LogFile
  log_buffers : Map LogBuffer
  disk : Map String
  deriving DecidableEq, Repr

/-- Outcome of the system calls made during one operation, per file name.
`write_fail f = none` means that all the data of the write to `f` reaches the
file; `some k` means that the output fails after `k` bytes reached the file.
For a failing output `write_reported f` tells where the failure appears: in
`write()`, so that the test `fail()` of line 276 sees it (`true`), or only in
the `flush()` of line 280, whose result the program does not test (`false`). -/
structure IOEnv where
  open_ok : String → Bool
  write_fail : String → Option Nat
  write_reported : String → Bool
  rename_ok : String → Bool
  unlink_ok : String → Bool
  opendir_ok : Bool

/-- The environment in which no system call fails. -/
def IOEnv.good : IOEnv :=
  { open_ok := fun _ => true, write_fail := fun _ => none, write_reported := fun _ => true,
    rename_ok := fun _ => true, unlink_ok := fun _ => true, opendir_ok := true }

/-- State of a `Logger` right after its constructor (lines 65-75), over a log
directory with content `disk`. -/
def Logger.init (level : LogLevel) (size_limit : Nat) (disk : Map String) : Logger :=
  { running := true, low_power_mode := false, buffer_max_size := 8192,
    log_size_limit := size_limit, log_level := level,
    log_files := [], log_buffers := [], disk := disk }

/-! ## Private helpers of `Logger` -/

/-- Level name, lines 208-216. -/
def get_level_string : LogLevel → String
  | .ERROR => "ERROR"
  | .WARN => "WARN"
  | .INFO => "INFO"
  | .DEBUG => "DEBUG"

/-- The `rename(path, old_path)` call of line 258: it fails when the
environment says so or when `path` does not exist. -/
def rename_file (env : IOEnv) (disk : Map String) (path old_path : String) : Map String :=
  match disk.find path with
  | some c => if env.rename_ok path then (disk.erase path).set old_path c else disk
  | none => disk

/-- The rotation block, lines 252-262, on the directory: unlink an existing
`.old` file, then rename the current file to it. -/
def rotate_disk (env : IOEnv) (disk : Map String) (path : String) : Map String :=
  let old_path := path ++ ".old"
  let disk1 :=
    if (disk.find old_path).isSome && env.unlink_ok old_path then disk.erase old_path else disk
  rename_file env disk1 path old_path

/-- Opening in append mode (line 265) creates the file when it is absent. -/
def open_append (disk : Map String) (path : String) : Map String :=
  match disk.find path with
  | some _ => disk
  | none => disk.set path ""

/-- Content of a file, the empty string when the file does not exist. -/
def file_content (disk : Map String) (path : String) : String :=
  (disk.find path).getD ""

/-- Writing `text` at the end of a file. -/
def append_file (disk : Map String) (path text : String) : Map String :=
  disk.set path (file_content disk path ++ text)

/-- The sink of a stream as `try_emplace` of line 249 gives it: the existing
one, or a new closed one. -/
def sink_of (s : Logger) (log_name : String) : LogFile :=
  (s.log_files.find log_name).getD { is_open := false, current_size := 0 }

/-- The condition of line 252: the handle is open and the byte counter is
above the rotation limit. -/
def must_rotate (s : Logger) (log_name : String) : Bool :=
  (sink_of s log_name).is_open && decide ((sink_of s log_name).current_size > s.log_size_limit)

/-- Lines 252-262: the sink and the directory after the rotation check. -/
def rotate_stage (env : IOEnv) (s : Logger) (log_name : String) : LogFile × Map String :=
  if must_rotate s log_name then
    ({ is_open := false, current_size := 0 }, rotate_disk env s.disk (log_name ++ ".log"))
  else (sink_of s log_name, s.disk)

/-- Lines 264-273: the sink and the directory after the (re)open, `none` when
the open fails. -/
def open_stage (env : IOEnv) (path : String) (fd : LogFile × Map String) :
    Option (LogFile × Map String) :=
  if fd.1.is_open then some fd
  else if env.open_ok path then
    let disk := open_append fd.2 path
    some ({ is_open := true, current_size := (file_content disk path).length }, disk)
  else none

/-- The part of `content` that the `write` of line 275 and the `flush` of line
280 put in the file `path`: all of it, or the first `k` bytes when the output
fails after `k` bytes. -/
def delivered (env : IOEnv) (path content : String) : String :=
  match env.write_fail path with
  | none => content
  | some k => String.mk (content.data.take k)

/-- The test `file->stream.fail()` of line 276, made after `write()` and before
`flush()`: it holds when the output fails and the failure appears in `write()`. -/
def write_fails (env : IOEnv) (path : String) : Bool :=
  (env.write_fail path).isSome && env.write_reported path

/-- Drain of one buffer, lines 241-284. -/
def flush_buffer_internal (env : IOEnv) (s : Logger) (log_name : String) : Logger :=
  match s.log_buffers.find log_name with
  | none => s
  | some buffer =>
    if buffer.content = "" then s
    else
      let path := log_name ++ ".log"
      let rotated := rotate_stage env s log_name
      match open_stage env path rotated with
      | none =>
        -- lines 266-270
        { s with
          log_files := s.log_files.set log_name rotated.1
          log_buffers := s.log_buffers.set log_name { buffer with content := "" }
          disk := rotated.2 }
      | some opened =>
        -- lines 275-283
        let disk := append_file opened.2 path (delivered env path buffer.content)
        if write_fails env path then
          -- lines 277-278
          { s with
            log_files := s.log_files.set log_name { opened.1 with is_open := false }
            disk := disk }
        else
          -- lines 280-282: the result of `flush()` is not tested
          { s with
            log_files := s.log_files.set log_name
              { opened.1 with current_size := opened.1.current_size + buffer.content.length }
            log_buffers := s.log_buffers.set log_name { buffer with content := "" }
            disk := disk }

/-- Content of the buffer of a stream, the empty string when the stream has no
buffer. -/
def buffer_content (s : Logger) (log_name : String) : String :=
  match s.log_buffers.find log_name with
  | some buffer => buffer.content
  | none => ""

/-- The buffer update of lines 230-233: `try_emplace`, append, time stamp. -/
def append_content (now : Int) (s : Logger) (log_name content : String) : Logger :=
  let buffer0 : LogBuffer := (s.log_buffers.find log_name).getD { content := "", last_write := 0 }
  { s with
    log_buffers := s.log_buffers.set log_name
      { content := buffer0.content ++ content, last_write := now } }

/-- The condition of line 235 on the buffer size after the append. -/
def drain_now (s : Logger) (size : Nat) (level : LogLevel) : Bool :=
  level = LogLevel.ERROR || (!s.low_power_mode && decide (size ≥ s.buffer_max_size))

/-- Append to the buffer of a stream and drain it when required, lines 228-239. -/
def add_to_buffer (env : IOEnv) (now : Int) (s : Logger) (log_name content : String)
    (level : LogLevel) : Logger :=
  let s1 := append_content now s log_name content
  if drain_now s1 (buffer_content s1 log_name).length level then
    flush_buffer_internal env s1 log_name
  else s1

/-! ## Public operations of `Logger` -/

/-- Lines 106-120. `time_str` is the result of `get_formatted_time`, `now`
the steady-clock reading taken in `add_to_buffer`. -/
def write_log (env : IOEnv) (time_str : String) (now : Int) (s : Logger)
    (log_name : String) (level : LogLevel) (message : String) : Logger :=
  if decide (level.val > s.log_level.val) || !s.running then s
  else
    let log_entry := time_str
    let log_entry := log_entry ++ " ["
    let log_entry := log_entry ++ get_level_string level
    let log_entry := log_entry ++ "] "
    let log_entry := log_entry ++ message
    let log_entry := log_entry ++ "\n"
    add_to_buffer env now s log_name log_entry level

/-- One iteration of the loop of lines 130-141 on `(batch_content, has_error)`. -/
def batch_step (threshold : LogLevel) (time_str : String) (acc : String × Bool)
    (entry : LogLevel × String) : String × Bool :=
  if entry.1.val ≤ threshold.val then
    let batch_content := acc.1
    let batch_content := batch_content ++ time_str
    let batch_content := batch_content ++ " ["
    let batch_content := batch_content ++ get_level_string entry.1
    let batch_content := batch_content ++ "] "
    let batch_content := batch_content ++ entry.2
    let batch_content := batch_content ++ "\n"
    (batch_content, if entry.1 = LogLevel.ERROR then true else acc.2)
  else acc

/-- Lines 122-146. -/
def batch_write (env : IOEnv) (time_str : String) (now : Int) (s : Logger)
    (log_name : String) (entries : List (LogLevel × String)) : Logger :=
  if entries.isEmpty || !s.running then s
  else
    let r := entries.foldl (batch_step s.log_level time_str) ("", false)
    if r.1 ≠ "" then
      add_to_buffer env now s log_name r.1 (if r.2 then LogLevel.ERROR else LogLevel.INFO)
    else s

/-- Lines 148-151. -/
def flush_buffer (env : IOEnv) (s : Logger) (log_name : String) : Logger :=
  flush_buffer_internal env s log_name

/-- Body of the loop of lines 155-159 for one key. -/
def flush_if_nonempty (env : IOEnv) (s : Logger) (name : String) : Logger :=
  match s.log_buffers.find name with
  | some buffer => if buffer.content ≠ "" then flush_buffer_internal env s name else s
  | none => s

/-- Lines 153-165. The `flush()` calls of the second loop change nothing in
the model: every drain has flushed its data, and what it did not put in the
file is not written later. -/
def flush_all (env : IOEnv) (s : Logger) : Logger :=
  s.log_buffers.keys.foldl (flush_if_nonempty env) s

/-- `std::string::ends_with`. -/
def ends_with (s suffix : String) : Bool := suffix.data.isSuffixOf s.data

/-- The test of lines 175-176 on a directory entry. -/
def is_log_file (name : String) : Bool :=
  name ≠ "." && name ≠ ".." && (ends_with name ".log" || ends_with name ".log.old")

/-- Body of the `readdir` loop, lines 174-181. -/
def clean_entry (env : IOEnv) (disk : Map String) (name : String) : Map String :=
  if is_log_file name then
    if env.unlink_ok name then disk.erase name else disk
  else disk

/-- Lines 167-187. -/
def clean_logs (env : IOEnv) (s : Logger) : Logger :=
  let s1 := { s with log_files := [], log_buffers := [] }
  if env.opendir_ok then
    { s1 with disk := s.disk.keys.foldl (clean_entry env) s.disk }
  else s1

/-- Lines 88-95. -/
def stop (env : IOEnv) (s : Logger) : Logger :=
  if s.running then
    let s1 := flush_all env { s with running := false }
    { s1 with log_files := [], log_buffers := [] }
  else s

/-- Line 97. -/
def set_buffer_size (s : Logger) (size : Nat) : Logger := { s with buffer_max_size := size }

/-- Line 98. -/
def set_log_level (s : Logger) (level : LogLevel) : Logger := { s with log_level := level }

/-- Line 99. -/
def set_log_size_limit (s : Logger) (size : Nat) : Logger := { s with log_size_limit := size }

/-- Lines 100-104. -/
def set_low_power_mode (s : Logger) (enabled : Bool) : Logger :=
  { s with low_power_mode := enabled, buffer_max_size := if enabled then 32768 else 8192 }

/-! ## Background flush thread -/

/-- Number of steady-clock ticks (nanoseconds) in a millisecond. -/
def ticks_per_ms : Int := 1000000

/-- Body of the loop of lines 295-308 for one key. -/
def sweep_buffer (env : IOEnv) (now : Int) (s : Logger) (name : String) : Logger :=
  match s.log_buffers.find name with
  | none => s
  | some buffer =>
    if buffer.content = "" then s
    else
      let idle_time := Int.tdiv (now - buffer.last_write) ticks_per_ms
      if idle_time > 30000 || decide (buffer.content.length > s.buffer_max_size / 2) then
        flush_buffer_internal env s name
      else s

/-- One iteration of the `while` loop of `flush_thread_func` after the wait
returned, lines 292-318. -/
def flush_thread_step (env : IOEnv) (now : Int) (s : Logger) : Logger :=
  if !s.running then s
  else
    let s1 := s.log_buffers.keys.foldl (sweep_buffer env now) s
    { s1 with log_files := s1.log_files.filter (fun e => e.2.is_open) }

/-- Length of the timed wait of line 289, in seconds. -/
def wait_seconds (s : Logger) : Nat := if s.low_power_mode then 60 else 15

/-! ## Runs of the manager -/

/-- The public operations and the iteration of the flush thread, with their
arguments. -/
inductive Op where
  | write_log (time_str : String) (now : Int) (log_name : String) (level : LogLevel)
      (message : String)
  | batch_write (time_str : String) (now : Int) (log_name : String)
      (entries : List (LogLevel × String))
  | flush_buffer (log_name : String)
  | flush_all
  | clean_logs
  | stop
  | set_buffer_size (size : Nat)
  | set_log_level (level : LogLevel)
  | set_log_size_limit (size : Nat)
  | set_low_power_mode (enabled : Bool)
  | flush_thread_step (now : Int)

/-- One operation, run in the environment that comes with it. -/
def step (s : Logger) (c : IOEnv × Op) : Logger :=
  match c.2 with
  | .write_log time_str now log_name level message =>
    write_log c.1 time_str now s log_name level message
  | .batch_write time_str now log_name entries =>
    batch_write c.1 time_str now s log_name entries
  | .flush_buffer log_name => flush_buffer c.1 s log_name
  | .flush_all => flush_all c.1 s
  | .clean_logs => clean_logs c.1 s
  | .stop => stop c.1 s
  | .set_buffer_size size => set_buffer_size s size
  | .set_log_level level => set_log_level s level
  | .set_log_size_limit size => set_log_size_limit s size
  | .set_low_power_mode enabled => set_low_power_mode s enabled
  | .flush_thread_step now => flush_thread_step c.1 now s

/-- A sequence of operations, from left to right. -/
def run (s : Logger) (trace : List (IOEnv × Op)) : Logger := trace.foldl step s

/-- The operations that submit entries or drain buffers: `write_log`,
`batch_write`, `flush_buffer`, `flush_all` and the background sweep. -/
def Op.submits_or_drains : Op → Bool
  | .write_log .. => true
  | .batch_write .. => true
  | .flush_buffer _ => true
  | .flush_all => true
  | .flush_thread_step _ => true
  | _ => false

/-- No open and no write fails in this environment. -/
def IOEnv.no_failure (env : IOEnv) : Prop :=
  ∀ path, env.open_ok path = true ∧ env.write_fail path = none

/-- No open sink has a byte counter above the rotation limit. -/
def within_limit (s : Logger) : Bool :=
  s.log_files.all fun e => !e.2.is_open || decide (e.2.current_size ≤ s.log_size_limit)

/-- Every stream with buffered content has a sink that needs no rotation. -/
def Calm (s : Logger) : Prop :=
  ∀ name, buffer_content s name ≠ "" → must_rotate s name = false

/-- The rotation limit is exceeded in no state of the run. -/
def never_exceeded : Logger → List (IOEnv × Op) → Bool
  | s, [] => within_limit s
  | s, c :: rest => within_limit s && never_exceeded (step s c) rest

/-! ## Statements of the specification -/

/-- Concatenation of a list of texts, in order. -/
def concat_all : List String → String
  | [] => ""
  | text :: rest => text ++ concat_all rest

/-- The line the formatter renders for one entry: time stamp, level in
brackets, message, newline. -/
def rendered_line (time_str : String) (level : LogLevel) (message : String) : String :=
  time_str ++ " [" ++ get_level_string level ++ "] " ++ message ++ "\n"

/-- The entries of a batch that pass the severity filter. -/
def retained (threshold : LogLevel) (entries : List (LogLevel × String)) :
    List (LogLevel × String) :=
  entries.filter fun e => decide (e.1.val ≤ threshold.val)

/-- The text of a batch as the specification words it: the rendered lines of
the retained entries, in order, with one time stamp. -/
def batch_text (time_str : String) (threshold : LogLevel)
    (entries : List (LogLevel × String)) : String :=
  concat_all ((retained threshold entries).map fun e => rendered_line time_str e.1 e.2)

/-- The text an operation submits to a stream under a severity threshold. -/
def submitted_by (threshold : LogLevel) (log_name : String) : Op → String
  | .write_log time_str _ name level message =>
    if name = log_name ∧ level.val ≤ threshold.val then rendered_line time_str level message
    else ""
  | .batch_write time_str _ name entries =>
    if name = log_name then batch_text time_str threshold entries else ""
  | _ => ""

/-- The rendered lines of all accepted entries of a stream, in submission
order. -/
def submitted (threshold : LogLevel) (log_name : String) (trace : List (IOEnv × Op)) : String :=
  concat_all (trace.map fun c => submitted_by threshold log_name c.2)

/-- Number of lines of a text file: the number of newline characters. -/
def line_count (text : String) : Nat := text.data.count '\n'

/-- The text of a stream: its file followed by its buffer. -/
def stream_text (s : Logger) (name : String) : String :=
  file_content s.disk (name ++ ".log") ++ buffer_content s name

/-- The text ends with the given suffix. -/
def ends_in (text suffix : String) : Prop := ∃ front, text = front ++ suffix

/-- The operation is an accepted `write_log` whose severity is not Error and
after which the buffer of its stream is shorter than the buffer threshold. -/
def buffered_write (s : Logger) : Op → Bool
  | .write_log time_str _ log_name level message =>
    s.running && decide (level.val ≤ s.log_level.val) && decide (level ≠ LogLevel.ERROR) &&
      decide ((buffer_content s log_name ++ rendered_line time_str level message).length
        < s.buffer_max_size)
  | _ => false

/-- Every operation of the run is a `buffered_write` in the state it is
applied to. -/
def all_buffered : Logger → List (IOEnv × Op) → Bool
  | _, [] => true
  | s, c :: rest => buffered_write s c.2 && all_buffered (step s c) rest

/-! ## Example environments, states and runs -/

/-- An environment in which every open fails. -/
def IOEnv.no_open : IOEnv := { IOEnv.good with open_ok := fun _ => false }

/-- An environment in which the file "b.log" cannot be removed. -/
def IOEnv.keep_b : IOEnv := { IOEnv.good with unlink_ok := fun name => decide (name ≠ "b.log") }

/-- An example run: an Info entry, a flush of everything, an Error entry and
a batch, all to the stream "main". -/
def demo_trace : List (IOEnv × Op) :=
  [(IOEnv.good, .write_log "T1" 0 "main" .INFO "a"),
   (IOEnv.good, .flush_all),
   (IOEnv.good, .write_log "T2" 5 "main" .ERROR "b"),
   (IOEnv.good, .batch_write "T3" 9 "main" [(.WARN, "c"), (.DEBUG, "d")])]

/-- A manager in low-power mode whose buffer threshold was then set to 8. -/
def low_power_small : Logger :=
  set_buffer_size (set_low_power_mode (Logger.init .INFO 100 []) true) 8

/-- The run of the scenario: 100 small Debug entries to the stream "main". -/
def hundred_debug : List (IOEnv × Op) :=
  List.replicate 100 (IOEnv.good, .write_log "T" 0 "main" .DEBUG "m")

/-- A state with two streams "a" and "b", both with buffered text; the sink of
"a" is open and above the rotation limit. -/
def two_streams : Logger :=
  { Logger.init .INFO 3 [("a.log", "12345"), ("b.log", "old b")] with
    log_files := [("a", { is_open := true, current_size := 5 })]
    log_buffers := [("a", { content := "new a", last_write := 0 }),
      ("b", { content := "new b", last_write := 0 })] }

/-- A state with buffered text and a directory of five files. -/
def dirty : Logger :=
  { Logger.init .INFO 100
      [("a.log", "1"), ("a.log.old", "0"), ("b.log", "2"), ("c.log", "3"), ("notes.txt", "n")] with
    log_files := [("a", { is_open := true, current_size := 1 })]
    log_buffers := [("a", { content := "pending", last_write := 0 })] }

/-! ## The batch command of `main` -/

/-- The characters of the set `" \t"` of lines 444, 445 and 466. -/
def is_blank (c : Char) : Bool := c = ' ' || c = '\t'

/-- The effect of `s.erase(0, s.find_first_not_of(" \t"))`: leading spaces and
tabs are removed (everything, when there is no other character). -/
def trim_left (s : String) : String := String.mk (s.data.dropWhile is_blank)

/-- The effect of `s.erase(s.find_last_not_of(" \t") + 1)`: trailing spaces
and tabs are removed (everything, when there is no other character: `npos + 1`
is 0). -/
def trim_right (s : String) : String :=
  String.mk (s.data.reverse.dropWhile is_blank).reverse

/-- The characters `std::isspace` accepts in the "C" locale. -/
def is_space (c : Char) : Bool :=
  c = ' ' || c = '\t' || c = '\n' || c = Char.ofNat 11 || c = Char.ofNat 12 || c = '\r'

/-- Value of a sequence of decimal digits. -/
def digits_value (ds : List Char) : Nat := ds.foldl (fun n d => 10 * n + (d.toNat - 48)) 0

/-- The function `std::stoi(str)` in base 10: leading white space is skipped, an
optional sign is read, then the longest run of digits; what follows is
ignored. The result is `none` when an exception is thrown: no digit
(`invalid_argument`) or a value outside `int` (`out_of_range`). -/
def stoi (str : String) : Option Int :=
  let cs := str.data.dropWhile is_space
  let negative := cs.head? = some '-'
  let body := if cs.head? = some '-' ∨ cs.head? = some '+' then cs.tail else cs
  let ds := body.takeWhile Char.isDigit
  if ds = [] then none
  else
    let value : Int := if negative then -(digits_value ds : Int) else (digits_value ds : Int)
    if value < -2147483648 ∨ value > 2147483647 then none else some value

/-- The `static_cast<LogLevel>(lvl)` of line 451, for `lvl` in 1..4. -/
def level_of_int (lvl : Int) : LogLevel :=
  if lvl = 1 then .ERROR else if lvl = 2 then .WARN else if lvl = 3 then .INFO else .DEBUG

/-- Lines 447-463: the level of the trimmed level field. -/
def parse_level (level_str : String) : LogLevel :=
  match stoi level_str with
  | some lvl => if lvl ≥ 1 ∧ lvl ≤ 4 then level_of_int lvl else LogLevel.INFO
  | none =>
    if level_str = "ERROR" then LogLevel.ERROR
    else if level_str = "WARN" then LogLevel.WARN
    else if level_str = "INFO" then LogLevel.INFO
    else if level_str = "DEBUG" then LogLevel.DEBUG
    else LogLevel.INFO

/-- Body of the loop of lines 433-468 for one line: the entry it appends, or
`none` when the line is skipped. -/
def parse_line (line : String) : Option (LogLevel × String) :=
  if line = "" ∨ line.data.head? = some '#' then none
  else
    let pos := line.data.indexOf '|'
    if pos = line.data.length then none
    else
      let level_str := String.mk (line.data.take pos)
      let level_str := trim_left level_str
      let level_str := trim_right level_str
      let level := parse_level level_str
      let msg := String.mk (line.data.drop (pos + 1))
      let msg := trim_left msg
      some (level, msg)

/-- The loop of lines 433-468 over the lines `getline` reads. -/
def parse_batch (lines : List String) : List (LogLevel × String) :=
  lines.foldl (fun entries line =>
    match parse_line line with
    | some entry => entries ++ [entry]
    | none => entries) []

/-- The "batch" command, lines 429-473, on the lines of the batch file. -/
def batch_command (env : IOEnv) (time_str : String) (now : Int) (s : Logger)
    (log_name : String) (lines : List String) : Logger :=
  let entries := parse_batch lines
  if entries ≠ [] then
    flush_buffer env (batch_write env time_str now s log_name entries) log_name
  else s

/-- The batch file of the scenario. -/
def scenario_lines : List String := ["1|disk full", "bad|oops", "# comment", "3|ok"]

/-! ## Well-formed maps, and what a drain starts from -/

/-- The keys are strictly ascending: the invariant of a `std::map`. -/
def Map.ordered {V : Type} (m : Map V) : Prop :=
  List.Pairwise (fun a b => a.1.data < b.1.data) m

/-- The three maps of the state are well formed. -/
def Logger.wf (s : Logger) : Prop :=
  s.log_files.ordered ∧ s.log_buffers.ordered ∧ s.disk.ordered


/-- The drain has to open the file: the handle is closed, or it is closed by
the rotation. -/
def needs_open (s : Logger) (log_name : String) : Bool :=
  !(sink_of s log_name).is_open || must_rotate s log_name

/-- The content of `name.log` a drain writes after: nothing when the drain
rotates and the rename succeeds, the content before the drain otherwise. -/
def drain_base (env : IOEnv) (s : Logger) (log_name : String) : String :=
  if must_rotate s log_name && env.rename_ok (log_name ++ ".log") then ""
  else file_content s.disk (log_name ++ ".log")

/-- An environment in which every output fails after one byte, and the failure
appears in the `flush()` only: the data stays in the stream buffer during
`write()`. -/
def IOEnv.short_flush : IOEnv :=
  { IOEnv.good with write_fail := fun _ => some 1, write_reported := fun _ => false }

/-- An output failure on `path`, if there is one, appears in `write()`, where
the program tests for it. -/
def IOEnv.failure_seen (env : IOEnv) (path : String) : Prop :=
  env.write_fail path = none ∨ env.write_reported path = true

/-- A running state with one buffered text for stream "a", no sink, and the
file `a.log`. -/
def pending : Logger :=
  { Logger.init .INFO 100 [("a.log", "12345")] with
    log_buffers := [("a", { content := "new", last_write := 7 })] }

/-- Every sink whose handle is open has a byte counter equal to the length of
its file `name.log`, which exists. -/
def counters_match (s : Logger) : Prop :=
  ∀ name f, s.log_files.find name = some f → f.is_open = true →
    ∃ c, s.disk.find (name ++ ".log") = some c ∧ f.current_size = c.length

/-- The sink map is ordered and the counters match. -/
def sinks_sound (s : Logger) : Prop := s.log_files.ordered ∧ counters_match s

/-- The state of a manager after `stop()`: not running, no buffer, no sink. -/
def stopped (s : Logger) : Prop :=
  s.running = false ∧ s.log_buffers = [] ∧ s.log_files = []

/-- A running manager that has drained one Error entry to `main.log`. -/
def after_error : Logger :=
  write_log IOEnv.good "T" 0 (Logger.init .INFO 100 []) "main" .ERROR "x"

/-- The idle time of lines 302-303: the time since the last write, in whole
milliseconds (`duration_cast` truncates). -/
def idle_time (now : Int) (buffer : LogBuffer) : Int :=
  Int.tdiv (now - buffer.last_write) ticks_per_ms

/-- The sweep drains the buffer of this stream: it is non-empty and its idle
time is above 30000 ms or its size is above half the buffer threshold. -/
def sweep_due (s : Logger) (now : Int) (log_name : String) : Bool :=
  match s.log_buffers.find log_name with
  | none => false
  | some buffer =>
    decide (buffer.content ≠ "") &&
      (decide (idle_time now buffer > 30000) ||
        decide (buffer.content.length > s.buffer_max_size / 2))

/-- What belongs to one stream: its buffer, its sink and its two files. -/
def stream_view (s : Logger) (log_name : String) :
    Option LogBuffer × Option LogFile × Option String × Option String :=
  (s.log_buffers.find log_name, s.log_files.find log_name,
    s.disk.find (log_name ++ ".log"), s.disk.find (log_name ++ ".log" ++ ".old"))

/-- What the second loop of the sweep, lines 310-318, leaves of a sink: an open
sink is kept as it is, a closed one is erased. -/
def keep_open : Option LogFile → Option LogFile
  | some file => if file.is_open then some file else none
  | none => none

/-- The operation is a `write_log` to the given stream. -/
def Op.writes_to (log_name : String) : Op → Bool
  | .write_log _ _ name _ _ => decide (name = log_name)
  | _ => false

/-- No open, no output and no rename fails in this environment. -/
def IOEnv.succeeds (env : IOEnv) : Prop :=
  env.no_failure ∧ ∀ path, env.rename_ok path = true

/-- A run with rotation limit 5 in mind: an Error entry, which is drained at
once, then an Info entry. -/
def two_writes : List (IOEnv × Op) :=
  [(IOEnv.good, .write_log "T" 0 "main" .ERROR "a"),
   (IOEnv.good, .write_log "T" 1 "main" .INFO "b")]

/-- What lazy rotation with limit `N` leaves of the text written to a stream
of a manager started on an empty directory. Before the first drain there is
no sink and no file and the buffer holds the text. After it the sink is open
and counts the bytes of `name.log`; either no drain has rotated, there is no
`name.log.old`, and the file followed by the buffer is the text, or
`name.log.old` holds more than `N` bytes and the text ends with `name.log.old`,
`name.log` and the buffer, in this order. -/
def lazily_rotated (N : Nat) (s : Logger) (name text : String) : Prop :=
  (s.log_files.find name = none ∧ s.disk.find (name ++ ".log") = none ∧
    s.disk.find (name ++ ".log" ++ ".old") = none ∧ buffer_content s name = text) ∨
  ∃ file : String,
    s.log_files.find name = some { is_open := true, current_size := file.length } ∧
    s.disk.find (name ++ ".log") = some file ∧
    ((s.disk.find (name ++ ".log" ++ ".old") = none ∧ file ++ buffer_content s name = text) ∨
      ∃ old : String, s.disk.find (name ++ ".log" ++ ".old") = some old ∧ old.length > N ∧
        ends_in text (old ++ file ++ buffer_content s name))

/-- The number written by a sequence of decimal digits, most significant
digit first. -/
def decimal (ds : List Char) : Nat :=
  Nat.ofDigits 10 (ds.reverse.map fun c => c.toNat - '0'.toNat)

/-- White space of the "C" locale: space, horizontal tab, line feed, vertical
tab, form feed and carriage return. -/
def white_space (c : Char) : Prop :=
  c = ' ' ∨ c = '\t' ∨ c = '\n' ∨ c = Char.ofNat 11 ∨ c = Char.ofNat 12 ∨ c = '\r'

/-! ## Lookup laws of the maps -/

namespace Map

variable {V : Type}

theorem find_set_self (m : Map V) (k : String) (v : V) : (m.set k v).find k = some v := by
  induction m with
  | nil => simp [set, find]
  | cons e rest ih =>
    obtain ⟨k1, w⟩ := e
    simp only [set]
    split_ifs with h1 h2
    · simp [find]
    · simp [find]
    · simp [find, h2, ih]

theorem find_set_ne (m : Map V) {k t : String} (v : V) (h : k ≠ t) :
    (m.set k v).find t = m.find t := by
  induction m with
  | nil => simp [set, find, h]
  | cons e rest ih =>
    obtain ⟨k1, w⟩ := e
    simp only [set]
    split_ifs with h1 h2
    · simp [find, h]
    · subst h2; simp [find, h]
    · simp [find, ih]

theorem find_erase_self (m : Map V) (k : String) : (m.erase k).find k = none := by
  induction m with
  | nil => simp [erase, find]
  | cons e rest ih =>
    obtain ⟨k1, w⟩ := e
    simp only [erase]
    split_ifs with h1
    · exact ih
    · simp [find, h1, ih]

theorem find_erase_ne (m : Map V) {k t : String} (h : k ≠ t) :
    (m.erase k).find t = m.find t := by
  induction m with
  | nil => simp [erase, find]
  | cons e rest ih =>
    obtain ⟨k1, w⟩ := e
    simp only [erase]
    split_ifs with h1
    · subst h1; simp [find, h, ih]
    · simp [find, ih]

theorem mem_keys_of_find (m : Map V) {k : String} {v : V} (h : m.find k = some v) :
    k ∈ m.keys := by
  induction m with
  | nil => simp [find] at h
  | cons e rest ih =>
    obtain ⟨k1, w⟩ := e
    simp only [find] at h
    split_ifs at h with h1
    · simp [keys, h1]
    · have := ih h
      simp only [keys] at this
      simp [keys, this]

theorem find_of_not_mem_keys (m : Map V) {k : String} (h : k ∉ m.keys) : m.find k = none := by
  cases hf : m.find k with
  | none => rfl
  | some v => exact absurd (mem_keys_of_find m hf) h

theorem mem_of_find (m : Map V) {k : String} {v : V} (h : m.find k = some v) :
    (k, v) ∈ m := by
  induction m with
  | nil => simp [find] at h
  | cons e rest ih =>
    obtain ⟨k1, w⟩ := e
    simp only [find] at h
    split_ifs at h with h1
    · simp only [Option.some.injEq] at h
      simp [h1, h]
    · exact List.mem_cons_of_mem _ (ih h)

end Map

/-! ## File names of the streams -/

theorem str_append_right_cancel {a b c : String} (h : a ++ c = b ++ c) : a = b := by
  have h1 := congrArg String.data h
  simp only [String.data_append] at h1
  exact String.ext (List.append_cancel_right h1)

theorem log_ne_old (a b : String) : a ++ ".log" ≠ b ++ ".log" ++ ".old" := by
  intro h
  have h1 := congrArg (fun s => s.data.getLast?) h
  simp [String.data_append] at h1

theorem log_inj {a b : String} (h : a ≠ b) : a ++ ".log" ≠ b ++ ".log" :=
  fun e => h (str_append_right_cancel e)

theorem old_inj {a b : String} (h : a ≠ b) : a ++ ".log" ++ ".old" ≠ b ++ ".log" ++ ".old" :=
  fun e => h (str_append_right_cancel (str_append_right_cancel e))

/-! ## The drain of one buffer: what it leaves alone -/

theorem fbi_config (env : IOEnv) (s : Logger) (name : String) :
    (flush_buffer_internal env s name).running = s.running ∧
    (flush_buffer_internal env s name).low_power_mode = s.low_power_mode ∧
    (flush_buffer_internal env s name).buffer_max_size = s.buffer_max_size ∧
    (flush_buffer_internal env s name).log_size_limit = s.log_size_limit ∧
    (flush_buffer_internal env s name).log_level = s.log_level := by
  unfold flush_buffer_internal
  split
  · simp
  · split_ifs
    · simp
    · dsimp only
      split
      · simp
      · split <;> simp

theorem fbi_buffers_frame (env : IOEnv) (s : Logger) {name t : String} (h : name ≠ t) :
    (flush_buffer_internal env s name).log_buffers.find t = s.log_buffers.find t := by
  unfold flush_buffer_internal
  split
  · rfl
  · split_ifs
    · rfl
    · dsimp only
      split
      · exact Map.find_set_ne _ _ h
      · split
        · rfl
        · exact Map.find_set_ne _ _ h

theorem fbi_files_frame (env : IOEnv) (s : Logger) {name t : String} (h : name ≠ t) :
    (flush_buffer_internal env s name).log_files.find t = s.log_files.find t := by
  unfold flush_buffer_internal
  split
  · rfl
  · split_ifs
    · rfl
    · dsimp only
      split
      · exact Map.find_set_ne _ _ h
      · split <;> exact Map.find_set_ne _ _ h

theorem rename_file_frame (env : IOEnv) (disk : Map String) {path old_path p : String}
    (h1 : path ≠ p) (h2 : old_path ≠ p) :
    (rename_file env disk path old_path).find p = disk.find p := by
  unfold rename_file
  split
  · split_ifs
    · rw [Map.find_set_ne _ _ h2, Map.find_erase_ne _ h1]
    · rfl
  · rfl

theorem rotate_disk_frame (env : IOEnv) (disk : Map String) {path p : String}
    (h1 : path ≠ p) (h2 : path ++ ".old" ≠ p) :
    (rotate_disk env disk path).find p = disk.find p := by
  unfold rotate_disk
  dsimp only
  rw [rename_file_frame env _ h1 h2]
  split_ifs
  · exact Map.find_erase_ne _ h2
  · rfl

theorem open_append_frame (disk : Map String) {path p : String} (h1 : path ≠ p) :
    (open_append disk path).find p = disk.find p := by
  unfold open_append
  split
  · rfl
  · exact Map.find_set_ne _ _ h1

theorem append_file_frame (disk : Map String) {path p : String} (text : String)
    (h1 : path ≠ p) : (append_file disk path text).find p = disk.find p :=
  Map.find_set_ne _ _ h1

theorem rotate_stage_frame (env : IOEnv) (s : Logger) {name p : String}
    (h1 : name ++ ".log" ≠ p) (h2 : name ++ ".log" ++ ".old" ≠ p) :
    (rotate_stage env s name).2.find p = s.disk.find p := by
  unfold rotate_stage
  split_ifs
  · exact rotate_disk_frame env _ h1 h2
  · rfl

theorem open_stage_frame (env : IOEnv) {path p : String} {fd opened : LogFile × Map String}
    (h : open_stage env path fd = some opened) (h1 : path ≠ p) :
    opened.2.find p = fd.2.find p := by
  unfold open_stage at h
  split_ifs at h
  · simp only [Option.some.injEq] at h
    rw [← h]
  · simp only [Option.some.injEq] at h
    rw [← h]
    exact open_append_frame _ h1

theorem fbi_disk_frame (env : IOEnv) (s : Logger) {name p : String}
    (h1 : name ++ ".log" ≠ p) (h2 : name ++ ".log" ++ ".old" ≠ p) :
    (flush_buffer_internal env s name).disk.find p = s.disk.find p := by
  unfold flush_buffer_internal
  split
  · rfl
  · split_ifs
    · rfl
    · dsimp only
      split
      · exact rotate_stage_frame env s h1 h2
      · rename_i opened ho
        split
        · dsimp only
          rw [append_file_frame _ _ h1, open_stage_frame env ho h1, rotate_stage_frame env s h1 h2]
        · dsimp only
          rw [append_file_frame _ _ h1, open_stage_frame env ho h1, rotate_stage_frame env s h1 h2]

theorem fbi_noop (env : IOEnv) (s : Logger) (name : String)
    (h : buffer_content s name = "") : flush_buffer_internal env s name = s := by
  unfold flush_buffer_internal
  unfold buffer_content at h
  split
  · rfl
  · rename_i b hb
    rw [hb] at h
    simp only at h
    simp [h]


/-! ## The drain of one buffer: what it does -/

theorem delivered_complete {env : IOEnv} {path : String} (h : env.write_fail path = none)
    (content : String) : delivered env path content = content := by
  simp [delivered, h]

theorem delivered_short {env : IOEnv} {path : String} {k : Nat}
    (h : env.write_fail path = some k) (content : String) :
    delivered env path content = String.mk (content.data.take k) := by
  simp [delivered, h]

theorem write_fails_complete {env : IOEnv} {path : String} (h : env.write_fail path = none) :
    write_fails env path = false := by
  simp [write_fails, h]

theorem write_fails_short {env : IOEnv} {path : String} {k : Nat}
    (h : env.write_fail path = some k) : write_fails env path = env.write_reported path := by
  simp [write_fails, h]

theorem buffer_content_of_find {s : Logger} {name : String} {b : LogBuffer}
    (h : s.log_buffers.find name = some b) : buffer_content s name = b.content := by
  simp [buffer_content, h]

theorem buffer_content_congr {s1 s2 : Logger} {name : String}
    (h : s1.log_buffers.find name = s2.log_buffers.find name) :
    buffer_content s1 name = buffer_content s2 name := by
  simp [buffer_content, h]

theorem file_content_congr {d1 d2 : Map String} {p : String} (h : d1.find p = d2.find p) :
    file_content d1 p = file_content d2 p := by
  simp [file_content, h]

theorem file_content_append_file (disk : Map String) (path text : String) :
    file_content (append_file disk path text) path = file_content disk path ++ text := by
  simp [append_file, file_content, Map.find_set_self]

theorem file_content_open_append (disk : Map String) (path : String) :
    file_content (open_append disk path) path = file_content disk path := by
  unfold open_append
  split
  · rfl
  · rename_i h
    simp [file_content, Map.find_set_self, h]

theorem open_stage_content (env : IOEnv) {path : String} {fd opened : LogFile × Map String}
    (h : open_stage env path fd = some opened) :
    file_content opened.2 path = file_content fd.2 path := by
  unfold open_stage at h
  split_ifs at h
  · simp only [Option.some.injEq] at h
    rw [← h]
  · simp only [Option.some.injEq] at h
    rw [← h]
    exact file_content_open_append _ _

theorem open_stage_some (env : IOEnv) {path : String} (fd : LogFile × Map String)
    (h : env.open_ok path = true) : ∃ opened, open_stage env path fd = some opened := by
  unfold open_stage
  split_ifs
  · exact ⟨_, rfl⟩
  · exact ⟨_, rfl⟩

/-- A drain whose open and write succeed empties the buffer and puts its
whole content at the end of the file left by the rotation check. -/
theorem fbi_success (env : IOEnv) (s : Logger) {name : String} {b : LogBuffer}
    (hb : s.log_buffers.find name = some b) (hne : b.content ≠ "")
    (ho : env.open_ok (name ++ ".log") = true) (hw : env.write_fail (name ++ ".log") = none) :
    buffer_content (flush_buffer_internal env s name) name = "" ∧
    file_content (flush_buffer_internal env s name).disk (name ++ ".log") =
      file_content (rotate_stage env s name).2 (name ++ ".log") ++ b.content := by
  obtain ⟨opened, hop⟩ := open_stage_some env (rotate_stage env s name) ho
  unfold flush_buffer_internal
  simp only [hb, hne, if_false, hop, delivered_complete hw, write_fails_complete hw,
    Bool.false_eq_true]
  constructor
  · simp [buffer_content, Map.find_set_self]
  · rw [file_content_append_file, open_stage_content env hop]

theorem rotate_stage_keep (env : IOEnv) (s : Logger) (name : String)
    (h : must_rotate s name = false) : rotate_stage env s name = (sink_of s name, s.disk) := by
  simp [rotate_stage, h]

theorem must_rotate_of_within_limit (s : Logger) (name : String) (h : within_limit s = true) :
    must_rotate s name = false := by
  unfold must_rotate sink_of
  cases hf : s.log_files.find name with
  | none => simp
  | some f =>
    have hm := Map.mem_of_find _ hf
    unfold within_limit at h
    rw [List.all_eq_true] at h
    have := h _ hm
    simp only [Option.getD_some]
    simp only [Bool.or_eq_true, Bool.not_eq_true', decide_eq_true_eq] at this
    rcases this with h1 | h1
    · simp [h1]
    · simp; intro _; omega

theorem calm_of_within_limit (s : Logger) (h : within_limit s = true) : Calm s :=
  fun name _ => must_rotate_of_within_limit s name h

theorem must_rotate_congr {s1 s2 : Logger} {name : String}
    (h1 : s1.log_files.find name = s2.log_files.find name)
    (h2 : s1.log_size_limit = s2.log_size_limit) : must_rotate s1 name = must_rotate s2 name := by
  simp [must_rotate, sink_of, h1, h2]

/-- Without rotation and without failure a drain moves the buffer content to
the end of the file: file followed by buffer is the same text before and
after, for every stream. -/
theorem fbi_calm (env : IOEnv) (s : Logger) (t : String) (henv : env.no_failure)
    (hc : Calm s) :
    Calm (flush_buffer_internal env s t) ∧
    buffer_content (flush_buffer_internal env s t) t = "" ∧
    ∀ name, file_content (flush_buffer_internal env s t).disk (name ++ ".log") ++
        buffer_content (flush_buffer_internal env s t) name =
      file_content s.disk (name ++ ".log") ++ buffer_content s name := by
  by_cases hempty : buffer_content s t = ""
  · rw [fbi_noop env s t hempty]
    exact ⟨hc, hempty, fun _ => rfl⟩
  · have hrot := hc t hempty
    obtain ⟨b, hb⟩ : ∃ b, s.log_buffers.find t = some b := by
      cases hf : s.log_buffers.find t with
      | none => simp [buffer_content, hf] at hempty
      | some b => exact ⟨b, rfl⟩
    have hbc := buffer_content_of_find hb
    rw [hbc] at hempty
    have hs := fbi_success env s hb hempty (henv _).1 (henv _).2
    rw [rotate_stage_keep env s t hrot] at hs
    refine ⟨?_, hs.1, ?_⟩
    · intro name hne
      by_cases hnt : t = name
      · subst hnt; exact absurd hs.1 hne
      · rw [buffer_content_congr (fbi_buffers_frame env s hnt)] at hne
        rw [must_rotate_congr (fbi_files_frame env s hnt) (fbi_config env s t).2.2.2.1]
        exact hc name hne
    · intro name
      by_cases hnt : t = name
      · subst hnt
        rw [hs.1, hs.2, hbc]; simp
      · rw [buffer_content_congr (fbi_buffers_frame env s hnt),
          file_content_congr (fbi_disk_frame env s (log_inj hnt)
            (fun e => log_ne_old name t e.symm))]


/-! ## Severity filtering -/

theorem batch_step_skip (thr : LogLevel) (ts : String) (acc : String × Bool)
    (e : LogLevel × String) (h : ¬ e.1.val ≤ thr.val) : batch_step thr ts acc e = acc := by
  simp [batch_step, h]

theorem foldl_batch_step_filter (thr : LogLevel) (ts : String)
    (entries : List (LogLevel × String)) (acc : String × Bool) :
    entries.foldl (batch_step thr ts) acc =
      (retained thr entries).foldl (batch_step thr ts) acc := by
  unfold retained
  induction entries generalizing acc with
  | nil => rfl
  | cons e rest ih =>
    by_cases h : e.1.val ≤ thr.val
    · simp only [List.foldl_cons, List.filter_cons, h, decide_True, if_true]
      exact ih _
    · simp only [List.foldl_cons, List.filter_cons, h, decide_False]
      rw [batch_step_skip thr ts acc e h]
      simpa using ih acc

/-- C1 (severity filtering). An entry whose severity is numerically greater
than the threshold makes `write_log` return the state it was given: buffers,
sinks and the directory are the same, no buffer is created. `batch_write`
gives the same state as on the batch without the filtered entries, and gives
the state it was given when every entry of the batch is filtered out. -/
theorem severity_filtering (env : IOEnv) (time_str : String) (now : Int) (s : Logger)
    (log_name : String) :
    (∀ level message, level.val > s.log_level.val →
      write_log env time_str now s log_name level message = s) ∧
    (∀ entries, batch_write env time_str now s log_name entries =
      batch_write env time_str now s log_name (retained s.log_level entries)) ∧
    (∀ entries, (∀ e ∈ entries, e.1.val > s.log_level.val) →
      batch_write env time_str now s log_name entries = s) := by
  have hb : ∀ entries, batch_write env time_str now s log_name entries =
      batch_write env time_str now s log_name (retained s.log_level entries) := by
    intro entries
    unfold batch_write
    have hidem : retained s.log_level (retained s.log_level entries) =
        retained s.log_level entries := by
      simp [retained]
    rw [foldl_batch_step_filter s.log_level time_str (retained s.log_level entries), hidem,
      ← foldl_batch_step_filter]
    cases hr : s.running
    · simp
    · by_cases he : entries = []
      · subst he; simp [retained]
      · by_cases hf : retained s.log_level entries = []
        · have h0 := foldl_batch_step_filter s.log_level time_str entries ("", false)
          rw [hf] at h0
          simp only [List.foldl_nil] at h0
          simp [he, hf, h0]
        · simp [he, hf]
  refine ⟨?_, hb, ?_⟩
  · intro level message h
    simp [write_log, h]
  · intro entries h
    rw [hb]
    have : retained s.log_level entries = [] := by
      unfold retained
      rw [List.filter_eq_nil_iff]
      intro e he
      have := h e he
      simp; omega
    rw [this]
    simp [batch_write]

/-- Witness of C1: a Debug entry under threshold Info. -/
theorem severity_filtering_witness :
    write_log IOEnv.good "T" 0 (Logger.init .INFO 0 []) "main" .DEBUG "x"
        = Logger.init .INFO 0 [] ∧
      batch_write IOEnv.good "T" 0 (Logger.init .INFO 0 []) "main" [(.DEBUG, "x")]
        = Logger.init .INFO 0 [] :=
  ⟨(severity_filtering IOEnv.good "T" 0 (Logger.init .INFO 0 []) "main").1 .DEBUG "x"
      (by decide),
   (severity_filtering IOEnv.good "T" 0 (Logger.init .INFO 0 []) "main").2.2 [(.DEBUG, "x")]
      (by decide)⟩

/-! ## Loops of drains -/

theorem flush_if_nonempty_eq (env : IOEnv) (s : Logger) (name : String) :
    flush_if_nonempty env s name = flush_buffer_internal env s name := by
  unfold flush_if_nonempty
  split
  · rename_i b hb
    split_ifs with h
    · rfl
    · have : buffer_content s name = "" := by
        rw [buffer_content_of_find hb]; simpa using h
      exact (fbi_noop env s name this).symm
  · rename_i hb
    have : buffer_content s name = "" := by simp [buffer_content, hb]
    exact (fbi_noop env s name this).symm

theorem flush_all_eq (env : IOEnv) (s : Logger) :
    flush_all env s = s.log_buffers.keys.foldl (flush_buffer_internal env) s := by
  unfold flush_all
  congr 1
  funext a b
  exact flush_if_nonempty_eq env a b

theorem sweep_buffer_cases (env : IOEnv) (now : Int) (s : Logger) (name : String) :
    sweep_buffer env now s name = flush_buffer_internal env s name ∨
      sweep_buffer env now s name = s := by
  unfold sweep_buffer
  split
  · exact Or.inr rfl
  · split_ifs
    · exact Or.inr rfl
    · dsimp only
      split_ifs
      · exact Or.inl rfl
      · exact Or.inr rfl

/-- A property kept by every drain is kept by a loop whose body drains a
buffer or does nothing. -/
theorem foldl_drain_induct (env : IOEnv) (F : Logger → String → Logger)
    (hF : ∀ s t, F s t = flush_buffer_internal env s t ∨ F s t = s)
    (P : Logger → Prop) (hP : ∀ s t, P s → P (flush_buffer_internal env s t))
    (names : List String) (s : Logger) (h : P s) : P (names.foldl F s) := by
  induction names generalizing s with
  | nil => exact h
  | cons t rest ih =>
    simp only [List.foldl_cons]
    apply ih
    rcases hF s t with e | e
    · rw [e]; exact hP s t h
    · rw [e]; exact h

theorem fbi_empty_stays (env : IOEnv) (s : Logger) (t name : String)
    (h : buffer_content s name = "") :
    buffer_content (flush_buffer_internal env s t) name = "" := by
  by_cases hnt : t = name
  · subst hnt; rw [fbi_noop env s t h]; exact h
  · rw [buffer_content_congr (fbi_buffers_frame env s hnt)]; exact h

/-- After `flush_all` without rotation and without failure every buffer is
empty. -/
theorem flush_all_empties (env : IOEnv) (henv : env.no_failure) (s : Logger) (hc : Calm s)
    (name : String) : buffer_content (flush_all env s) name = "" := by
  rw [flush_all_eq]
  by_cases hmem : name ∈ s.log_buffers.keys
  · have key : ∀ (names : List String) (s1 : Logger), Calm s1 → name ∈ names →
        buffer_content (names.foldl (flush_buffer_internal env) s1) name = "" := by
      intro names
      induction names with
      | nil => intro _ _ h; simp at h
      | cons t rest ih =>
        intro s1 hc1 hm
        simp only [List.foldl_cons]
        by_cases htn : t = name
        · subst htn
          exact foldl_drain_induct env _ (fun _ _ => Or.inl rfl)
            (fun s2 => buffer_content s2 t = "")
            (fun s2 t2 h2 => fbi_empty_stays env s2 t2 t h2) rest _
            (fbi_calm env s1 t henv hc1).2.1
        · have hm2 : name ∈ rest := by
            rcases List.mem_cons.mp hm with h | h
            · exact absurd h.symm htn
            · exact h
          exact ih _ (fbi_calm env s1 t henv hc1).1 hm2
    exact key _ s hc hmem
  · have h0 : buffer_content s name = "" := by
      simp [buffer_content, Map.find_of_not_mem_keys _ hmem]
    exact foldl_drain_induct env _ (fun _ _ => Or.inl rfl)
      (fun s2 => buffer_content s2 name = "")
      (fun s2 t2 h2 => fbi_empty_stays env s2 t2 name h2) _ s h0

/-- A loop of drains without rotation and failure keeps the text of every
stream and the configuration. -/
theorem foldl_drain_calm (env : IOEnv) (henv : env.no_failure) (F : Logger → String → Logger)
    (hF : ∀ s t, F s t = flush_buffer_internal env s t ∨ F s t = s)
    (names : List String) (s : Logger) (hc : Calm s) :
    Calm (names.foldl F s) ∧ (names.foldl F s).running = s.running ∧
      (names.foldl F s).log_level = s.log_level ∧
      ∀ name, stream_text (names.foldl F s) name = stream_text s name := by
  apply foldl_drain_induct env F hF
    (fun s1 => Calm s1 ∧ s1.running = s.running ∧ s1.log_level = s.log_level ∧
      ∀ name, stream_text s1 name = stream_text s name)
  · intro s1 t ⟨h1, h2, h3, h4⟩
    have hk := fbi_calm env s1 t henv h1
    have hcfg := fbi_config env s1 t
    refine ⟨hk.1, hcfg.1.trans h2, hcfg.2.2.2.2.trans h3, fun name => ?_⟩
    rw [← h4 name]
    exact hk.2.2 name
  · exact ⟨hc, rfl, rfl, fun _ => rfl⟩

/-! ## Submitted text and the text of a stream -/

theorem append_content_buffer (now : Int) (s : Logger) (name content : String) :
    buffer_content (append_content now s name content) name =
      buffer_content s name ++ content := by
  unfold append_content buffer_content
  simp only [Map.find_set_self]
  cases s.log_buffers.find name <;> simp

theorem append_content_frame (now : Int) (s : Logger) {name t : String} (content : String)
    (h : name ≠ t) :
    (append_content now s name content).log_buffers.find t = s.log_buffers.find t :=
  Map.find_set_ne _ _ h

theorem append_content_text (now : Int) (s : Logger) (name content t : String) :
    stream_text (append_content now s name content) t =
      stream_text s t ++ (if name = t then content else "") := by
  unfold stream_text
  by_cases h : name = t
  · subst h
    rw [append_content_buffer]
    simp [append_content, String.append_assoc]
  · rw [buffer_content_congr (append_content_frame now s content h)]
    simp [append_content, h]

theorem within_limit_append_content (now : Int) (s : Logger) (name content : String) :
    within_limit (append_content now s name content) = within_limit s := rfl

/-- The text of a stream after `add_to_buffer`, without rotation and failure. -/
theorem add_to_buffer_text (env : IOEnv) (henv : env.no_failure) (now : Int) (s : Logger)
    (hlim : within_limit s = true) (name content : String) (level : LogLevel) :
    (add_to_buffer env now s name content level).running = s.running ∧
    (add_to_buffer env now s name content level).log_level = s.log_level ∧
    ∀ t, stream_text (add_to_buffer env now s name content level) t =
      stream_text s t ++ (if name = t then content else "") := by
  unfold add_to_buffer
  dsimp only
  split_ifs
  · have hc : Calm (append_content now s name content) :=
      calm_of_within_limit _ (by rw [within_limit_append_content]; exact hlim)
    have hk := fbi_calm env (append_content now s name content) name henv hc
    have hcfg := fbi_config env (append_content now s name content) name
    refine ⟨hcfg.1, hcfg.2.2.2.2, fun t => ?_⟩
    rw [← append_content_text]
    exact hk.2.2 t
  · exact ⟨rfl, rfl, fun t => append_content_text now s name content t⟩

theorem concat_all_append (l1 l2 : List String) :
    concat_all (l1 ++ l2) = concat_all l1 ++ concat_all l2 := by
  induction l1 with
  | nil => simp [concat_all]
  | cons a rest ih => simp [concat_all, ih, String.append_assoc]

theorem error_retained (thr : LogLevel) : LogLevel.ERROR.val ≤ thr.val := by
  cases thr <;> decide

/-- The loop of `batch_write` computes the text of the specification and the
flag "some entry has severity Error". -/
theorem batch_fold (thr : LogLevel) (ts : String) (entries : List (LogLevel × String))
    (acc : String × Bool) :
    entries.foldl (batch_step thr ts) acc =
      (acc.1 ++ batch_text ts thr entries,
        acc.2 || entries.any fun e => decide (e.1 = LogLevel.ERROR)) := by
  induction entries generalizing acc with
  | nil => simp [batch_text, retained, concat_all]
  | cons e rest ih =>
    simp only [List.foldl_cons]
    rw [ih]
    by_cases h : e.1.val ≤ thr.val
    · have hr : retained thr (e :: rest) = e :: retained thr rest := by
        simp [retained, h]
      simp only [batch_step, h, if_true, batch_text, hr, List.map_cons, concat_all,
        rendered_line, List.any_cons]
      ext1
      · simp [String.append_assoc]
      · by_cases he : e.1 = LogLevel.ERROR <;> simp [he]
    · have hr : retained thr (e :: rest) = retained thr rest := by
        simp [retained, h]
      have hne : e.1 ≠ LogLevel.ERROR := by
        intro he
        exact h (he ▸ error_retained thr)
      simp [batch_step, h, batch_text, hr, hne]

theorem write_log_rejected (env : IOEnv) (ts : String) (now : Int) (s : Logger)
    (name : String) (level : LogLevel) (msg : String) (h : level.val > s.log_level.val) :
    write_log env ts now s name level msg = s := by
  simp [write_log, h]

theorem write_log_accepted (env : IOEnv) (ts : String) (now : Int) (s : Logger)
    (name : String) (level : LogLevel) (msg : String) (hrun : s.running = true)
    (h : level.val ≤ s.log_level.val) :
    write_log env ts now s name level msg =
      add_to_buffer env now s name (rendered_line ts level msg) level := by
  unfold write_log rendered_line
  have : ¬ level.val > s.log_level.val := by omega
  simp [this, hrun]

theorem batch_write_running (env : IOEnv) (ts : String) (now : Int) (s : Logger)
    (name : String) (entries : List (LogLevel × String)) (hrun : s.running = true) :
    batch_write env ts now s name entries =
      if batch_text ts s.log_level entries = "" then s
      else add_to_buffer env now s name (batch_text ts s.log_level entries)
        (if entries.any (fun e => decide (e.1 = LogLevel.ERROR)) then LogLevel.ERROR
          else LogLevel.INFO) := by
  unfold batch_write
  rw [batch_fold]
  by_cases he : entries = []
  · subst he
    simp [batch_text, retained, concat_all]
  · have hne : entries.isEmpty = false := by
      cases entries with
      | nil => exact absurd rfl he
      | cons _ _ => rfl
    simp only [hne, hrun, Bool.not_true, Bool.or_self, Bool.false_eq_true,
      if_false, String.empty_append, Bool.false_or, ne_eq, ite_not]

/-- One submitting or draining operation, without rotation and failure, adds
the text it submits at the end of the text of every stream. -/
theorem step_text (s : Logger) (c : IOEnv × Op) (hop : c.2.submits_or_drains = true)
    (henv : c.1.no_failure) (hlim : within_limit s = true) (hrun : s.running = true) :
    (step s c).running = true ∧ (step s c).log_level = s.log_level ∧
    ∀ t, stream_text (step s c) t = stream_text s t ++ submitted_by s.log_level t c.2 := by
  obtain ⟨env, op⟩ := c
  cases op with
  | write_log ts now name level msg =>
    simp only [step, submitted_by]
    by_cases h : level.val ≤ s.log_level.val
    · rw [write_log_accepted env ts now s name level msg hrun h]
      have := add_to_buffer_text env henv now s hlim name (rendered_line ts level msg) level
      refine ⟨this.1.trans hrun, this.2.1, fun t => ?_⟩
      rw [this.2.2 t]
      by_cases hn : name = t <;> simp [hn, h]
    · have hs : write_log env ts now s name level msg = s :=
        write_log_rejected env ts now s name level msg (by omega)
      rw [hs]
      exact ⟨hrun, rfl, fun t => by simp [h]⟩
  | batch_write ts now name entries =>
    simp only [step, submitted_by]
    rw [batch_write_running env ts now s name entries hrun]
    by_cases h : batch_text ts s.log_level entries = ""
    · rw [if_pos h]
      refine ⟨hrun, rfl, fun t => ?_⟩
      by_cases hn : name = t <;> simp [hn, h]
    · rw [if_neg h]
      have := add_to_buffer_text env henv now s hlim name (batch_text ts s.log_level entries)
        (if entries.any (fun e => decide (e.1 = LogLevel.ERROR)) then LogLevel.ERROR
          else LogLevel.INFO)
      exact ⟨this.1.trans hrun, this.2.1, this.2.2⟩
  | flush_buffer name =>
    simp only [step, submitted_by, flush_buffer, String.append_empty]
    have hk := fbi_calm env s name henv (calm_of_within_limit s hlim)
    have hcfg := fbi_config env s name
    exact ⟨hcfg.1.trans hrun, hcfg.2.2.2.2, hk.2.2⟩
  | flush_all =>
    simp only [step, submitted_by, String.append_empty]
    rw [flush_all_eq]
    have := foldl_drain_calm env henv _ (fun _ _ => Or.inl rfl) s.log_buffers.keys s
      (calm_of_within_limit s hlim)
    exact ⟨this.2.1.trans hrun, this.2.2.1, this.2.2.2⟩
  | flush_thread_step now =>
    simp only [step, submitted_by, String.append_empty, flush_thread_step, hrun]
    have := foldl_drain_calm env henv _ (sweep_buffer_cases env now) s.log_buffers.keys s
      (calm_of_within_limit s hlim)
    exact ⟨this.2.1.trans hrun, this.2.2.1, this.2.2.2⟩
  | clean_logs => simp [Op.submits_or_drains] at hop
  | stop => simp [Op.submits_or_drains] at hop
  | set_buffer_size _ => simp [Op.submits_or_drains] at hop
  | set_log_level _ => simp [Op.submits_or_drains] at hop
  | set_log_size_limit _ => simp [Op.submits_or_drains] at hop
  | set_low_power_mode _ => simp [Op.submits_or_drains] at hop

/-- The text of every stream after a run of submitting and draining
operations without rotation and failure. -/
theorem run_text (trace : List (IOEnv × Op)) (s : Logger)
    (hops : ∀ c ∈ trace, c.2.submits_or_drains = true)
    (hio : ∀ c ∈ trace, c.1.no_failure)
    (hrot : never_exceeded s trace = true) (hrun : s.running = true) :
    (run s trace).running = true ∧ (run s trace).log_level = s.log_level ∧
    within_limit (run s trace) = true ∧
    ∀ t, stream_text (run s trace) t = stream_text s t ++ submitted s.log_level t trace := by
  induction trace generalizing s with
  | nil =>
    simp only [never_exceeded] at hrot
    exact ⟨hrun, rfl, hrot, fun t => by simp [run, submitted, concat_all]⟩
  | cons c rest ih =>
    simp only [never_exceeded, Bool.and_eq_true] at hrot
    have h1 := step_text s c (hops c (List.mem_cons_self _ _)) (hio c (List.mem_cons_self _ _))
      hrot.1 hrun
    have h2 := ih (step s c) (fun d hd => hops d (List.mem_cons_of_mem _ hd))
      (fun d hd => hio d (List.mem_cons_of_mem _ hd)) hrot.2 h1.1
    have hrun_eq : run s (c :: rest) = run (step s c) rest := rfl
    rw [hrun_eq]
    refine ⟨h2.1, h2.2.1.trans h1.2.1, h2.2.2.1, fun t => ?_⟩
    rw [h2.2.2.2 t, h1.2.2 t, h1.2.1]
    simp [submitted, concat_all, String.append_assoc]

/-! ## Ordering -/

theorem good_no_failure : IOEnv.good.no_failure := fun _ => ⟨rfl, rfl⟩

theorem stream_text_fresh (s : Logger) (hb : s.log_buffers = []) (hd : s.disk = [])
    (name : String) : stream_text s name = "" := by
  simp [stream_text, file_content, buffer_content, hb, hd, Map.find]

/-- C2 (ordering). Take a running manager with no buffer and an empty log
directory, and any sequence of `write_log`, `batch_write`, `flush_buffer`,
`flush_all` and background-sweep steps in which no open or write fails and no
state has an open sink above the rotation limit. Then for every stream the
content of `name.log` followed by the content of the buffer is the
concatenation, in submission order, of the rendered lines of the accepted
entries of that stream; after a final `flush_all` or `flush_buffer` the file
alone is that concatenation. -/
theorem ordering (s : Logger) (trace : List (IOEnv × Op)) (name : String)
    (hrun : s.running = true) (hb : s.log_buffers = []) (hd : s.disk = [])
    (hops : ∀ c ∈ trace, c.2.submits_or_drains = true)
    (hio : ∀ c ∈ trace, c.1.no_failure)
    (hrot : never_exceeded s trace = true) :
    file_content (run s trace).disk (name ++ ".log") ++ buffer_content (run s trace) name =
      submitted s.log_level name trace ∧
    (∀ env : IOEnv, env.no_failure →
      file_content (flush_all env (run s trace)).disk (name ++ ".log") =
        submitted s.log_level name trace) ∧
    (∀ env : IOEnv, env.no_failure →
      file_content (flush_buffer env (run s trace) name).disk (name ++ ".log") =
        submitted s.log_level name trace) := by
  have h := run_text trace s hops hio hrot hrun
  have htext : stream_text (run s trace) name = submitted s.log_level name trace := by
    rw [h.2.2.2 name, stream_text_fresh s hb hd name]; simp
  have hcalm := calm_of_within_limit _ h.2.2.1
  refine ⟨htext, fun env henv => ?_, fun env henv => ?_⟩
  · have h1 := foldl_drain_calm env henv _ (fun _ _ => Or.inl rfl)
      (run s trace).log_buffers.keys (run s trace) hcalm
    have h2 := flush_all_empties env henv (run s trace) hcalm name
    have h3 := h1.2.2.2 name
    rw [← flush_all_eq] at h3
    unfold stream_text at h3
    rw [h2] at h3
    rw [← htext]
    unfold stream_text
    simpa using h3
  · have hk := fbi_calm env (run s trace) name henv hcalm
    have h3 := hk.2.2 name
    rw [hk.2.1] at h3
    rw [← htext]
    unfold stream_text flush_buffer
    simpa using h3

/-- Witness of C2 on the example run. -/
theorem ordering_witness :
    file_content (run (Logger.init .INFO 100 []) demo_trace).disk ("main" ++ ".log") ++
        buffer_content (run (Logger.init .INFO 100 []) demo_trace) "main" =
      "T1 [INFO] a\nT2 [ERROR] b\nT3 [WARN] c\n" :=
  (ordering (Logger.init .INFO 100 []) demo_trace "main" rfl rfl rfl (by decide)
    (by
      intro c hc
      simp only [demo_trace, List.mem_cons, List.mem_singleton, List.not_mem_nil, or_false] at hc
      rcases hc with rfl | rfl | rfl | rfl <;> exact good_no_failure)
    (by decide)).1.trans (by decide)

/-! ## Shutdown -/

theorem flush_all_running (env : IOEnv) (s : Logger) :
    (flush_all env s).running = s.running := by
  rw [flush_all_eq]
  exact foldl_drain_induct env _ (fun _ _ => Or.inl rfl) (fun s1 => s1.running = s.running)
    (fun s1 t h => (fbi_config env s1 t).1.trans h) _ _ rfl

theorem stop_running (env : IOEnv) (s : Logger) : (stop env s).running = false := by
  unfold stop
  split_ifs with h
  · exact flush_all_running env { s with running := false }
  · simpa using h

theorem stop_of_stopped (env : IOEnv) (s : Logger) (h : s.running = false) :
    stop env s = s := by
  simp [stop, h]

theorem write_log_stopped (env : IOEnv) (ts : String) (now : Int) (s : Logger)
    (name : String) (level : LogLevel) (msg : String) (h : s.running = false) :
    write_log env ts now s name level msg = s := by
  simp [write_log, h]

theorem batch_write_stopped (env : IOEnv) (ts : String) (now : Int) (s : Logger)
    (name : String) (entries : List (LogLevel × String)) (h : s.running = false) :
    batch_write env ts now s name entries = s := by
  simp [batch_write, h]

/-- No operation sets the running flag again. -/
theorem step_keeps_stopped (s : Logger) (c : IOEnv × Op) (h : s.running = false) :
    (step s c).running = false := by
  obtain ⟨env, op⟩ := c
  cases op with
  | write_log ts now name level msg =>
    simp only [step]; rw [write_log_stopped _ _ _ _ _ _ _ h]; exact h
  | batch_write ts now name entries =>
    simp only [step]; rw [batch_write_stopped _ _ _ _ _ _ h]; exact h
  | flush_buffer name => exact (fbi_config env s name).1.trans h
  | flush_all => exact (flush_all_running env s).trans h
  | clean_logs =>
    simp only [step, clean_logs]
    split_ifs <;> exact h
  | stop => exact stop_running env s
  | set_buffer_size _ => exact h
  | set_log_level _ => exact h
  | set_log_size_limit _ => exact h
  | set_low_power_mode _ => exact h
  | flush_thread_step now => simp [step, flush_thread_step, h]

theorem run_keeps_stopped (trace : List (IOEnv × Op)) (s : Logger) (h : s.running = false) :
    (run s trace).running = false := by
  induction trace generalizing s with
  | nil => exact h
  | cons c rest ih => exact ih _ (step_keeps_stopped s c h)

/-- C4 (running-flag lifecycle). A second `stop()` changes nothing: `stop()`
after `stop()` gives the state of the single `stop()`, directory included.
After `stop()`, whatever operations follow, the running flag stays false and
every `write_log` and every `batch_write` returns the state it was given:
buffers, sinks and files are unchanged. -/
theorem running_flag_lifecycle (env1 : IOEnv) (s : Logger) :
    (∀ env2 : IOEnv, stop env2 (stop env1 s) = stop env1 s) ∧
    ∀ trace : List (IOEnv × Op),
      (run (stop env1 s) trace).running = false ∧
      (∀ (env : IOEnv) (time_str : String) (now : Int) (log_name : String) (level : LogLevel)
        (message : String),
        write_log env time_str now (run (stop env1 s) trace) log_name level message =
          run (stop env1 s) trace) ∧
      (∀ (env : IOEnv) (time_str : String) (now : Int) (log_name : String)
        (entries : List (LogLevel × String)),
        batch_write env time_str now (run (stop env1 s) trace) log_name entries =
          run (stop env1 s) trace) := by
  refine ⟨fun env2 => stop_of_stopped env2 _ (stop_running env1 s), fun trace => ?_⟩
  have h := run_keeps_stopped trace _ (stop_running env1 s)
  exact ⟨h, fun env ts now name level msg => write_log_stopped env ts now _ name level msg h,
    fun env ts now name entries => batch_write_stopped env ts now _ name entries h⟩

/-! ## Immediate drain -/

theorem add_to_buffer_drains (env : IOEnv) (now : Int) (s : Logger) (name content : String)
    (level : LogLevel)
    (h : level = LogLevel.ERROR ∨
      (s.low_power_mode = false ∧ (buffer_content s name ++ content).length ≥ s.buffer_max_size)) :
    add_to_buffer env now s name content level =
      flush_buffer_internal env (append_content now s name content) name := by
  unfold add_to_buffer
  dsimp only
  rw [append_content_buffer]
  have : drain_now (append_content now s name content)
      (buffer_content s name ++ content).length level = true := by
    unfold drain_now
    rcases h with h | ⟨h1, h2⟩
    · simp [h]
    · have hl : (append_content now s name content).low_power_mode = false := h1
      have hm : (append_content now s name content).buffer_max_size = s.buffer_max_size := rfl
      rw [hl, hm]
      simp only [Bool.not_false, Bool.true_and, Bool.or_eq_true, decide_eq_true_eq]
      exact Or.inr h2
  rw [if_pos this]

theorem append_content_nonempty (now : Int) (s : Logger) (name content : String)
    (h : content ≠ "") :
    ∃ b, (append_content now s name content).log_buffers.find name = some b ∧
      b.content = buffer_content s name ++ content ∧ b.content ≠ "" := by
  refine ⟨_, Map.find_set_self _ _ _, ?_, ?_⟩
  · unfold buffer_content
    cases s.log_buffers.find name <;> simp
  · intro h0
    have := congrArg String.length h0
    rw [String.length_append] at this
    have hc : content.length ≠ 0 := by
      intro hz
      apply h
      apply String.ext
      exact List.length_eq_zero.mp hz
    have h3 : ("" : String).length = 0 := rfl
    omega

theorem rendered_line_ne_empty (ts : String) (level : LogLevel) (msg : String) :
    rendered_line ts level msg ≠ "" := by
  intro h
  have := congrArg String.length h
  unfold rendered_line at this
  rw [String.length_append] at this
  have h1 : ("\n" : String).length = 1 := rfl
  have h3 : ("" : String).length = 0 := rfl
  omega

/-- C5 (immediate drain), as the code has it. An accepted `write_log` on a
running manager drains the stream before it returns when the severity is
Error, or when the manager is not in low-power mode and the buffer size after
the append is at least the buffer threshold: the result is the drain of the
state after the append. When the open and the write of the file succeed, the
buffer is empty afterwards and the file ends with the buffer content followed
by the new line. -/
theorem immediate_drain (env : IOEnv) (time_str : String) (now : Int) (s : Logger)
    (log_name : String) (level : LogLevel) (message : String)
    (hrun : s.running = true) (hacc : level.val ≤ s.log_level.val)
    (htrig : level = LogLevel.ERROR ∨
      (s.low_power_mode = false ∧
        (buffer_content s log_name ++ rendered_line time_str level message).length
          ≥ s.buffer_max_size)) :
    write_log env time_str now s log_name level message =
      flush_buffer_internal env
        (append_content now s log_name (rendered_line time_str level message)) log_name ∧
    (env.open_ok (log_name ++ ".log") = true → env.write_fail (log_name ++ ".log") = none →
      buffer_content (write_log env time_str now s log_name level message) log_name = "" ∧
      ends_in (file_content (write_log env time_str now s log_name level message).disk
          (log_name ++ ".log"))
        (buffer_content s log_name ++ rendered_line time_str level message)) := by
  have heq := (write_log_accepted env time_str now s log_name level message hrun hacc).trans
    (add_to_buffer_drains env now s log_name _ level htrig)
  refine ⟨heq, fun ho hw => ?_⟩
  obtain ⟨b, hb, hbc, hne⟩ := append_content_nonempty now s log_name
    (rendered_line time_str level message) (rendered_line_ne_empty _ _ _)
  have hs := fbi_success env _ hb hne ho hw
  rw [heq]
  exact ⟨hs.1, ⟨_, by rw [hs.2, hbc]⟩⟩

/-- Witness of C5: an Error entry on a fresh manager. -/
theorem immediate_drain_witness :
    buffer_content (write_log IOEnv.good "T" 0 (Logger.init .INFO 100 []) "main" .ERROR "x")
      "main" = "" :=
  ((immediate_drain IOEnv.good "T" 0 (Logger.init .INFO 100 []) "main" .ERROR "x" rfl
    (by decide) (Or.inl rfl)).2 rfl rfl).1

/-- Counterexample to C5 as stated. In low-power mode with buffer threshold 8 an
accepted Info entry makes the buffer 11 bytes long, at least the threshold,
and the buffer is not drained: it still holds the line and no file exists.
And in normal mode an Error entry whose file cannot be opened leaves the
buffer empty although nothing reached a file. -/
theorem no_drain_in_low_power :
    low_power_small.running = true ∧ low_power_small.buffer_max_size = 8 ∧
    (buffer_content (write_log IOEnv.good "T" 0 low_power_small "main" .INFO "x")
      "main").length = 11 ∧
    buffer_content (write_log IOEnv.good "T" 0 low_power_small "main" .INFO "x") "main"
      = "T [INFO] x\n" ∧
    (write_log IOEnv.good "T" 0 low_power_small "main" .INFO "x").disk = [] ∧
    buffer_content (write_log IOEnv.no_open "T" 0 (Logger.init .INFO 100 []) "main" .ERROR "x")
      "main" = "" ∧
    (write_log IOEnv.no_open "T" 0 (Logger.init .INFO 100 []) "main" .ERROR "x").disk = [] := by
  decide

/-! ## Error-entry scenario -/

theorem line_count_append (a b : String) : line_count (a ++ b) = line_count a + line_count b := by
  simp [line_count, String.data_append, List.count_append]

theorem line_count_zero (a : String) (h : '\n' ∉ a.data) : line_count a = 0 := by
  simp [line_count, List.count_eq_zero, h]

theorem line_count_level (level : LogLevel) : line_count (get_level_string level) = 0 := by
  cases level <;> decide

/-- Number of newline characters of a rendered line. -/
theorem line_count_rendered (ts : String) (level : LogLevel) (msg : String) :
    line_count (rendered_line ts level msg) = line_count ts + line_count msg + 1 := by
  unfold rendered_line
  simp only [line_count_append, line_count_level]
  have h1 : line_count " [" = 0 := by decide
  have h2 : line_count "] " = 0 := by decide
  have h3 : line_count "\n" = 1 := by decide
  omega

/-- The state after an Error entry on a fresh manager whose open and write
succeed. -/
theorem error_entry_state (env : IOEnv) (ts : String) (now : Int) (level : LogLevel)
    (size_limit : Nat) (msg : String) (ho : env.open_ok "main.log" = true)
    (hw : env.write_fail "main.log" = none) :
    (write_log env ts now (Logger.init level size_limit []) "main" .ERROR msg).disk =
      [("main.log", rendered_line ts .ERROR msg)] ∧
    buffer_content (write_log env ts now (Logger.init level size_limit []) "main" .ERROR msg)
      "main" = "" := by
  have hacc : LogLevel.ERROR.val ≤ (Logger.init level size_limit []).log_level.val :=
    error_retained _
  rw [write_log_accepted env ts now _ "main" .ERROR msg rfl hacc,
    add_to_buffer_drains env now _ "main" _ .ERROR (Or.inl rfl)]
  have hname : ("main" ++ ".log" : String) = "main.log" := by decide
  have hne := rendered_line_ne_empty ts .ERROR msg
  unfold flush_buffer_internal
  simp [append_content, Logger.init, Map.find, Map.set, hne, rotate_stage, must_rotate, sink_of,
    open_stage, hname, ho, hw, open_append, append_file, file_content, buffer_content,
    delivered, write_fails]

/-- C6 (Error-entry scenario), as the code has it. On a fresh running manager
with threshold Info and an empty log directory, `write_log("main", Error, msg)`
whose open and write succeed leaves the buffer of "main" empty and the
directory holding the single file `main.log` with content
`time_str ++ " [ERROR] " ++ msg ++ "\n"`, which ends in the message followed by
the newline; when neither the time stamp nor the message contains a newline
character, the file is exactly one line. -/
theorem error_entry_scenario (env : IOEnv) (time_str : String) (now : Int) (size_limit : Nat)
    (message : String) (ho : env.open_ok "main.log" = true)
    (hw : env.write_fail "main.log" = none) :
    buffer_content
      (write_log env time_str now (Logger.init .INFO size_limit []) "main" .ERROR message)
      "main" = "" ∧
    (write_log env time_str now (Logger.init .INFO size_limit []) "main" .ERROR message).disk =
      [("main.log", time_str ++ " [ERROR] " ++ message ++ "\n")] ∧
    ends_in (file_content
      (write_log env time_str now (Logger.init .INFO size_limit []) "main" .ERROR message).disk
      "main.log") (message ++ "\n") ∧
    ('\n' ∉ time_str.data → '\n' ∉ message.data →
      line_count (file_content
        (write_log env time_str now (Logger.init .INFO size_limit []) "main" .ERROR message).disk
        "main.log") = 1) := by
  have h := error_entry_state env time_str now .INFO size_limit message ho hw
  have hline : rendered_line time_str .ERROR message = time_str ++ " [ERROR] " ++ message ++ "\n" := by
    simp [rendered_line, get_level_string, String.append_assoc]
  have hfile : file_content
      (write_log env time_str now (Logger.init .INFO size_limit []) "main" .ERROR message).disk
      "main.log" = rendered_line time_str .ERROR message := by
    rw [h.1]; simp [file_content, Map.find]
  refine ⟨h.2, by rw [h.1, hline], ?_, fun hts hmsg => ?_⟩
  · rw [hfile, hline]
    exact ⟨time_str ++ " [ERROR] ", by simp [String.append_assoc]⟩
  · rw [hfile, line_count_rendered, line_count_zero _ hts, line_count_zero _ hmsg]

/-- Witness of C6: the message "disk full". -/
theorem error_entry_scenario_witness :
    line_count (file_content
      (write_log IOEnv.good "2024-01-01 00:00:00" 0 (Logger.init .INFO 100 []) "main" .ERROR
        "disk full").disk "main.log") = 1 :=
  (error_entry_scenario IOEnv.good "2024-01-01 00:00:00" 0 100 "disk full" rfl rfl).2.2.2
    (by decide) (by decide)

/-- Counterexample to C6 as stated ("for every message ... exactly one line"):
for the message "a", newline, "b" the file `main.log` holds two lines. -/
theorem error_entry_two_lines :
    file_content
      (write_log IOEnv.good "T" 0 (Logger.init .INFO 100 []) "main" .ERROR "a\nb").disk
      "main.log" = "T [ERROR] a\nb\n" ∧
    line_count (file_content
      (write_log IOEnv.good "T" 0 (Logger.init .INFO 100 []) "main" .ERROR "a\nb").disk
      "main.log") = 2 := by
  decide

/-! ## Buffered writes -/

theorem add_to_buffer_keeps (env : IOEnv) (now : Int) (s : Logger) (name content : String)
    (level : LogLevel) (hl : level ≠ LogLevel.ERROR)
    (hsz : (buffer_content s name ++ content).length < s.buffer_max_size) :
    add_to_buffer env now s name content level = append_content now s name content := by
  unfold add_to_buffer
  dsimp only
  rw [append_content_buffer]
  have : drain_now (append_content now s name content)
      (buffer_content s name ++ content).length level = false := by
    unfold drain_now
    have hm : (append_content now s name content).buffer_max_size = s.buffer_max_size := rfl
    rw [hm]
    simp only [Bool.or_eq_false_iff, decide_eq_false_iff_not, Bool.and_eq_false_iff,
      Bool.not_eq_false', not_le]
    exact ⟨hl, Or.inr hsz⟩
  rw [this]
  simp

theorem buffered_write_step (s : Logger) (c : IOEnv × Op) (h : buffered_write s c.2 = true) :
    (step s c).log_files = s.log_files ∧ (step s c).disk = s.disk ∧
    (step s c).log_level = s.log_level ∧
    ∀ t, buffer_content (step s c) t = buffer_content s t ++ submitted_by s.log_level t c.2 := by
  obtain ⟨env, op⟩ := c
  cases op with
  | write_log ts now name level msg =>
    simp only [buffered_write, Bool.and_eq_true, decide_eq_true_eq] at h
    obtain ⟨⟨⟨hrun, hacc⟩, hl⟩, hsz⟩ := h
    simp only [step, submitted_by]
    rw [write_log_accepted env ts now s name level msg hrun hacc,
      add_to_buffer_keeps env now s name _ level hl hsz]
    refine ⟨rfl, rfl, rfl, fun t => ?_⟩
    by_cases hn : name = t
    · subst hn; rw [append_content_buffer]; simp [hacc]
    · rw [buffer_content_congr (append_content_frame now s _ hn)]; simp [hn]
  | _ => simp [buffered_write] at h

theorem all_buffered_run (trace : List (IOEnv × Op)) (s : Logger)
    (h : all_buffered s trace = true) :
    (run s trace).log_files = s.log_files ∧ (run s trace).disk = s.disk ∧
    ∀ t, buffer_content (run s trace) t = buffer_content s t ++ submitted s.log_level t trace := by
  induction trace generalizing s with
  | nil => exact ⟨rfl, rfl, fun t => by simp [run, submitted, concat_all]⟩
  | cons c rest ih =>
    simp only [all_buffered, Bool.and_eq_true] at h
    have h1 := buffered_write_step s c h.1
    have h2 := ih (step s c) h.2
    have hrun_eq : run s (c :: rest) = run (step s c) rest := rfl
    rw [hrun_eq]
    refine ⟨h2.1.trans h1.1, h2.2.1.trans h1.2.1, fun t => ?_⟩
    rw [h2.2.2 t, h1.2.2.2 t, h1.2.2.1]
    simp [submitted, concat_all, String.append_assoc]

/-- C7 (buffered writes touch no file). On a fresh manager, after any sequence
of accepted `write_log` calls none of which has severity Error and each of
which leaves the buffer of its stream shorter than the buffer threshold, no
sink exists and the log directory is what it was; the buffer of every stream
holds the rendered lines submitted to it, in order, and a later
`flush_buffer` whose open and write succeed puts exactly that text at the end
of the file. -/
theorem buffered_writes_touch_no_file (level : LogLevel) (size_limit : Nat)
    (disk : Map String) (trace : List (IOEnv × Op))
    (h : all_buffered (Logger.init level size_limit disk) trace = true) :
    (run (Logger.init level size_limit disk) trace).log_files = [] ∧
    (run (Logger.init level size_limit disk) trace).disk = disk ∧
    ∀ name,
      buffer_content (run (Logger.init level size_limit disk) trace) name =
        submitted level name trace ∧
      ∀ env : IOEnv, env.no_failure →
        file_content (flush_buffer env (run (Logger.init level size_limit disk) trace) name).disk
            (name ++ ".log") =
          file_content disk (name ++ ".log") ++ submitted level name trace := by
  have hr := all_buffered_run trace _ h
  have hbuf : ∀ name, buffer_content (run (Logger.init level size_limit disk) trace) name =
      submitted level name trace := by
    intro name
    rw [hr.2.2 name]
    simp [buffer_content, Logger.init, Map.find]
  refine ⟨hr.1, hr.2.1, fun name => ⟨hbuf name, fun env henv => ?_⟩⟩
  have hlim : within_limit (run (Logger.init level size_limit disk) trace) = true := by
    unfold within_limit
    rw [hr.1]
    rfl
  have hk := fbi_calm env _ name henv (calm_of_within_limit _ hlim)
  have h3 := hk.2.2 name
  rw [hk.2.1, hbuf name, hr.2.1] at h3
  unfold flush_buffer
  simpa using h3

set_option maxRecDepth 100000 in

/-- Witness of C7: the 100 Debug entries of the scenario under threshold Debug. -/
theorem buffered_writes_touch_no_file_witness :
    (run (Logger.init .DEBUG 102400 []) hundred_debug).log_files = [] ∧
    (run (Logger.init .DEBUG 102400 []) hundred_debug).disk = [] :=
  have h := buffered_writes_touch_no_file .DEBUG 102400 [] hundred_debug (by decide)
  ⟨h.1, h.2.1⟩

/-! ## Batches -/

theorem batch_text_eq_empty_iff (ts : String) (thr : LogLevel)
    (entries : List (LogLevel × String)) :
    batch_text ts thr entries = "" ↔ retained thr entries = [] := by
  unfold batch_text
  constructor
  · intro h
    cases hr : retained thr entries with
    | nil => rfl
    | cons e rest =>
      rw [hr] at h
      simp only [List.map_cons, concat_all] at h
      have := congrArg String.length h
      rw [String.length_append] at this
      have h1 : (rendered_line ts e.1 e.2).length ≠ 0 := by
        intro hz
        exact rendered_line_ne_empty ts e.1 e.2 (String.ext (List.length_eq_zero.mp hz))
      have h3 : ("" : String).length = 0 := rfl
      omega
  · intro h
    rw [h]
    rfl

theorem add_to_buffer_cases (env : IOEnv) (now : Int) (s : Logger) (name content : String)
    (level : LogLevel) :
    add_to_buffer env now s name content level = append_content now s name content ∨
    add_to_buffer env now s name content level =
      flush_buffer_internal env (append_content now s name content) name := by
  unfold add_to_buffer
  dsimp only
  split_ifs
  · exact Or.inr rfl
  · exact Or.inl rfl

/-- C8 (`batch_write` agrees with per-entry writes). On a running manager:
the loop of `batch_write` builds the concatenation, in order, of the lines
`write_log` renders for exactly the entries with severity at most the
threshold, all with the one time stamp, and raises its flag exactly when some
entry has severity Error; `write_log` hands to `add_to_buffer` the line
`rendered_line` for each such entry; `batch_write` hands that text to
`add_to_buffer` in a single call (and does nothing when no entry is
retained), so the buffer receives it in one append, followed or not by a
drain; the drain is performed when some entry has severity Error; and an
empty sequence is a no-op. -/
theorem batch_write_agrees (env : IOEnv) (time_str : String) (now : Int) (s : Logger)
    (log_name : String) (entries : List (LogLevel × String)) (hrun : s.running = true) :
    entries.foldl (batch_step s.log_level time_str) ("", false) =
      (concat_all ((entries.filter fun e => decide (e.1.val ≤ s.log_level.val)).map
          fun e => rendered_line time_str e.1 e.2),
        entries.any fun e => decide (e.1 = LogLevel.ERROR)) ∧
    (∀ e ∈ entries, e.1.val ≤ s.log_level.val →
      write_log env time_str now s log_name e.1 e.2 =
        add_to_buffer env now s log_name (rendered_line time_str e.1 e.2) e.1) ∧
    batch_write env time_str now s log_name entries =
      (if retained s.log_level entries = [] then s
       else add_to_buffer env now s log_name (batch_text time_str s.log_level entries)
        (if entries.any (fun e => decide (e.1 = LogLevel.ERROR)) then LogLevel.ERROR
          else LogLevel.INFO)) ∧
    (retained s.log_level entries ≠ [] →
      batch_write env time_str now s log_name entries =
          append_content now s log_name (batch_text time_str s.log_level entries) ∨
        batch_write env time_str now s log_name entries =
          flush_buffer_internal env
            (append_content now s log_name (batch_text time_str s.log_level entries))
            log_name) ∧
    buffer_content (append_content now s log_name (batch_text time_str s.log_level entries))
        log_name =
      buffer_content s log_name ++ batch_text time_str s.log_level entries ∧
    ((∃ e ∈ entries, e.1 = LogLevel.ERROR) →
      batch_write env time_str now s log_name entries =
        flush_buffer_internal env
          (append_content now s log_name (batch_text time_str s.log_level entries))
          log_name) ∧
    batch_write env time_str now s log_name [] = s := by
  have hmain := batch_write_running env time_str now s log_name entries hrun
  have hmain2 : batch_write env time_str now s log_name entries =
      (if retained s.log_level entries = [] then s
       else add_to_buffer env now s log_name (batch_text time_str s.log_level entries)
        (if entries.any (fun e => decide (e.1 = LogLevel.ERROR)) then LogLevel.ERROR
          else LogLevel.INFO)) := by
    rw [hmain]
    by_cases h : retained s.log_level entries = []
    · rw [if_pos h, if_pos ((batch_text_eq_empty_iff _ _ _).mpr h)]
    · rw [if_neg h, if_neg (fun e => h ((batch_text_eq_empty_iff _ _ _).mp e))]
  refine ⟨?_, ?_, hmain2, ?_, append_content_buffer _ _ _ _, ?_, ?_⟩
  · rw [batch_fold]
    simp [batch_text, retained]
  · intro e _ hacc
    exact write_log_accepted env time_str now s log_name e.1 e.2 hrun hacc
  · intro hne
    rw [hmain2, if_neg hne]
    exact add_to_buffer_cases env now s log_name _ _
  · rintro ⟨e, he, herr⟩
    have hany : (entries.any fun e => decide (e.1 = LogLevel.ERROR)) = true := by
      rw [List.any_eq_true]
      exact ⟨e, he, by simp [herr]⟩
    have hne : retained s.log_level entries ≠ [] := by
      intro h0
      have hm : e ∈ retained s.log_level entries := by
        unfold retained
        rw [List.mem_filter]
        exact ⟨he, by simpa [herr] using error_retained s.log_level⟩
      rw [h0] at hm
      simp at hm
    rw [hmain2, if_neg hne, hany]
    exact add_to_buffer_drains env now s log_name _ _ (Or.inl rfl)
  · simp [batch_write]

/-- Witness of C8: a batch of an Info, a Debug and an Error entry under
threshold Info. -/
theorem batch_write_agrees_witness :
    batch_write IOEnv.good "T" 0 (Logger.init .INFO 100 []) "main"
        [(.INFO, "a"), (.DEBUG, "b"), (.ERROR, "c")] =
      flush_buffer_internal IOEnv.good
        (append_content 0 (Logger.init .INFO 100 []) "main"
          (batch_text "T" (Logger.init .INFO 100 []).log_level
            [(.INFO, "a"), (.DEBUG, "b"), (.ERROR, "c")]))
        "main" :=
  (batch_write_agrees IOEnv.good "T" 0 (Logger.init .INFO 100 []) "main"
    [(.INFO, "a"), (.DEBUG, "b"), (.ERROR, "c")] rfl).2.2.2.2.2.1
    ⟨(.ERROR, "c"), by decide, rfl⟩

/-! ## One stream at a time -/

/-- C9 (`flush_buffer` touches exactly one stream). `flush_buffer(s)` returns
the state it was given when `s` has no buffer or an empty buffer. In every
case, also when the drain rotates or fails to open or to write, every other
stream `t` keeps its buffer, its sink and its files `t.log` and `t.log.old`,
whose names differ from the two file names of `s`. When the buffer of `s` is
non-empty and the open and the write succeed, the buffer of `s` is empty
afterwards and its content is at the end of `s.log`. -/
theorem flush_buffer_one_stream (env : IOEnv) (s : Logger) (log_name : String) :
    (s.log_buffers.find log_name = none → flush_buffer env s log_name = s) ∧
    (∀ b, s.log_buffers.find log_name = some b → b.content = "" →
      flush_buffer env s log_name = s) ∧
    (∀ t, t ≠ log_name →
      (flush_buffer env s log_name).log_buffers.find t = s.log_buffers.find t ∧
      (flush_buffer env s log_name).log_files.find t = s.log_files.find t ∧
      (flush_buffer env s log_name).disk.find (t ++ ".log") = s.disk.find (t ++ ".log") ∧
      (flush_buffer env s log_name).disk.find (t ++ ".log" ++ ".old") =
        s.disk.find (t ++ ".log" ++ ".old") ∧
      t ++ ".log" ≠ log_name ++ ".log" ∧ t ++ ".log" ≠ log_name ++ ".log" ++ ".old" ∧
      t ++ ".log" ++ ".old" ≠ log_name ++ ".log" ∧
      t ++ ".log" ++ ".old" ≠ log_name ++ ".log" ++ ".old") ∧
    (∀ b, s.log_buffers.find log_name = some b → b.content ≠ "" →
      env.open_ok (log_name ++ ".log") = true → env.write_fail (log_name ++ ".log") = none →
      buffer_content (flush_buffer env s log_name) log_name = "" ∧
      ends_in (file_content (flush_buffer env s log_name).disk (log_name ++ ".log"))
        b.content) := by
  unfold flush_buffer
  refine ⟨fun h => ?_, fun b hb he => ?_, fun t ht => ?_, fun b hb hne ho hw => ?_⟩
  · exact fbi_noop env s log_name (by simp [buffer_content, h])
  · exact fbi_noop env s log_name (by rw [buffer_content_of_find hb]; exact he)
  · have hne : log_name ≠ t := fun e => ht e.symm
    exact ⟨fbi_buffers_frame env s hne, fbi_files_frame env s hne,
      fbi_disk_frame env s (log_inj hne) (fun e => log_ne_old t log_name e.symm),
      fbi_disk_frame env s (log_ne_old log_name t) (old_inj hne),
      log_inj ht, log_ne_old t log_name, fun e => log_ne_old log_name t e.symm, old_inj ht⟩
  · have hs := fbi_success env s hb hne ho hw
    exact ⟨hs.1, ⟨_, hs.2⟩⟩

/-- Witness of C9: draining "a", which rotates, leaves stream "b" alone. -/
theorem flush_buffer_one_stream_witness :
    (flush_buffer IOEnv.good two_streams "a").log_buffers.find "b" =
        two_streams.log_buffers.find "b" ∧
      (flush_buffer IOEnv.good two_streams "a").disk.find ("b" ++ ".log") =
        two_streams.disk.find ("b" ++ ".log") :=
  have h := (flush_buffer_one_stream IOEnv.good two_streams "a").2.2.1 "b" (by decide)
  ⟨h.1, h.2.2.1⟩

/-! ## Cleaning the log directory -/

theorem is_log_file_eq (name : String) :
    is_log_file name = (ends_with name ".log" || ends_with name ".log.old") := by
  unfold is_log_file
  by_cases h1 : name = "."
  · subst h1; decide
  · by_cases h2 : name = ".."
    · subst h2; decide
    · simp [h1, h2]

theorem clean_entry_find (env : IOEnv) (disk : Map String) (k n : String) :
    (clean_entry env disk k).find n =
      if k = n ∧ is_log_file n = true ∧ env.unlink_ok n = true then none else disk.find n := by
  unfold clean_entry
  by_cases hk : k = n
  · subst hk
    by_cases h1 : is_log_file k = true
    · by_cases h2 : env.unlink_ok k = true
      · simp [h1, h2, Map.find_erase_self]
      · simp [h1, h2]
    · simp [h1]
  · simp only [hk, false_and, if_false]
    split_ifs
    · exact Map.find_erase_ne _ hk
    · rfl
    · rfl

theorem clean_loop_find (env : IOEnv) (names : List String) (disk : Map String) (n : String) :
    (names.foldl (clean_entry env) disk).find n =
      if n ∈ names ∧ is_log_file n = true ∧ env.unlink_ok n = true then none
      else disk.find n := by
  induction names generalizing disk with
  | nil => simp
  | cons k rest ih =>
    simp only [List.foldl_cons]
    rw [ih, clean_entry_find]
    by_cases hC : is_log_file n = true ∧ env.unlink_ok n = true
    · by_cases h1 : n ∈ rest
      · simp [h1, hC]
      · by_cases h2 : k = n
        · simp [h2, hC]
        · have h3 : ¬ n = k := fun e => h2 e.symm
          simp [h1, h2, h3]
    · have : ∀ p : Prop, ¬ (p ∧ is_log_file n = true ∧ env.unlink_ok n = true) :=
        fun p hp => hC hp.2
      simp [this]

/-- C10 (`clean_logs`). After `clean_logs` the buffer map and the sink map are
empty. A file of the log directory is gone exactly when the directory could
be opened, its name ends in ".log" or ".log.old", and its `unlink` succeeded;
every other file is there with the content it had, so nothing buffered is
written and a failed removal has no effect on the other files. -/
theorem clean_logs_effect (env : IOEnv) (s : Logger) :
    (clean_logs env s).log_buffers = [] ∧ (clean_logs env s).log_files = [] ∧
    ∀ name, (clean_logs env s).disk.find name =
      if env.opendir_ok = true ∧ (ends_with name ".log" = true ∨ ends_with name ".log.old" = true)
          ∧ env.unlink_ok name = true
      then none else s.disk.find name := by
  refine ⟨?_, ?_, fun name => ?_⟩
  · unfold clean_logs
    split_ifs <;> rfl
  · unfold clean_logs
    split_ifs <;> rfl
  · unfold clean_logs
    by_cases hd : env.opendir_ok = true
    · rw [if_pos hd]
      show (s.disk.keys.foldl (clean_entry env) s.disk).find name = _
      rw [clean_loop_find, is_log_file_eq]
      simp only [Bool.or_eq_true, hd, true_and]
      by_cases hm : name ∈ s.disk.keys
      · simp [hm]
      · rw [Map.find_of_not_mem_keys _ hm]
        simp
    · rw [if_neg hd]
      simp [hd]

/-- The effect of `clean_logs` on an example: "b.log" cannot be removed, the
other log files are removed, "notes.txt" stays, the buffered text is gone. -/
theorem clean_logs_example :
    clean_logs IOEnv.keep_b dirty =
      Logger.init .INFO 100 [("b.log", "2"), ("notes.txt", "n")] := by
  decide

/-- Witness of C10 on the example: "a.log" is removed, "b.log", whose removal
fails, keeps its content. -/
theorem clean_logs_effect_witness :
    (clean_logs IOEnv.keep_b dirty).disk.find "a.log" = none ∧
      (clean_logs IOEnv.keep_b dirty).disk.find "b.log" = some "2" :=
  ⟨((clean_logs_effect IOEnv.keep_b dirty).2.2 "a.log").trans (by decide),
   ((clean_logs_effect IOEnv.keep_b dirty).2.2 "b.log").trans (by decide)⟩

/-! ## Batch files -/

theorem parse_batch_eq (lines : List String) : parse_batch lines = lines.filterMap parse_line := by
  unfold parse_batch
  have key : ∀ (ls : List String) (acc : List (LogLevel × String)),
      ls.foldl (fun entries line =>
        match parse_line line with
        | some entry => entries ++ [entry]
        | none => entries) acc = acc ++ ls.filterMap parse_line := by
    intro ls
    induction ls with
    | nil => intro acc; simp
    | cons l rest ih =>
      intro acc
      simp only [List.foldl_cons, List.filterMap_cons]
      rw [ih]
      cases parse_line l <;> simp
  simpa using key lines []

/-- A line that is not empty, does not start with '#' and has its first '|'
after `field` yields the entry made of the level of the trimmed field and of
the rest without its leading spaces and tabs. -/
theorem parse_line_bar (line : String) (field rest : List Char) (h1 : line ≠ "")
    (h2 : line.data.head? ≠ some '#') (h3 : '|' ∉ field) (h4 : line.data = field ++ '|' :: rest) :
    parse_line line =
      some (parse_level (trim_right (trim_left (String.mk field))), trim_left (String.mk rest)) := by
  unfold parse_line
  have hpos : line.data.indexOf '|' = field.length := by
    rw [h4, List.indexOf_append_of_not_mem h3, List.indexOf_cons_self]
    simp
  have hlen : field.length ≠ line.data.length := by
    rw [h4]; simp
  simp only [h1, h2, or_self, if_false, hpos, hlen]
  rw [h4]
  simp

theorem parse_line_no_bar (line : String) (h : '|' ∉ line.data) : parse_line line = none := by
  unfold parse_line
  split_ifs with h1
  · rfl
  · simp [List.indexOf_of_not_mem h]

theorem trim_left_spec (s : String) :
    ∃ blanks : List Char, s.data = blanks ++ (trim_left s).data ∧
      (∀ c ∈ blanks, c = ' ' ∨ c = '\t') ∧
      (trim_left s).data.head? ≠ some ' ' ∧ (trim_left s).data.head? ≠ some '\t' := by
  refine ⟨s.data.takeWhile is_blank, ?_, ?_, ?_, ?_⟩
  · simp [trim_left]
  · intro c hc
    have := List.mem_takeWhile_imp hc
    simpa [is_blank] using this
  · intro h
    have := List.head?_dropWhile_not is_blank s.data
    simp only [trim_left] at h
    rw [h] at this
    simp [is_blank] at this
  · intro h
    have := List.head?_dropWhile_not is_blank s.data
    simp only [trim_left] at h
    rw [h] at this
    simp [is_blank] at this

theorem trim_right_spec (s : String) :
    ∃ blanks : List Char, s.data = (trim_right s).data ++ blanks ∧
      (∀ c ∈ blanks, c = ' ' ∨ c = '\t') ∧
      (trim_right s).data.getLast? ≠ some ' ' ∧ (trim_right s).data.getLast? ≠ some '\t' := by
  have hsplit := List.takeWhile_append_dropWhile is_blank s.data.reverse
  refine ⟨(s.data.reverse.takeWhile is_blank).reverse, ?_, ?_, ?_, ?_⟩
  · have := congrArg List.reverse hsplit
    simp only [List.reverse_append, List.reverse_reverse] at this
    simp only [trim_right]
    exact this.symm
  · intro c hc
    have := List.mem_takeWhile_imp (List.mem_reverse.mp hc)
    simpa [is_blank] using this
  · intro h
    have := List.head?_dropWhile_not is_blank s.data.reverse
    simp only [trim_right, List.getLast?_reverse] at h
    rw [h] at this
    simp [is_blank] at this
  · intro h
    have := List.head?_dropWhile_not is_blank s.data.reverse
    simp only [trim_right, List.getLast?_reverse] at h
    rw [h] at this
    simp [is_blank] at this

theorem level_of_int_val (lvl : Int) (h : lvl ≥ 1 ∧ lvl ≤ 4) : ((level_of_int lvl).val : Int) = lvl := by
  unfold level_of_int
  split_ifs with a b c
  · simp [LogLevel.val, a]
  · simp [LogLevel.val, b]
  · simp [LogLevel.val, c]
  · simp only [LogLevel.val]
    omega

theorem parse_level_cases (t : String) :
    (∀ lvl, stoi t = some lvl → lvl ≥ 1 ∧ lvl ≤ 4 → ((parse_level t).val : Int) = lvl) ∧
    (∀ lvl, stoi t = some lvl → ¬ (lvl ≥ 1 ∧ lvl ≤ 4) → parse_level t = LogLevel.INFO) ∧
    (stoi t = none → t ≠ "ERROR" → t ≠ "WARN" → t ≠ "DEBUG" → parse_level t = LogLevel.INFO) := by
  refine ⟨fun lvl h hr => ?_, fun lvl h hr => ?_, fun h h1 h2 h4 => ?_⟩
  · simp only [parse_level, h, hr, and_self, if_true]
    exact level_of_int_val lvl hr
  · simp only [parse_level, h, hr, if_false]
  · simp only [parse_level, h, h1, h2, h4, if_false]
    split_ifs <;> rfl

theorem parse_level_values :
    parse_level "1" = .ERROR ∧ parse_level "2" = .WARN ∧ parse_level "3" = .INFO ∧
    parse_level "4" = .DEBUG ∧ parse_level "ERROR" = .ERROR ∧ parse_level "WARN" = .WARN ∧
    parse_level "INFO" = .INFO ∧ parse_level "DEBUG" = .DEBUG := by
  decide

/-- C16 (batch-file scenario), as the code has it. A line with a '|' that is
neither empty nor a comment always yields an entry, whatever its severity
field: when the field is malformed (`std::stoi` reads no number in 1..4 and
the field is no level name) the entry has severity Info. Comment lines yield
no entry. For the file with lines `1|disk full`, `bad|oops`, `# comment`,
`3|ok` three entries are passed to `batch_write`: (Error, "disk full"),
(Info, "oops") and (Info, "ok"), in that order; under threshold Debug, on a
fresh manager with an empty directory and no failure, the three rendered
lines are the content of the file. -/
theorem batch_file_scenario :
    (∀ line : String, line ≠ "" → line.data.head? ≠ some '#' → '|' ∈ line.data →
      ∃ entry, parse_line line = some entry) ∧
    (∀ (line : String) (field rest : List Char), line ≠ "" → line.data.head? ≠ some '#' →
      '|' ∉ field → line.data = field ++ '|' :: rest →
      (∀ lvl, stoi (trim_right (trim_left (String.mk field))) = some lvl →
        ¬ (lvl ≥ 1 ∧ lvl ≤ 4)) →
      trim_right (trim_left (String.mk field)) ≠ "ERROR" →
      trim_right (trim_left (String.mk field)) ≠ "WARN" →
      trim_right (trim_left (String.mk field)) ≠ "DEBUG" →
      parse_line line = some (LogLevel.INFO, trim_left (String.mk rest))) ∧
    (∀ line : String, line.data.head? = some '#' → parse_line line = none) ∧
    parse_batch scenario_lines =
      [(.ERROR, "disk full"), (.INFO, "oops"), (.INFO, "ok")] ∧
    batch_command IOEnv.good "T" 0 (Logger.init .DEBUG 102400 []) "main" scenario_lines =
      flush_buffer IOEnv.good
        (batch_write IOEnv.good "T" 0 (Logger.init .DEBUG 102400 []) "main"
          [(.ERROR, "disk full"), (.INFO, "oops"), (.INFO, "ok")]) "main" ∧
    (batch_command IOEnv.good "T" 0 (Logger.init .DEBUG 102400 []) "main" scenario_lines).disk =
      [("main.log", "T [ERROR] disk full\nT [INFO] oops\nT [INFO] ok\n")] := by
  refine ⟨fun line h1 h2 h3 => ?_, fun line field rest h1 h2 h3 h4 hs e1 e2 e4 => ?_,
    fun line h => ?_, by decide, by decide, by decide⟩
  · obtain ⟨field, rest, hsplit, hnot⟩ := List.eq_append_cons_of_mem h3
    exact ⟨_, parse_line_bar line field rest h1 h2 hnot hsplit⟩
  · rw [parse_line_bar line field rest h1 h2 h3 h4]
    have hc := parse_level_cases (trim_right (trim_left (String.mk field)))
    cases hst : stoi (trim_right (trim_left (String.mk field))) with
    | none => rw [hc.2.2 hst e1 e2 e4]
    | some lvl => rw [hc.2.1 lvl hst (hs lvl hst)]
  · simp [parse_line, h]

/-- Witness of C16: the line `bad|oops` yields an entry. -/
theorem batch_file_scenario_witness : ∃ entry, parse_line "bad|oops" = some entry :=
  batch_file_scenario.1 "bad|oops" (by decide) (by decide) (by decide)

/-- Counterexample to C16 as stated: the line `bad|oops`, whose severity field
is neither a number nor a level name, is not skipped but yields the entry
(Info, "oops"); the file of the scenario yields three entries, not the two
of the claim, and three lines are written. -/
theorem malformed_severity_not_skipped :
    parse_line "bad|oops" = some (.INFO, "oops") ∧
    parse_batch scenario_lines ≠ [(.ERROR, "disk full"), (.INFO, "ok")] ∧
    (parse_batch scenario_lines).length = 3 ∧
    line_count (file_content
      (batch_command IOEnv.good "T" 0 (Logger.init .DEBUG 102400 []) "main" scenario_lines).disk
      "main.log") = 3 := by
  decide

/-! ## Well-formed maps -/

namespace Map

variable {V : Type}

theorem mem_set (m : Map V) (k : String) (v : V) (e : String × V) (h : e ∈ m.set k v) :
    e = (k, v) ∨ e ∈ m := by
  induction m with
  | nil => simpa [set] using h
  | cons e1 rest ih =>
    obtain ⟨k1, w⟩ := e1
    simp only [set] at h
    split_ifs at h with h1 h2
    · rcases List.mem_cons.mp h with h | h
      · exact Or.inl h
      · exact Or.inr h
    · rcases List.mem_cons.mp h with h | h
      · exact Or.inl h
      · exact Or.inr (List.mem_cons_of_mem _ h)
    · rcases List.mem_cons.mp h with h | h
      · exact Or.inr (by rw [h]; exact List.mem_cons_self _ _)
      · rcases ih h with h | h
        · exact Or.inl h
        · exact Or.inr (List.mem_cons_of_mem _ h)

theorem ordered_set (m : Map V) (k : String) (v : V) (h : m.ordered) : (m.set k v).ordered := by
  induction m with
  | nil => simp [set, ordered]
  | cons e1 rest ih =>
    obtain ⟨k1, w⟩ := e1
    unfold ordered at h
    rw [List.pairwise_cons] at h
    simp only [set]
    split_ifs with h1 h2
    · unfold ordered
      rw [List.pairwise_cons, List.pairwise_cons]
      refine ⟨fun e he => ?_, h.1, h.2⟩
      rcases List.mem_cons.mp he with he | he
      · rw [he]; exact h1
      · exact lt_trans h1 (h.1 e he)
    · unfold ordered
      rw [List.pairwise_cons]
      refine ⟨fun e he => ?_, h.2⟩
      rw [← h2]; exact h.1 e he
    · unfold ordered
      rw [List.pairwise_cons]
      refine ⟨fun e he => ?_, ih h.2⟩
      rcases mem_set rest k v e he with he | he
      · rw [he]
        have hne : k1.data ≠ k.data := fun e => h2 (String.ext e)
        exact lt_of_le_of_ne (not_lt.mp h1) hne
      · exact h.1 e he

theorem erase_eq_filter (m : Map V) (k : String) :
    m.erase k = m.filter (fun e => decide (e.1 ≠ k)) := by
  induction m with
  | nil => rfl
  | cons e1 rest ih =>
    obtain ⟨k1, w⟩ := e1
    simp only [erase, List.filter_cons]
    split_ifs with h1 h2 h2
    · simp [h1] at h2
    · exact ih
    · rw [ih]
    · simp [h1] at h2

theorem ordered_filter (m : Map V) (p : String × V → Bool) (h : m.ordered) :
    ordered (m.filter p) :=
  List.Pairwise.filter p h

theorem ordered_erase (m : Map V) (k : String) (h : m.ordered) : (m.erase k).ordered := by
  rw [erase_eq_filter]
  exact ordered_filter m _ h

theorem ordered_nil : ordered ([] : Map V) := List.Pairwise.nil

theorem find_of_mem_ordered (m : Map V) (h : m.ordered) {k : String} {v : V}
    (hm : (k, v) ∈ m) : m.find k = some v := by
  induction m with
  | nil => simp at hm
  | cons e1 rest ih =>
    obtain ⟨k1, w⟩ := e1
    unfold ordered at h
    rw [List.pairwise_cons] at h
    simp only [find]
    rcases List.mem_cons.mp hm with he | he
    · simp only [Prod.mk.injEq] at he
      simp [he.1, he.2]
    · have hlt := h.1 _ he
      have hne : k1 ≠ k := by
        intro e
        rw [e] at hlt
        exact lt_irrefl _ hlt
      simp only [hne, if_false]
      exact ih h.2 he

theorem keys_nodup_of_ordered (m : Map V) (h : m.ordered) : m.keys.Nodup := by
  unfold keys
  unfold ordered at h
  rw [List.Nodup, List.pairwise_map]
  refine List.Pairwise.imp ?_ h
  intro a b hab e
  rw [e] at hab
  exact lt_irrefl _ hab

theorem find_filter_ordered (m : Map V) (h : m.ordered) (p : String × V → Bool) (k : String) :
    find (m.filter p) k =
      match m.find k with
      | some v => if p (k, v) then some v else none
      | none => none := by
  induction m with
  | nil => rfl
  | cons e1 rest ih =>
    obtain ⟨k1, w⟩ := e1
    unfold ordered at h
    rw [List.pairwise_cons] at h
    by_cases hk : k1 = k
    · subst hk
      have hrest : find rest k1 = none := by
        cases hf : find rest k1 with
        | none => rfl
        | some v =>
          have := h.1 _ (mem_of_find rest hf)
          exact absurd this (lt_irrefl _)
      have hrest2 : find (rest.filter p) k1 = none := by
        rw [ih h.2, hrest]
      simp only [List.filter_cons, find, if_true]
      split_ifs with hp
      · simp [find]
      · exact hrest2
    · simp only [List.filter_cons, find, hk, if_false]
      split_ifs with hp
      · simp only [find, hk, if_false]
        exact ih h.2
      · exact ih h.2

end Map

/-! ## Well-formed states -/

theorem rename_file_ordered (env : IOEnv) (disk : Map String) (path old_path : String)
    (h : disk.ordered) : (rename_file env disk path old_path).ordered := by
  unfold rename_file
  split
  · split_ifs
    · exact Map.ordered_set _ _ _ (Map.ordered_erase _ _ h)
    · exact h
  · exact h

theorem rotate_disk_ordered (env : IOEnv) (disk : Map String) (path : String)
    (h : disk.ordered) : (rotate_disk env disk path).ordered := by
  unfold rotate_disk
  dsimp only
  apply rename_file_ordered
  split_ifs
  · exact Map.ordered_erase _ _ h
  · exact h

theorem open_append_ordered (disk : Map String) (path : String) (h : disk.ordered) :
    (open_append disk path).ordered := by
  unfold open_append
  split
  · exact h
  · exact Map.ordered_set _ _ _ h

theorem rotate_stage_ordered (env : IOEnv) (s : Logger) (name : String) (h : s.disk.ordered) :
    (rotate_stage env s name).2.ordered := by
  unfold rotate_stage
  split_ifs
  · exact rotate_disk_ordered env _ _ h
  · exact h

theorem open_stage_ordered (env : IOEnv) {path : String} {fd opened : LogFile × Map String}
    (h : open_stage env path fd = some opened) (ho : fd.2.ordered) : opened.2.ordered := by
  unfold open_stage at h
  split_ifs at h
  · simp only [Option.some.injEq] at h
    rw [← h]; exact ho
  · simp only [Option.some.injEq] at h
    rw [← h]; exact open_append_ordered _ _ ho

theorem fbi_wf (env : IOEnv) (s : Logger) (name : String) (h : s.wf) :
    (flush_buffer_internal env s name).wf := by
  obtain ⟨h1, h2, h3⟩ := h
  unfold flush_buffer_internal
  split
  · exact ⟨h1, h2, h3⟩
  · split_ifs
    · exact ⟨h1, h2, h3⟩
    · dsimp only
      split
      · exact ⟨Map.ordered_set _ _ _ h1, Map.ordered_set _ _ _ h2,
          rotate_stage_ordered env s name h3⟩
      · rename_i opened ho
        have hd := open_stage_ordered env ho (rotate_stage_ordered env s name h3)
        split
        · exact ⟨Map.ordered_set _ _ _ h1, h2, Map.ordered_set _ _ _ hd⟩
        · exact ⟨Map.ordered_set _ _ _ h1, Map.ordered_set _ _ _ h2, Map.ordered_set _ _ _ hd⟩

theorem path_ne_old (p : String) : p ≠ p ++ ".old" := by
  intro h
  have := congrArg String.length h
  rw [String.length_append] at this
  have h4 : (".old" : String).length = 4 := rfl
  omega

theorem rename_file_done (env : IOEnv) (disk : Map String) {path old_path c : String}
    (hne : path ≠ old_path) (hf : disk.find path = some c) (hr : env.rename_ok path = true) :
    (rename_file env disk path old_path).find path = none ∧
    (rename_file env disk path old_path).find old_path = some c := by
  unfold rename_file
  simp only [hf, hr, if_true]
  exact ⟨by rw [Map.find_set_ne _ _ (Ne.symm hne)]; exact Map.find_erase_self _ _,
    Map.find_set_self _ _ _⟩

/-- A rotation whose rename succeeds: the current file is gone and the `.old`
file holds what it held, whatever the `.old` file was before. -/
theorem rotate_disk_done (env : IOEnv) (disk : Map String) {path c : String}
    (hf : disk.find path = some c) (hr : env.rename_ok path = true) :
    (rotate_disk env disk path).find path = none ∧
    (rotate_disk env disk path).find (path ++ ".old") = some c := by
  unfold rotate_disk
  dsimp only
  apply rename_file_done env _ (path_ne_old path) _ hr
  split_ifs
  · rw [Map.find_erase_ne _ (Ne.symm (path_ne_old path))]; exact hf
  · exact hf

theorem rotate_stage_done (env : IOEnv) (s : Logger) {name c : String}
    (hrot : must_rotate s name = true) (hf : s.disk.find (name ++ ".log") = some c)
    (hr : env.rename_ok (name ++ ".log") = true) :
    (rotate_stage env s name).1 = { is_open := false, current_size := 0 } ∧
    (rotate_stage env s name).2.find (name ++ ".log") = none ∧
    (rotate_stage env s name).2.find (name ++ ".log" ++ ".old") = some c := by
  unfold rotate_stage
  rw [if_pos hrot]
  exact ⟨rfl, rotate_disk_done env s.disk hf hr⟩

theorem open_stage_closed (env : IOEnv) {path : String} (fd : LogFile × Map String)
    (hc : fd.1.is_open = false) (ho : env.open_ok path = true) :
    open_stage env path fd =
      some ({ is_open := true, current_size := (file_content fd.2 path).length },
        open_append fd.2 path) := by
  unfold open_stage
  simp [hc, ho, file_content_open_append]

theorem open_stage_open (env : IOEnv) {path : String} (fd : LogFile × Map String)
    (hc : fd.1.is_open = true) : open_stage env path fd = some fd := by
  unfold open_stage
  simp [hc]

theorem open_stage_fails (env : IOEnv) {path : String} (fd : LogFile × Map String)
    (hc : fd.1.is_open = false) (ho : env.open_ok path = false) :
    open_stage env path fd = none := by
  unfold open_stage
  simp [hc, ho]

/-- The outcomes of a drain of a non-empty buffer, after the rotation check
left the sink and the directory `rotate_stage env s name`: the open fails; the
output fails and `fail()` sees it; all the data reaches the file; the output
fails in the `flush()` that is not tested. -/
theorem fbi_outcome (env : IOEnv) (s : Logger) {name : String} {b : LogBuffer}
    (hb : s.log_buffers.find name = some b) (hne : b.content ≠ "") :
    (open_stage env (name ++ ".log") (rotate_stage env s name) = none →
      flush_buffer_internal env s name =
        { s with
          log_files := s.log_files.set name (rotate_stage env s name).1
          log_buffers := s.log_buffers.set name { b with content := "" }
          disk := (rotate_stage env s name).2 }) ∧
    (∀ opened k, open_stage env (name ++ ".log") (rotate_stage env s name) = some opened →
      env.write_fail (name ++ ".log") = some k → env.write_reported (name ++ ".log") = true →
      flush_buffer_internal env s name =
        { s with
          log_files := s.log_files.set name { opened.1 with is_open := false }
          disk := append_file opened.2 (name ++ ".log") (String.mk (b.content.data.take k)) }) ∧
    (∀ opened, open_stage env (name ++ ".log") (rotate_stage env s name) = some opened →
      env.write_fail (name ++ ".log") = none →
      flush_buffer_internal env s name =
        { s with
          log_files := s.log_files.set name
            { opened.1 with current_size := opened.1.current_size + b.content.length }
          log_buffers := s.log_buffers.set name { b with content := "" }
          disk := append_file opened.2 (name ++ ".log") b.content }) ∧
    (∀ opened k, open_stage env (name ++ ".log") (rotate_stage env s name) = some opened →
      env.write_fail (name ++ ".log") = some k → env.write_reported (name ++ ".log") = false →
      flush_buffer_internal env s name =
        { s with
          log_files := s.log_files.set name
            { opened.1 with current_size := opened.1.current_size + b.content.length }
          log_buffers := s.log_buffers.set name { b with content := "" }
          disk := append_file opened.2 (name ++ ".log")
            (String.mk (b.content.data.take k)) }) := by
  refine ⟨fun h => ?_, fun opened k h hw hr => ?_, fun opened h hw => ?_,
    fun opened k h hw hr => ?_⟩
  · unfold flush_buffer_internal
    simp only [hb, hne, if_false, h]
  · unfold flush_buffer_internal
    simp only [hb, hne, if_false, h, delivered_short hw, write_fails_short hw, hr, if_true]
  · unfold flush_buffer_internal
    simp only [hb, hne, if_false, h, delivered_complete hw, write_fails_complete hw,
      Bool.false_eq_true]
  · unfold flush_buffer_internal
    simp only [hb, hne, if_false, h, delivered_short hw, write_fails_short hw, hr,
      Bool.false_eq_true]

/-- A drain of a non-empty buffer whose file is open after the open stage: the
file gets the delivered bytes; when `fail()` holds the sink is closed and the
buffer kept, otherwise the counter grows by the size of the buffer, which is
emptied. -/
theorem fbi_opened (env : IOEnv) (s : Logger) {name : String} {b : LogBuffer}
    (hb : s.log_buffers.find name = some b) (hne : b.content ≠ "")
    {opened : LogFile × Map String}
    (ho : open_stage env (name ++ ".log") (rotate_stage env s name) = some opened) :
    (flush_buffer_internal env s name).disk =
      append_file opened.2 (name ++ ".log") (delivered env (name ++ ".log") b.content) ∧
    (write_fails env (name ++ ".log") = true →
      (flush_buffer_internal env s name).log_files =
        s.log_files.set name { opened.1 with is_open := false } ∧
      (flush_buffer_internal env s name).log_buffers = s.log_buffers) ∧
    (write_fails env (name ++ ".log") = false →
      (flush_buffer_internal env s name).log_files =
        s.log_files.set name
          { opened.1 with current_size := opened.1.current_size + b.content.length } ∧
      (flush_buffer_internal env s name).log_buffers =
        s.log_buffers.set name { b with content := "" }) := by
  unfold flush_buffer_internal
  simp only [hb, hne, if_false, ho]
  by_cases hw : write_fails env (name ++ ".log") = true
  · simp [hw]
  · simp [hw]

theorem must_rotate_of_sink (s : Logger) {name : String} {f : LogFile}
    (hf : s.log_files.find name = some f) (ho : f.is_open = true)
    (hs : f.current_size > s.log_size_limit) : must_rotate s name = true := by
  simp [must_rotate, sink_of, hf, ho, hs]

theorem rotate_stage_needs_open (env : IOEnv) (s : Logger) (name : String) :
    (rotate_stage env s name).1.is_open = !needs_open s name := by
  unfold rotate_stage needs_open
  by_cases h : must_rotate s name = true
  · simp [h]
  · simp only [Bool.not_eq_true] at h
    simp [h]

theorem rotate_stage_content (env : IOEnv) (s : Logger) (name : String) :
    file_content (rotate_stage env s name).2 (name ++ ".log") = drain_base env s name := by
  unfold rotate_stage drain_base
  by_cases h : must_rotate s name = true
  · rw [if_pos h]
    simp only [h, Bool.true_and]
    unfold rotate_disk rename_file
    dsimp only
    have hfind : ∀ d : Map String,
        (if (s.disk.find (name ++ ".log" ++ ".old")).isSome &&
            env.unlink_ok (name ++ ".log" ++ ".old") then
          s.disk.erase (name ++ ".log" ++ ".old") else s.disk) = d →
        d.find (name ++ ".log") = s.disk.find (name ++ ".log") := by
      intro d hd
      rw [← hd]
      split_ifs
      · exact Map.find_erase_ne _ (Ne.symm (path_ne_old _))
      · rfl
    generalize hd : (if (s.disk.find (name ++ ".log" ++ ".old")).isSome &&
        env.unlink_ok (name ++ ".log" ++ ".old") then
          s.disk.erase (name ++ ".log" ++ ".old") else s.disk) = d
    have hf := hfind d hd
    cases hc : d.find (name ++ ".log") with
    | none =>
      simp only []
      have : file_content s.disk (name ++ ".log") = "" := by
        simp [file_content, ← hf, hc]
      have h0 : (s.disk.find (name ++ ".log")).getD "" = "" := this
      simp [file_content, hc, h0]
    | some c =>
      simp only []
      by_cases hr : env.rename_ok (name ++ ".log") = true
      · simp only [hr, if_true]
        simp [file_content, Map.find_set_ne _ _ (Ne.symm (path_ne_old _)), Map.find_erase_self]
      · simp only [hr, if_false]
        simp [file_content, hf]
  · simp only [Bool.not_eq_true] at h
    simp [h]

/-- What a drain of a non-empty buffer does to the buffer and the file of its
stream. When the file has to be opened and the open fails, the buffer is
emptied and nothing is written. Otherwise the file gets the delivered bytes
after the content the drain starts from; the buffer is kept when `fail()`
holds and emptied when it does not. -/
theorem fbi_cases (env : IOEnv) (s : Logger) {name : String} {b : LogBuffer}
    (hb : s.log_buffers.find name = some b) (hne : b.content ≠ "") :
    (needs_open s name = true → env.open_ok (name ++ ".log") = false →
      (flush_buffer_internal env s name).log_buffers.find name =
        some { b with content := "" } ∧
      file_content (flush_buffer_internal env s name).disk (name ++ ".log") =
        drain_base env s name ∧
      (flush_buffer_internal env s name).disk = (rotate_stage env s name).2) ∧
    ((needs_open s name = false ∨ env.open_ok (name ++ ".log") = true) →
      file_content (flush_buffer_internal env s name).disk (name ++ ".log") =
        drain_base env s name ++ delivered env (name ++ ".log") b.content ∧
      (write_fails env (name ++ ".log") = true →
        (flush_buffer_internal env s name).log_buffers.find name = some b) ∧
      (write_fails env (name ++ ".log") = false →
        (flush_buffer_internal env s name).log_buffers.find name =
          some { b with content := "" })) := by
  have hout := fbi_outcome env s hb hne
  have hopen := rotate_stage_needs_open env s name
  have hsome : (needs_open s name = false ∨ env.open_ok (name ++ ".log") = true) →
      ∃ opened, open_stage env (name ++ ".log") (rotate_stage env s name) = some opened := by
    intro h
    rcases h with h | h
    · exact ⟨_, open_stage_open env _ (by rw [hopen, h]; rfl)⟩
    · exact open_stage_some env _ h
  refine ⟨fun hn ho => ?_, fun h => ?_⟩
  · have hnone := open_stage_fails env (rotate_stage env s name) (by rw [hopen, hn]; rfl) ho
    rw [hout.1 hnone]
    exact ⟨Map.find_set_self _ _ _, rotate_stage_content env s name, rfl⟩
  · obtain ⟨opened, hop⟩ := hsome h
    have hopd := fbi_opened env s hb hne hop
    refine ⟨?_, fun hw => ?_, fun hw => ?_⟩
    · rw [hopd.1, file_content_append_file, open_stage_content env hop, rotate_stage_content]
    · rw [(hopd.2.1 hw).2]; exact hb
    · rw [(hopd.2.2 hw).2]; exact Map.find_set_self _ _ _

theorem open_or_not (env : IOEnv) (s : Logger) (name : String) :
    (needs_open s name = true ∧ env.open_ok (name ++ ".log") = false) ∨
    (needs_open s name = false ∨ env.open_ok (name ++ ".log") = true) := by
  cases needs_open s name <;> cases env.open_ok (name ++ ".log") <;> simp

theorem buffer_find_of_nonempty (s : Logger) (name : String) (h : buffer_content s name ≠ "") :
    ∃ b, s.log_buffers.find name = some b ∧ b.content = buffer_content s name ∧
      b.content ≠ "" := by
  cases hf : s.log_buffers.find name with
  | none => simp [buffer_content, hf] at h
  | some b =>
    have hbc := buffer_content_of_find hf
    exact ⟨b, rfl, hbc.symm, by rw [← hbc]; exact h⟩

theorem drain_base_keep (env : IOEnv) (s : Logger) (name : String)
    (h : must_rotate s name = false ∨ env.rename_ok (name ++ ".log") = false) :
    drain_base env s name = file_content s.disk (name ++ ".log") := by
  unfold drain_base
  rcases h with h | h <;> simp [h]

theorem drain_base_restart (env : IOEnv) (s : Logger) (name : String)
    (h1 : must_rotate s name = true) (h2 : env.rename_ok (name ++ ".log") = true) :
    drain_base env s name = "" := by
  simp [drain_base, h1, h2]

/-- C14 (drain atomicity on the buffer), as the code has it. A drain of a
non-empty buffer whose output failure, if there is one, appears in `write()`,
where the program tests for it, has one of three outcomes. The file had to be
opened and the open failed: nothing is written and the buffer is emptied, its
content is dropped. Or all the data reached the file: the entire buffer
content is at the end of the file and the buffer is empty. Or the write
failed: the buffer is left exactly as it was. -/
theorem drain_atomicity (env : IOEnv) (s : Logger) (name : String) (b : LogBuffer)
    (hb : s.log_buffers.find name = some b) (hne : b.content ≠ "")
    (hseen : env.failure_seen (name ++ ".log")) :
    (needs_open s name = true ∧ env.open_ok (name ++ ".log") = false ∧
      buffer_content (flush_buffer_internal env s name) name = "" ∧
      file_content (flush_buffer_internal env s name).disk (name ++ ".log") =
        drain_base env s name) ∨
    (env.write_fail (name ++ ".log") = none ∧
      buffer_content (flush_buffer_internal env s name) name = "" ∧
      file_content (flush_buffer_internal env s name).disk (name ++ ".log") =
        drain_base env s name ++ b.content) ∨
    (∃ k, env.write_fail (name ++ ".log") = some k ∧
      (flush_buffer_internal env s name).log_buffers.find name = some b ∧
      file_content (flush_buffer_internal env s name).disk (name ++ ".log") =
        drain_base env s name ++ String.mk (b.content.data.take k)) := by
  have hc := fbi_cases env s hb hne
  rcases open_or_not env s name with hfail | hok
  · have h := hc.1 hfail.1 hfail.2
    exact Or.inl ⟨hfail.1, hfail.2, by simp [buffer_content, h.1], h.2.1⟩
  · obtain ⟨hfile, hkept, hemptied⟩ := hc.2 hok
    cases hw : env.write_fail (name ++ ".log") with
    | none =>
      have h := hemptied (write_fails_complete hw)
      exact Or.inr (Or.inl ⟨rfl, by simp [buffer_content, h],
        by rw [hfile, delivered_complete hw]⟩)
    | some k =>
      have hrep : env.write_reported (name ++ ".log") = true := by
        rcases hseen with h | h
        · rw [hw] at h; simp at h
        · exact h
      have h := hkept (by rw [write_fails_short hw, hrep])
      exact Or.inr (Or.inr ⟨k, rfl, h, by rw [hfile, delivered_short hw]⟩)

/-- Witness of C14: a drain whose open and output succeed. -/
theorem drain_atomicity_witness :
    (needs_open pending "a" = true ∧ IOEnv.good.open_ok ("a" ++ ".log") = false ∧
      buffer_content (flush_buffer_internal IOEnv.good pending "a") "a" = "" ∧
      file_content (flush_buffer_internal IOEnv.good pending "a").disk ("a" ++ ".log") =
        drain_base IOEnv.good pending "a") ∨
    (IOEnv.good.write_fail ("a" ++ ".log") = none ∧
      buffer_content (flush_buffer_internal IOEnv.good pending "a") "a" = "" ∧
      file_content (flush_buffer_internal IOEnv.good pending "a").disk ("a" ++ ".log") =
        drain_base IOEnv.good pending "a" ++
          ({ content := "new", last_write := 7 } : LogBuffer).content) ∨
    (∃ k, IOEnv.good.write_fail ("a" ++ ".log") = some k ∧
      (flush_buffer_internal IOEnv.good pending "a").log_buffers.find "a" =
        some { content := "new", last_write := 7 } ∧
      file_content (flush_buffer_internal IOEnv.good pending "a").disk ("a" ++ ".log") =
        drain_base IOEnv.good pending "a" ++
          String.mk (({ content := "new", last_write := 7 } : LogBuffer).content.data.take k)) :=
  drain_atomicity IOEnv.good pending "a" { content := "new", last_write := 7 }
    (by decide) (by decide) (Or.inl rfl)

/-- Counterexample to C14 as stated: the open fails, an I/O failure, and the
buffer is not left untouched: it held "new" and is empty after the drain,
while the file still holds "12345" only. And when the output fails after one
byte in the `flush()`, the buffer is emptied as well, while the file holds
"12345n": the buffer content was neither written entirely nor left
untouched. -/
theorem open_failure_drops_buffer :
    buffer_content pending "a" = "new" ∧
    buffer_content (flush_buffer_internal IOEnv.no_open pending "a") "a" = "" ∧
    (flush_buffer_internal IOEnv.no_open pending "a").disk = [("a.log", "12345")] ∧
    buffer_content (flush_buffer_internal IOEnv.short_flush pending "a") "a" = "" ∧
    (flush_buffer_internal IOEnv.short_flush pending "a").disk = [("a.log", "12345n")] := by
  decide

/-! ## Rotation scenario -/

/-- A first drain: the stream has no sink yet, the open and the write succeed.
The file is opened and extended by the buffer content, whatever the rotation
limit; no file is renamed. -/
theorem first_drain (env : IOEnv) (s : Logger) {name : String} {b : LogBuffer}
    (hs : s.log_files.find name = none)
    (hb : s.log_buffers.find name = some b) (hne : b.content ≠ "")
    (ho : env.open_ok (name ++ ".log") = true) (hw : env.write_fail (name ++ ".log") = none) :
    (flush_buffer_internal env s name).disk.find (name ++ ".log") =
      some (file_content s.disk (name ++ ".log") ++ b.content) ∧
    (flush_buffer_internal env s name).disk.find (name ++ ".log" ++ ".old") =
      s.disk.find (name ++ ".log" ++ ".old") ∧
    (flush_buffer_internal env s name).log_files.find name =
      some { is_open := true,
             current_size := (file_content s.disk (name ++ ".log")).length + b.content.length } ∧
    (flush_buffer_internal env s name).log_buffers.find name = some { b with content := "" } ∧
    (flush_buffer_internal env s name).log_size_limit = s.log_size_limit := by
  have hsink : sink_of s name = { is_open := false, current_size := 0 } := by
    simp [sink_of, hs]
  have hrot : must_rotate s name = false := by simp [must_rotate, hsink]
  have hrs := rotate_stage_keep env s name hrot
  have hos := open_stage_closed env (rotate_stage env s name) (by rw [hrs, hsink]) ho
  rw [(fbi_outcome env s hb hne).2.2.1 _ hos hw, hrs]
  refine ⟨?_, ?_, ?_, Map.find_set_self _ _ _, rfl⟩
  · show (append_file _ _ _).find _ = _
    simp [append_file, Map.find_set_self, file_content_open_append]
  · show (append_file _ _ _).find _ = _
    rw [append_file_frame _ _ (path_ne_old _), open_append_frame _ (path_ne_old _)]
  · show (Map.set _ _ _).find _ = _
    rw [Map.find_set_self]

/-- A drain that finds the sink open above the limit, with rename, reopen and
write succeeding: the previous file becomes the `.old` file and the new file
holds the buffer content. -/
theorem rotating_drain (env : IOEnv) (s : Logger) {name c : String} {f : LogFile}
    {b : LogBuffer} (hf : s.log_files.find name = some f) (hopen : f.is_open = true)
    (hsize : f.current_size > s.log_size_limit)
    (hb : s.log_buffers.find name = some b) (hne : b.content ≠ "")
    (hfile : s.disk.find (name ++ ".log") = some c)
    (hren : env.rename_ok (name ++ ".log") = true)
    (ho : env.open_ok (name ++ ".log") = true) (hw : env.write_fail (name ++ ".log") = none) :
    (flush_buffer_internal env s name).disk.find (name ++ ".log" ++ ".old") = some c ∧
    (flush_buffer_internal env s name).disk.find (name ++ ".log") = some b.content := by
  have hrot := must_rotate_of_sink s hf hopen hsize
  obtain ⟨hr1, hr2, hr3⟩ := rotate_stage_done env s hrot hfile hren
  have hos := open_stage_closed env (rotate_stage env s name) (by rw [hr1]) ho
  have hempty : file_content (rotate_stage env s name).2 (name ++ ".log") = "" := by
    simp [file_content, hr2]
  rw [(fbi_outcome env s hb hne).2.2.1 _ hos hw]
  constructor
  · show (append_file _ _ _).find _ = _
    rw [append_file_frame _ _ (path_ne_old _), open_append_frame _ (path_ne_old _)]
    exact hr3
  · show (append_file _ _ _).find _ = _
    simp [append_file, Map.find_set_self, file_content_open_append, hempty]

theorem buffered_write_limit (s : Logger) (c : IOEnv × Op) (h : buffered_write s c.2 = true) :
    (step s c).log_size_limit = s.log_size_limit := by
  obtain ⟨env, op⟩ := c
  cases op with
  | write_log ts now name level msg =>
    simp only [buffered_write, Bool.and_eq_true, decide_eq_true_eq] at h
    obtain ⟨⟨⟨hrun, hacc⟩, hl⟩, hsz⟩ := h
    simp only [step]
    rw [write_log_accepted env ts now s name level msg hrun hacc,
      add_to_buffer_keeps env now s name _ level hl hsz]
    rfl
  | _ => simp [buffered_write] at h

theorem all_buffered_limit (trace : List (IOEnv × Op)) (s : Logger)
    (h : all_buffered s trace = true) : (run s trace).log_size_limit = s.log_size_limit := by
  induction trace generalizing s with
  | nil => rfl
  | cons c rest ih =>
    simp only [all_buffered, Bool.and_eq_true] at h
    have hrun_eq : run s (c :: rest) = run (step s c) rest := rfl
    rw [hrun_eq, ih (step s c) h.2, buffered_write_limit s c h.1]

theorem str_ne_empty_of_length {t : String} {n : Nat} (h : t.length > n) : t ≠ "" := by
  intro e
  rw [e] at h
  have h3 : ("" : String).length = 0 := rfl
  omega

/-- Writes that stay in the buffer, then a flush: on a fresh manager with an
empty directory the flush whose open and output succeed leaves all the
written bytes in `name.log`, and no `name.log.old`; the sink is open and the
next drain rotates the file when it holds more than the limit. -/
theorem buffered_then_flushed (level : LogLevel) (N : Nat) (trace : List (IOEnv × Op))
    (name : String) (env : IOEnv)
    (hbuf : all_buffered (Logger.init level N []) trace = true)
    (hsize : (submitted level name trace).length > N)
    (henv : env.no_failure) :
    (flush_buffer env (run (Logger.init level N []) trace) name).disk.find (name ++ ".log") =
      some (submitted level name trace) ∧
    (file_content (flush_buffer env (run (Logger.init level N []) trace) name).disk
      (name ++ ".log")).length > N ∧
    (flush_buffer env (run (Logger.init level N []) trace) name).disk.find
      (name ++ ".log" ++ ".old") = none ∧
    (flush_buffer env (run (Logger.init level N []) trace) name).log_files.find name =
      some { is_open := true, current_size := (submitted level name trace).length } ∧
    ∀ (env2 : IOEnv) (now : Int) (text : String), text ≠ "" →
      env2.rename_ok (name ++ ".log") = true → env2.open_ok (name ++ ".log") = true →
      env2.write_fail (name ++ ".log") = none →
      (flush_buffer env2
        (append_content now (flush_buffer env (run (Logger.init level N []) trace) name)
          name text) name).disk.find (name ++ ".log" ++ ".old") =
        some (submitted level name trace) ∧
      (flush_buffer env2
        (append_content now (flush_buffer env (run (Logger.init level N []) trace) name)
          name text) name).disk.find (name ++ ".log") = some text := by
  simp only [flush_buffer]
  have hr := all_buffered_run trace _ hbuf
  have hbufc : buffer_content (run (Logger.init level N []) trace) name =
      submitted level name trace := by
    rw [hr.2.2 name]
    simp [buffer_content, Logger.init, Map.find]
  have hne : buffer_content (run (Logger.init level N []) trace) name ≠ "" := by
    rw [hbufc]; exact str_ne_empty_of_length hsize
  obtain ⟨b, hb, hbc, hbne⟩ := buffer_find_of_nonempty _ name hne
  have hsink : (run (Logger.init level N []) trace).log_files.find name = none := by
    rw [hr.1]; rfl
  have hdisk : (run (Logger.init level N []) trace).disk = [] := hr.2.1
  have hfd := first_drain env _ hsink hb hbne (henv _).1 (henv _).2
  have hfc : file_content (run (Logger.init level N []) trace).disk (name ++ ".log") = "" := by
    rw [hdisk]; rfl
  rw [hfc] at hfd
  have hcontent : b.content = submitted level name trace := hbc.trans hbufc
  rw [hcontent] at hfd
  simp only [String.empty_append, String.length_empty, Nat.zero_add] at hfd
  refine ⟨hfd.1, ?_, ?_, hfd.2.2.1, fun env2 now text htext hren ho hw => ?_⟩
  · simp only [file_content, hfd.1, Option.getD_some]
    exact hsize
  · rw [hfd.2.1, hdisk]; rfl
  · obtain ⟨b2, hb2, hb2c, hb2ne⟩ := append_content_nonempty now
      (flush_buffer_internal env (run (Logger.init level N []) trace) name) name text htext
    have hbuf1 : buffer_content
        (flush_buffer_internal env (run (Logger.init level N []) trace) name) name = "" := by
      simp [buffer_content, hfd.2.2.2.1]
    have hb2text : b2.content = text := by rw [hb2c, hbuf1]; simp
    have hlim : (flush_buffer_internal env (run (Logger.init level N []) trace)
        name).log_size_limit = N := by
      rw [hfd.2.2.2.2]
      exact all_buffered_limit trace (Logger.init level N []) hbuf
    have hgt : ({ is_open := true, current_size := (submitted level name trace).length } :
        LogFile).current_size >
        (append_content now
          (flush_buffer_internal env (run (Logger.init level N []) trace) name)
          name text).log_size_limit := by
      show _ > (flush_buffer_internal env (run (Logger.init level N []) trace)
        name).log_size_limit
      rw [hlim]; exact hsize
    have hf2 : (append_content now
        (flush_buffer_internal env (run (Logger.init level N []) trace) name)
        name text).log_files.find name =
        some { is_open := true, current_size := (submitted level name trace).length } :=
      hfd.2.2.1
    have hd2 : (append_content now
        (flush_buffer_internal env (run (Logger.init level N []) trace) name)
        name text).disk.find (name ++ ".log") = some (submitted level name trace) := hfd.1
    have := rotating_drain env2 _ hf2 rfl hgt hb2 hb2ne hd2 hren ho hw
    rw [this.1, this.2, hb2text]
    exact ⟨rfl, rfl⟩

/-- Counterexample to C12 as stated: with rotation limit 5, an accepted write of
21 bytes to "main" on a fresh manager followed by a flush leaves `main.log`
with 21 bytes, more than the limit, and no `main.log.old`. -/
theorem first_flush_exceeds_limit :
    (flush_buffer IOEnv.good
      (write_log IOEnv.good "T" 0 (Logger.init .INFO 5 []) "main" .INFO "hello world")
      "main").disk = [("main.log", "T [INFO] hello world\n")] ∧
    (file_content (flush_buffer IOEnv.good
      (write_log IOEnv.good "T" 0 (Logger.init .INFO 5 []) "main" .INFO "hello world")
      "main").disk "main.log").length = 21 ∧
    (flush_buffer IOEnv.good
      (write_log IOEnv.good "T" 0 (Logger.init .INFO 5 []) "main" .INFO "hello world")
      "main").disk.find "main.log.old" = none := by
  decide

/-! ## Byte counters -/

theorem fbi_files_shape (env : IOEnv) (s : Logger) (name : String) :
    (flush_buffer_internal env s name).log_files = s.log_files ∨
    ∃ sink, (flush_buffer_internal env s name).log_files = s.log_files.set name sink := by
  unfold flush_buffer_internal
  split
  · exact Or.inl rfl
  · split_ifs
    · exact Or.inl rfl
    · dsimp only
      split
      · exact Or.inr ⟨_, rfl⟩
      · split
        · exact Or.inr ⟨_, rfl⟩
        · exact Or.inr ⟨_, rfl⟩

theorem fbi_files_ordered (env : IOEnv) (s : Logger) (name : String)
    (h : s.log_files.ordered) : (flush_buffer_internal env s name).log_files.ordered := by
  rcases fbi_files_shape env s name with e | ⟨sink, e⟩
  · rw [e]; exact h
  · rw [e]; exact Map.ordered_set _ _ _ h

theorem open_stage_is_open (env : IOEnv) {path : String} {fd opened : LogFile × Map String}
    (h : open_stage env path fd = some opened) : opened.1.is_open = true := by
  unfold open_stage at h
  split_ifs at h with h1 h2
  · simp only [Option.some.injEq] at h
    rw [← h]; exact h1
  · simp only [Option.some.injEq] at h
    rw [← h]

/-- After the open stage the counter is the length of the file, when it was so
for a handle that was already open. -/
theorem open_stage_counter (env : IOEnv) {path : String} {fd opened : LogFile × Map String}
    (h : open_stage env path fd = some opened)
    (hc : fd.1.is_open = true → fd.1.current_size = (file_content fd.2 path).length) :
    opened.1.current_size = (file_content opened.2 path).length := by
  unfold open_stage at h
  split_ifs at h with h1 h2
  · simp only [Option.some.injEq] at h
    rw [← h]; exact hc h1
  · simp only [Option.some.injEq] at h
    rw [← h]

theorem rotate_stage_counter (env : IOEnv) (s : Logger) (name : String)
    (hinv : counters_match s) :
    (rotate_stage env s name).1.is_open = true →
      (rotate_stage env s name).1.current_size =
        (file_content (rotate_stage env s name).2 (name ++ ".log")).length := by
  unfold rotate_stage
  split_ifs with h
  · intro h1; simp at h1
  · intro h1
    simp only at h1 ⊢
    unfold sink_of at h1 ⊢
    cases hf : s.log_files.find name with
    | none => simp [hf] at h1
    | some f =>
      simp only [hf, Option.getD_some] at h1 ⊢
      obtain ⟨c, hc1, hc2⟩ := hinv name f hf h1
      simp [file_content, hc1, hc2]

/-- A drain whose output failure, if there is one, appears in `write()` keeps
the counters of the open sinks equal to the lengths of their files. -/
theorem fbi_counters (env : IOEnv) (s : Logger) (name : String)
    (hseen : env.failure_seen (name ++ ".log")) (hinv : counters_match s) :
    counters_match (flush_buffer_internal env s name) := by
  intro t f hf ho
  by_cases hnt : name = t
  · subst hnt
    by_cases hempty : buffer_content s name = ""
    · rw [fbi_noop env s name hempty] at hf ⊢
      exact hinv name f hf ho
    · obtain ⟨b, hb, _, hbne⟩ := buffer_find_of_nonempty s name hempty
      have hout := fbi_outcome env s hb hbne
      cases hos : open_stage env (name ++ ".log") (rotate_stage env s name) with
      | none =>
        rw [hout.1 hos] at hf
        have hf2 : (s.log_files.set name (rotate_stage env s name).1).find name = some f := hf
        rw [Map.find_set_self] at hf2
        simp only [Option.some.injEq] at hf2
        have hclosed : (rotate_stage env s name).1.is_open = false := by
          unfold open_stage at hos
          split_ifs at hos with h1 h2
          simpa using h1
        rw [← hf2, hclosed] at ho
        simp at ho
      | some opened =>
        cases hw : env.write_fail (name ++ ".log") with
        | some k =>
          have hrep : env.write_reported (name ++ ".log") = true := by
            rcases hseen with h | h
            · rw [hw] at h; simp at h
            · exact h
          rw [hout.2.1 opened k hos hw hrep] at hf
          have hf2 : (s.log_files.set name { opened.1 with is_open := false }).find name
              = some f := hf
          rw [Map.find_set_self] at hf2
          simp only [Option.some.injEq] at hf2
          rw [← hf2] at ho
          simp at ho
        | none =>
          rw [hout.2.2.1 opened hos hw] at hf ⊢
          have hf2 : (s.log_files.set name
              { opened.1 with current_size := opened.1.current_size + b.content.length }).find
              name = some f := hf
          rw [Map.find_set_self] at hf2
          simp only [Option.some.injEq] at hf2
          have hcount := open_stage_counter env hos (rotate_stage_counter env s name hinv)
          refine ⟨file_content opened.2 (name ++ ".log") ++ b.content, ?_, ?_⟩
          · show (append_file _ _ _).find _ = _
            simp [append_file, Map.find_set_self]
          · rw [← hf2, String.length_append, ← hcount]
  · rw [fbi_files_frame env s hnt] at hf
    obtain ⟨c, hc1, hc2⟩ := hinv t f hf ho
    refine ⟨c, ?_, hc2⟩
    rw [fbi_disk_frame env s (log_inj hnt) (fun e => log_ne_old t name e.symm)]
    exact hc1

theorem fbi_sinks_sound (env : IOEnv) (s : Logger) (name : String)
    (hseen : ∀ path, env.failure_seen path) (h : sinks_sound s) :
    sinks_sound (flush_buffer_internal env s name) :=
  ⟨fbi_files_ordered env s name h.1, fbi_counters env s name (hseen _) h.2⟩

theorem append_content_sinks_sound (now : Int) (s : Logger) (name content : String)
    (h : sinks_sound s) : sinks_sound (append_content now s name content) := h

theorem add_to_buffer_sinks_sound (env : IOEnv) (now : Int) (s : Logger)
    (name content : String) (level : LogLevel) (hseen : ∀ path, env.failure_seen path)
    (h : sinks_sound s) : sinks_sound (add_to_buffer env now s name content level) := by
  rcases add_to_buffer_cases env now s name content level with e | e
  · rw [e]; exact h
  · rw [e]
    exact fbi_sinks_sound env _ name hseen (append_content_sinks_sound now s name content h)

theorem sinks_sound_of_empty (s : Logger) (h : s.log_files = []) : sinks_sound s := by
  refine ⟨by rw [h]; exact Map.ordered_nil, fun name f hf _ => ?_⟩
  rw [h] at hf
  simp [Map.find] at hf

/-- Every operation whose output failures appear in `write()` keeps the
counters of the open sinks sound. -/
theorem step_sinks_sound (s : Logger) (c : IOEnv × Op) (hseen : ∀ path, c.1.failure_seen path)
    (h : sinks_sound s) : sinks_sound (step s c) := by
  obtain ⟨env, op⟩ := c
  cases op with
  | write_log ts now name level msg =>
    simp only [step, write_log]
    split_ifs
    · exact h
    · exact add_to_buffer_sinks_sound env now s name _ level hseen h
  | batch_write ts now name entries =>
    simp only [step, batch_write]
    split_ifs
    · exact h
    · exact add_to_buffer_sinks_sound env now s name _ _ hseen h
    · exact add_to_buffer_sinks_sound env now s name _ _ hseen h
    · exact h
  | flush_buffer name => exact fbi_sinks_sound env s name hseen h
  | flush_all =>
    simp only [step]
    rw [flush_all_eq]
    exact foldl_drain_induct env _ (fun _ _ => Or.inl rfl) sinks_sound
      (fun s1 t h1 => fbi_sinks_sound env s1 t hseen h1) _ s h
  | clean_logs =>
    simp only [step, clean_logs]
    split_ifs <;> exact sinks_sound_of_empty _ rfl
  | stop =>
    simp only [step, stop]
    split_ifs
    · exact sinks_sound_of_empty _ rfl
    · exact h
  | set_buffer_size _ => exact h
  | set_log_level _ => exact h
  | set_log_size_limit _ => exact h
  | set_low_power_mode _ => exact h
  | flush_thread_step now =>
    simp only [step, flush_thread_step]
    split_ifs
    · exact h
    · have h1 := foldl_drain_induct env _ (sweep_buffer_cases env now) sinks_sound
        (fun s1 t h1 => fbi_sinks_sound env s1 t hseen h1) s.log_buffers.keys s h
      refine ⟨Map.ordered_filter _ _ h1.1, fun name f hf ho => ?_⟩
      have hf2 : Map.find ((List.foldl (sweep_buffer env now) s s.log_buffers.keys).log_files.filter
          (fun e => e.2.is_open)) name = some f := hf
      rw [Map.find_filter_ordered _ h1.1] at hf2
      cases hfind : Map.find (List.foldl (sweep_buffer env now) s s.log_buffers.keys).log_files
          name with
      | none => simp [hfind] at hf2
      | some v =>
        simp only [hfind] at hf2
        split_ifs at hf2 with hv
        simp only [Option.some.injEq] at hf2
        subst hf2
        exact h1.2 name v hfind ho

/-- In every run in which the output failures appear in `write()`, whatever
opens, writes, renames and unlinks fail, every sink whose handle is open has a
counter equal to the length of its file. -/
theorem run_sinks_sound (trace : List (IOEnv × Op)) (s : Logger)
    (hseen : ∀ c ∈ trace, ∀ path, c.1.failure_seen path) (h : sinks_sound s) :
    sinks_sound (run s trace) := by
  induction trace generalizing s with
  | nil => exact h
  | cons c rest ih =>
    exact ih _ (fun d hd => hseen d (List.mem_cons_of_mem _ hd))
      (step_sinks_sound s c (hseen c (List.mem_cons_self _ _)) h)

/-- The sink of a stream after a drain of its non-empty buffer. When the
handle was open and stays open the counter grows by the size of the buffer
when `fail()` does not hold after `write()`, and is unchanged when it holds,
which closes the handle. When the file is (re)opened the counter is first set
to the length of the file, the end-of-file offset. -/
theorem fbi_sink_cases (env : IOEnv) (s : Logger) {name : String} {b : LogBuffer}
    (hb : s.log_buffers.find name = some b) (hne : b.content ≠ "") :
    (needs_open s name = false → write_fails env (name ++ ".log") = false →
      (flush_buffer_internal env s name).log_files.find name =
        some { is_open := true,
               current_size := (sink_of s name).current_size + b.content.length }) ∧
    (needs_open s name = false → write_fails env (name ++ ".log") = true →
      (flush_buffer_internal env s name).log_files.find name =
        some { is_open := false, current_size := (sink_of s name).current_size }) ∧
    (needs_open s name = true → env.open_ok (name ++ ".log") = true →
      write_fails env (name ++ ".log") = false →
      (flush_buffer_internal env s name).log_files.find name =
        some { is_open := true,
               current_size := (drain_base env s name).length + b.content.length }) ∧
    (needs_open s name = true → env.open_ok (name ++ ".log") = true →
      write_fails env (name ++ ".log") = true →
      (flush_buffer_internal env s name).log_files.find name =
        some { is_open := false, current_size := (drain_base env s name).length }) := by
  have hopen := rotate_stage_needs_open env s name
  have hkeep : needs_open s name = false →
      open_stage env (name ++ ".log") (rotate_stage env s name) =
        some (sink_of s name, s.disk) ∧ (sink_of s name).is_open = true := by
    intro hn
    have hmr : must_rotate s name = false := by
      unfold needs_open at hn
      simp only [Bool.or_eq_false_iff] at hn
      exact hn.2
    have hso : (sink_of s name).is_open = true := by
      unfold needs_open at hn
      simp only [Bool.or_eq_false_iff, Bool.not_eq_false'] at hn
      exact hn.1
    rw [rotate_stage_keep env s name hmr]
    exact ⟨open_stage_open env _ hso, hso⟩
  have hre : needs_open s name = true → env.open_ok (name ++ ".log") = true →
      open_stage env (name ++ ".log") (rotate_stage env s name) =
        some ({ is_open := true, current_size := (drain_base env s name).length },
          open_append (rotate_stage env s name).2 (name ++ ".log")) := by
    intro hn ho
    rw [open_stage_closed env _ (by rw [hopen, hn]; rfl) ho, rotate_stage_content]
  refine ⟨fun hn hw => ?_, fun hn hw => ?_, fun hn ho hw => ?_, fun hn ho hw => ?_⟩
  · obtain ⟨hos, hso⟩ := hkeep hn
    rw [((fbi_opened env s hb hne hos).2.2 hw).1, Map.find_set_self]
    simp [hso]
  · obtain ⟨hos, hso⟩ := hkeep hn
    rw [((fbi_opened env s hb hne hos).2.1 hw).1, Map.find_set_self]
  · rw [((fbi_opened env s hb hne (hre hn ho)).2.2 hw).1, Map.find_set_self]
  · rw [((fbi_opened env s hb hne (hre hn ho)).2.1 hw).1, Map.find_set_self]

/-- C15 (`current_size` invariant), at an input where the program breaks it.
The log directory holds `a.log` with the 5 bytes "12345"; a fresh manager gets
one Error entry for the stream "a", whose rendered line has 12 bytes; the file
is opened, `write()` keeps the line in the stream buffer, and the `flush()`
of line 280 fails after one byte reached the file. The program has tested
`fail()` before the flush, so it takes the branch of a successful write: the
buffer is emptied and the sink is left open with `current_size` 17, while
`a.log` holds the 6 bytes "12345T". -/
theorem flush_failure_breaks_counter :
    (run (Logger.init .INFO 102400 [("a.log", "12345")])
      [(IOEnv.short_flush, .write_log "T" 0 "a" .ERROR "x")]).log_files.find "a" =
        some { is_open := true, current_size := 17 } ∧
    (run (Logger.init .INFO 102400 [("a.log", "12345")])
      [(IOEnv.short_flush, .write_log "T" 0 "a" .ERROR "x")]).disk.find ("a" ++ ".log") =
        some "12345T" ∧
    ("12345T" : String).length = 6 ∧
    buffer_content (run (Logger.init .INFO 102400 [("a.log", "12345")])
      [(IOEnv.short_flush, .write_log "T" 0 "a" .ERROR "x")]) "a" = "" ∧
    ¬ counters_match (run (Logger.init .INFO 102400 [("a.log", "12345")])
      [(IOEnv.short_flush, .write_log "T" 0 "a" .ERROR "x")]) := by
  refine ⟨by decide, by decide, by decide, by decide, fun h => ?_⟩
  obtain ⟨c, hc1, hc2⟩ := h "a" { is_open := true, current_size := 17 } (by decide) rfl
  have hc : c = "12345T" := by
    have h2 : (run (Logger.init .INFO 102400 [("a.log", "12345")])
      [(IOEnv.short_flush, .write_log "T" 0 "a" .ERROR "x")]).disk.find ("a" ++ ".log") =
        some "12345T" := by decide
    rw [h2] at hc1
    exact (Option.some.inj hc1).symm
  rw [hc] at hc2
  exact absurd hc2 (by decide)

/-- Apart from an output failure that appears only in the `flush()`, the
counters are sound: in every state reached from a fresh manager by public
operations and sweep iterations whose output failures appear in `write()`,
whatever opens, writes, renames and unlinks fail, every sink whose handle is
open has `current_size` equal to the byte length of its file `name.log`, which
exists. -/
theorem counters_sound_when_failures_seen (level : LogLevel) (size_limit : Nat)
    (disk : Map String) (trace : List (IOEnv × Op))
    (hseen : ∀ c ∈ trace, ∀ path, c.1.failure_seen path) (name : String) (f : LogFile)
    (hf : (run (Logger.init level size_limit disk) trace).log_files.find name = some f)
    (ho : f.is_open = true) :
    ∃ c, (run (Logger.init level size_limit disk) trace).disk.find (name ++ ".log") = some c ∧
      f.current_size = c.length :=
  (run_sinks_sound trace _ hseen (sinks_sound_of_empty _ rfl)).2 name f hf ho

/-! ## After shutdown -/

theorem stop_stopped (env : IOEnv) (s : Logger) (h : s.running = true) :
    stopped (stop env s) := by
  refine ⟨stop_running env s, ?_, ?_⟩
  · unfold stop; rw [if_pos h]
  · unfold stop; rw [if_pos h]

theorem fbi_of_no_buffers (env : IOEnv) (s : Logger) (name : String)
    (h : s.log_buffers = []) : flush_buffer_internal env s name = s :=
  fbi_noop env s name (by simp [buffer_content, h, Map.find])

theorem flush_all_of_no_buffers (env : IOEnv) (s : Logger) (h : s.log_buffers = []) :
    flush_all env s = s := by
  unfold flush_all
  rw [h]
  rfl

/-- On a stopped manager every operation but `clean_logs` and the setters
returns the state it was given. -/
theorem stopped_noops (s : Logger) (h : stopped s) :
    (∀ (env : IOEnv) (ts : String) (now : Int) (name : String) (level : LogLevel)
      (msg : String), write_log env ts now s name level msg = s) ∧
    (∀ (env : IOEnv) (ts : String) (now : Int) (name : String)
      (entries : List (LogLevel × String)), batch_write env ts now s name entries = s) ∧
    (∀ (env : IOEnv) (name : String), flush_buffer env s name = s) ∧
    (∀ env : IOEnv, flush_all env s = s) ∧
    (∀ env : IOEnv, stop env s = s) ∧
    (∀ (env : IOEnv) (now : Int), flush_thread_step env now s = s) :=
  ⟨fun env ts now name level msg => write_log_stopped env ts now s name level msg h.1,
   fun env ts now name entries => batch_write_stopped env ts now s name entries h.1,
   fun env name => fbi_of_no_buffers env s name h.2.1,
   fun env => flush_all_of_no_buffers env s h.2.1,
   fun env => stop_of_stopped env s h.1,
   fun env now => by simp [flush_thread_step, h.1]⟩

theorem step_stopped (s : Logger) (c : IOEnv × Op) (h : stopped s) : stopped (step s c) := by
  have hn := stopped_noops s h
  obtain ⟨env, op⟩ := c
  cases op with
  | write_log ts now name level msg =>
    simp only [step]; rw [hn.1]; exact h
  | batch_write ts now name entries =>
    simp only [step]; rw [hn.2.1]; exact h
  | flush_buffer name =>
    simp only [step]; rw [hn.2.2.1]; exact h
  | flush_all =>
    simp only [step]; rw [hn.2.2.2.1]; exact h
  | clean_logs =>
    simp only [step, clean_logs]
    split_ifs <;> exact ⟨h.1, rfl, rfl⟩
  | stop =>
    simp only [step]; rw [hn.2.2.2.2.1]; exact h
  | set_buffer_size _ => exact h
  | set_log_level _ => exact h
  | set_log_size_limit _ => exact h
  | set_low_power_mode _ => exact h
  | flush_thread_step now =>
    simp only [step]; rw [hn.2.2.2.2.2]; exact h

theorem run_stopped (trace : List (IOEnv × Op)) (s : Logger) (h : stopped s) :
    stopped (run s trace) := by
  induction trace generalizing s with
  | nil => exact h
  | cons c rest ih => exact ih _ (step_stopped s c h)

theorem clean_logs_disk (env : IOEnv) (s : Logger) (name : String) :
    (clean_logs env s).disk.find name =
      if env.opendir_ok = true ∧
          (ends_with name ".log" = true ∨ ends_with name ".log.old" = true) ∧
          env.unlink_ok name = true
      then none else s.disk.find name := by
  unfold clean_logs
  by_cases hd : env.opendir_ok = true
  · rw [if_pos hd]
    show (s.disk.keys.foldl (clean_entry env) s.disk).find name = _
    rw [clean_loop_find, is_log_file_eq]
    simp only [Bool.or_eq_true, hd, true_and]
    by_cases hm : name ∈ s.disk.keys
    · simp [hm]
    · rw [Map.find_of_not_mem_keys _ hm]
      simp
  · rw [if_neg hd]
    simp [hd]

/-- C18 (operations after shutdown), as the code has it. In every state
reached after `stop()` was called on a running manager, whatever operations
followed, the manager is not running and has no buffer and no sink;
`write_log`, `batch_write`, `flush_buffer`, `flush_all` and `stop` return the
state they are given, so buffers, sinks and files are unchanged. `clean_logs`
is not rejected: buffers and sinks stay empty, but it removes from the
directory every file whose name ends in ".log" or ".log.old" and whose
`unlink` succeeds, as on a running manager. -/
theorem operations_after_shutdown (env0 : IOEnv) (s : Logger) (hrun : s.running = true)
    (trace : List (IOEnv × Op)) :
    (run (stop env0 s) trace).running = false ∧
    (run (stop env0 s) trace).log_buffers = [] ∧
    (run (stop env0 s) trace).log_files = [] ∧
    (∀ (env : IOEnv) (time_str : String) (now : Int) (log_name : String) (level : LogLevel)
      (message : String),
      write_log env time_str now (run (stop env0 s) trace) log_name level message =
        run (stop env0 s) trace) ∧
    (∀ (env : IOEnv) (time_str : String) (now : Int) (log_name : String)
      (entries : List (LogLevel × String)),
      batch_write env time_str now (run (stop env0 s) trace) log_name entries =
        run (stop env0 s) trace) ∧
    (∀ (env : IOEnv) (log_name : String),
      flush_buffer env (run (stop env0 s) trace) log_name = run (stop env0 s) trace) ∧
    (∀ env : IOEnv, flush_all env (run (stop env0 s) trace) = run (stop env0 s) trace) ∧
    (∀ env : IOEnv, stop env (run (stop env0 s) trace) = run (stop env0 s) trace) ∧
    (∀ env : IOEnv,
      (clean_logs env (run (stop env0 s) trace)).log_buffers = [] ∧
      (clean_logs env (run (stop env0 s) trace)).log_files = [] ∧
      (clean_logs env (run (stop env0 s) trace)).running = false ∧
      ∀ name, (clean_logs env (run (stop env0 s) trace)).disk.find name =
        if env.opendir_ok = true ∧
            (ends_with name ".log" = true ∨ ends_with name ".log.old" = true) ∧
            env.unlink_ok name = true
        then none else (run (stop env0 s) trace).disk.find name) := by
  have hst := run_stopped trace _ (stop_stopped env0 s hrun)
  have hn := stopped_noops _ hst
  refine ⟨hst.1, hst.2.1, hst.2.2, hn.1, hn.2.1, hn.2.2.1, hn.2.2.2.1, hn.2.2.2.2.1,
    fun env => ⟨?_, ?_, ?_, clean_logs_disk env _⟩⟩
  · unfold clean_logs; split_ifs <;> rfl
  · unfold clean_logs; split_ifs <;> rfl
  · unfold clean_logs; split_ifs <;> exact hst.1

/-- Witness of C18: after `stop()` a flush of everything changes nothing. -/
theorem operations_after_shutdown_witness :
    flush_all IOEnv.good (run (stop IOEnv.good after_error) []) =
      run (stop IOEnv.good after_error) [] :=
  (operations_after_shutdown IOEnv.good after_error (by decide) []).2.2.2.2.2.2.1 IOEnv.good

/-- Counterexample to C18 as stated: after `stop()` the directory holds
`main.log`, and `clean_logs` is not rejected: it removes the file. -/
theorem clean_logs_after_stop_removes_files :
    (stop IOEnv.good after_error).running = false ∧
    (stop IOEnv.good after_error).disk = [("main.log", "T [ERROR] x\n")] ∧
    (clean_logs IOEnv.good (stop IOEnv.good after_error)).disk = [] := by
  decide

/-! ## Background sweep -/

theorem sweep_buffer_eq (env : IOEnv) (now : Int) (s : Logger) (name : String) :
    sweep_buffer env now s name =
      if sweep_due s now name = true then flush_buffer_internal env s name else s := by
  unfold sweep_buffer sweep_due idle_time
  cases s.log_buffers.find name with
  | none => simp
  | some b =>
    by_cases h : b.content = ""
    · simp [h]
    · simp [h]

theorem rename_file_find (env : IOEnv) (disk : Map String) {path old_path : String}
    (hne : path ≠ old_path) :
    (rename_file env disk path old_path).find path =
      (if (disk.find path).isSome ∧ env.rename_ok path = true then none else disk.find path) ∧
    (rename_file env disk path old_path).find old_path =
      (if (disk.find path).isSome ∧ env.rename_ok path = true then disk.find path
        else disk.find old_path) := by
  unfold rename_file
  cases hf : disk.find path with
  | none => simp [hf]
  | some c =>
    by_cases hr : env.rename_ok path = true
    · simp only [hr, if_true, Option.isSome_some, and_self]
      exact ⟨by rw [Map.find_set_ne _ _ (Ne.symm hne)]; exact Map.find_erase_self _ _,
        Map.find_set_self _ _ _⟩
    · simp [hr, hf]

theorem rotate_disk_find (env : IOEnv) (disk : Map String) (path : String) :
    (rotate_disk env disk path).find path =
      (if (disk.find path).isSome ∧ env.rename_ok path = true then none else disk.find path) ∧
    (rotate_disk env disk path).find (path ++ ".old") =
      (if (disk.find path).isSome ∧ env.rename_ok path = true then disk.find path
        else if (disk.find (path ++ ".old")).isSome ∧ env.unlink_ok (path ++ ".old") = true
          then none else disk.find (path ++ ".old")) := by
  unfold rotate_disk
  dsimp only
  by_cases hc : ((disk.find (path ++ ".old")).isSome && env.unlink_ok (path ++ ".old")) = true
  · have hc2 : (disk.find (path ++ ".old")).isSome = true ∧
        env.unlink_ok (path ++ ".old") = true := by
      simpa using hc
    rw [if_pos hc]
    have h := rename_file_find env (disk.erase (path ++ ".old")) (path_ne_old path)
    rw [h.1, h.2, Map.find_erase_ne _ (Ne.symm (path_ne_old path)), Map.find_erase_self]
    refine ⟨rfl, ?_⟩
    rw [if_pos hc2]
  · have hc2 : ¬ ((disk.find (path ++ ".old")).isSome = true ∧
        env.unlink_ok (path ++ ".old") = true) := by
      simpa using hc
    rw [if_neg hc]
    have h := rename_file_find env disk (path_ne_old path)
    rw [h.1, h.2]
    refine ⟨rfl, ?_⟩
    rw [if_neg hc2]

theorem rotate_disk_congr (env : IOEnv) (d1 d2 : Map String) (path : String)
    (h1 : d1.find path = d2.find path)
    (h2 : d1.find (path ++ ".old") = d2.find (path ++ ".old")) :
    (rotate_disk env d1 path).find path = (rotate_disk env d2 path).find path ∧
    (rotate_disk env d1 path).find (path ++ ".old") =
      (rotate_disk env d2 path).find (path ++ ".old") := by
  rw [(rotate_disk_find env d1 path).1, (rotate_disk_find env d1 path).2,
    (rotate_disk_find env d2 path).1, (rotate_disk_find env d2 path).2, h1, h2]
  exact ⟨rfl, rfl⟩

theorem rotate_stage_congr (env : IOEnv) (s1 s2 : Logger) (name : String)
    (hv : stream_view s1 name = stream_view s2 name)
    (hl : s1.log_size_limit = s2.log_size_limit) :
    (rotate_stage env s1 name).1 = (rotate_stage env s2 name).1 ∧
    (rotate_stage env s1 name).2.find (name ++ ".log") =
      (rotate_stage env s2 name).2.find (name ++ ".log") ∧
    (rotate_stage env s1 name).2.find (name ++ ".log" ++ ".old") =
      (rotate_stage env s2 name).2.find (name ++ ".log" ++ ".old") := by
  simp only [stream_view, Prod.mk.injEq] at hv
  obtain ⟨_, hf, hd1, hd2⟩ := hv
  have hsink : sink_of s1 name = sink_of s2 name := by simp [sink_of, hf]
  have hrot : must_rotate s1 name = must_rotate s2 name := must_rotate_congr hf hl
  unfold rotate_stage
  rw [hrot]
  split_ifs
  · exact ⟨rfl, rotate_disk_congr env _ _ _ hd1 hd2⟩
  · exact ⟨hsink, hd1, hd2⟩

theorem open_stage_congr (env : IOEnv) (path old_path : String) (hne : path ≠ old_path)
    (fd1 fd2 : LogFile × Map String) (h1 : fd1.1 = fd2.1)
    (h2 : fd1.2.find path = fd2.2.find path) (h3 : fd1.2.find old_path = fd2.2.find old_path) :
    (open_stage env path fd1 = none ∧ open_stage env path fd2 = none) ∨
    ∃ o1 o2, open_stage env path fd1 = some o1 ∧ open_stage env path fd2 = some o2 ∧
      o1.1 = o2.1 ∧ file_content o1.2 path = file_content o2.2 path ∧
      o1.2.find old_path = o2.2.find old_path := by
  have hfc : file_content fd1.2 path = file_content fd2.2 path := file_content_congr h2
  by_cases ho : fd1.1.is_open = true
  · have ho2 : fd2.1.is_open = true := by rw [← h1]; exact ho
    exact Or.inr ⟨fd1, fd2, open_stage_open env fd1 ho, open_stage_open env fd2 ho2, h1, hfc, h3⟩
  · have ho1 : fd1.1.is_open = false := by simpa using ho
    have ho2 : fd2.1.is_open = false := by rw [← h1]; exact ho1
    by_cases hok : env.open_ok path = true
    · refine Or.inr ⟨_, _, open_stage_closed env fd1 ho1 hok, open_stage_closed env fd2 ho2 hok,
        ?_, ?_, ?_⟩
      · simp only [hfc]
      · simp only [file_content_open_append, hfc]
      · rw [open_append_frame _ hne, open_append_frame _ hne, h3]
    · have hok2 : env.open_ok path = false := by simpa using hok
      exact Or.inl ⟨open_stage_fails env fd1 ho1 hok2, open_stage_fails env fd2 ho2 hok2⟩

/-- A drain acts on its stream through what belongs to the stream only: in
two states that agree on the buffer, the sink and the two files of the stream
and on the rotation limit, it leaves the same buffer, sink and files. -/
theorem fbi_local (env : IOEnv) (s1 s2 : Logger) (name : String)
    (hv : stream_view s1 name = stream_view s2 name)
    (hl : s1.log_size_limit = s2.log_size_limit) :
    stream_view (flush_buffer_internal env s1 name) name =
      stream_view (flush_buffer_internal env s2 name) name := by
  have hv0 := hv
  simp only [stream_view, Prod.mk.injEq] at hv
  obtain ⟨hbuf, _, _, _⟩ := hv
  by_cases hempty : buffer_content s1 name = ""
  · have hempty2 : buffer_content s2 name = "" := by
      rw [← buffer_content_congr hbuf]; exact hempty
    rw [fbi_noop env s1 name hempty, fbi_noop env s2 name hempty2]
    exact hv0
  · obtain ⟨b, hb, _, hbne⟩ := buffer_find_of_nonempty s1 name hempty
    have hb2 : s2.log_buffers.find name = some b := by rw [← hbuf]; exact hb
    have hout1 := fbi_outcome env s1 hb hbne
    have hout2 := fbi_outcome env s2 hb2 hbne
    obtain ⟨hr1, hr2, hr3⟩ := rotate_stage_congr env s1 s2 name hv0 hl
    rcases open_stage_congr env (name ++ ".log") (name ++ ".log" ++ ".old") (path_ne_old _)
      (rotate_stage env s1 name) (rotate_stage env s2 name) hr1 hr2 hr3 with
      ⟨hn1, hn2⟩ | ⟨o1, o2, ho1, ho2, hoe, hofc, hoo⟩
    · rw [hout1.1 hn1, hout2.1 hn2]
      simp only [stream_view, Map.find_set_self, hr1, hr2, hr3]
    · have hd1 := fbi_opened env s1 hb hbne ho1
      have hd2 := fbi_opened env s2 hb2 hbne ho2
      by_cases hw : write_fails env (name ++ ".log") = true
      · simp only [stream_view, hd1.1, hd2.1, (hd1.2.1 hw).1, (hd1.2.1 hw).2, (hd2.2.1 hw).1,
          (hd2.2.1 hw).2, Map.find_set_self, hoe, hb, hb2, append_file,
          Map.find_set_ne _ _ (path_ne_old _), hofc, hoo]
      · have hw2 : write_fails env (name ++ ".log") = false := by simpa using hw
        simp only [stream_view, hd1.1, hd2.1, (hd1.2.2 hw2).1, (hd1.2.2 hw2).2, (hd2.2.2 hw2).1,
          (hd2.2.2 hw2).2, Map.find_set_self, hoe, append_file,
          Map.find_set_ne _ _ (path_ne_old _), hofc, hoo]

theorem fbi_view_frame (env : IOEnv) (s : Logger) {t name : String} (h : t ≠ name) :
    stream_view (flush_buffer_internal env s t) name = stream_view s name := by
  simp only [stream_view, fbi_buffers_frame env s h, fbi_files_frame env s h,
    fbi_disk_frame env s (log_inj h) (fun e => log_ne_old name t e.symm),
    fbi_disk_frame env s (log_ne_old t name) (old_inj h)]

theorem sweep_due_congr {s1 s2 : Logger} {name : String} (now : Int)
    (hb : s1.log_buffers.find name = s2.log_buffers.find name)
    (hm : s1.buffer_max_size = s2.buffer_max_size) :
    sweep_due s1 now name = sweep_due s2 now name := by
  simp [sweep_due, hb, hm]

theorem sweep_buffer_local (env : IOEnv) (now : Int) (s1 s2 : Logger) (name : String)
    (hv : stream_view s1 name = stream_view s2 name)
    (hl : s1.log_size_limit = s2.log_size_limit)
    (hm : s1.buffer_max_size = s2.buffer_max_size) :
    stream_view (sweep_buffer env now s1 name) name =
      stream_view (sweep_buffer env now s2 name) name := by
  have hb : s1.log_buffers.find name = s2.log_buffers.find name := by
    simp only [stream_view, Prod.mk.injEq] at hv
    exact hv.1
  rw [sweep_buffer_eq, sweep_buffer_eq, sweep_due_congr now hb hm]
  split_ifs
  · exact fbi_local env s1 s2 name hv hl
  · exact hv

theorem sweep_buffer_frame (env : IOEnv) (now : Int) (s : Logger) {t name : String}
    (h : t ≠ name) : stream_view (sweep_buffer env now s t) name = stream_view s name := by
  rw [sweep_buffer_eq]
  split_ifs
  · exact fbi_view_frame env s h
  · rfl

theorem sweep_buffer_config (env : IOEnv) (now : Int) (s : Logger) (t : String) :
    (sweep_buffer env now s t).log_size_limit = s.log_size_limit ∧
    (sweep_buffer env now s t).buffer_max_size = s.buffer_max_size := by
  rw [sweep_buffer_eq]
  split_ifs
  · exact ⟨(fbi_config env s t).2.2.2.1, (fbi_config env s t).2.2.1⟩
  · exact ⟨rfl, rfl⟩

/-- The loop of the sweep over distinct keys does to each stream what its own
iteration does in the initial state. -/
theorem sweep_loop_view (env : IOEnv) (now : Int) (name : String) (names : List String)
    (hnd : names.Nodup) (s : Logger) :
    (names.foldl (sweep_buffer env now) s).log_size_limit = s.log_size_limit ∧
    (names.foldl (sweep_buffer env now) s).buffer_max_size = s.buffer_max_size ∧
    stream_view (names.foldl (sweep_buffer env now) s) name =
      if name ∈ names then stream_view (sweep_buffer env now s name) name
      else stream_view s name := by
  induction names generalizing s with
  | nil => simp
  | cons t rest ih =>
    rw [List.nodup_cons] at hnd
    have hcfg := sweep_buffer_config env now s t
    have h := ih hnd.2 (sweep_buffer env now s t)
    simp only [List.foldl_cons]
    refine ⟨h.1.trans hcfg.1, h.2.1.trans hcfg.2, ?_⟩
    rw [h.2.2]
    by_cases htn : t = name
    · subst htn
      simp [hnd.1]
    · have hfr := sweep_buffer_frame env now s htn
      have hne : ¬ name = t := fun e => htn e.symm
      by_cases hmem : name ∈ rest
      · simp only [hmem, if_true, List.mem_cons, or_true]
        exact sweep_buffer_local env now _ s name hfr hcfg.1 hcfg.2
      · simp only [hmem, if_false, List.mem_cons, hne, or_self]
        exact hfr

theorem idle_time_threshold (now : Int) (b : LogBuffer) :
    idle_time now b > 30000 ↔ now - b.last_write ≥ 30001 * ticks_per_ms := by
  unfold idle_time ticks_per_ms
  by_cases h : 0 ≤ now - b.last_write
  · rw [Int.tdiv_eq_ediv h (by decide)]
    omega
  · have hneg : now - b.last_write = -(b.last_write - now) := by omega
    have hpos : 0 ≤ b.last_write - now := by omega
    rw [hneg, Int.neg_tdiv, Int.tdiv_eq_ediv hpos (by decide)]
    omega

theorem sweep_due_iff (s : Logger) (now : Int) (name : String) :
    sweep_due s now name = true ↔
      ∃ b, s.log_buffers.find name = some b ∧ b.content ≠ "" ∧
        (idle_time now b > 30000 ∨ b.content.length > s.buffer_max_size / 2) := by
  unfold sweep_due
  cases s.log_buffers.find name with
  | none => simp
  | some b => simp

theorem sweep_view (env : IOEnv) (now : Int) (s : Logger) (hwf : s.wf) (name : String) :
    stream_view (s.log_buffers.keys.foldl (sweep_buffer env now) s) name =
      stream_view (sweep_buffer env now s name) name := by
  rw [(sweep_loop_view env now name _ (Map.keys_nodup_of_ordered _ hwf.2.1) s).2.2]
  split_ifs with hm
  · rfl
  · have hnone : s.log_buffers.find name = none := Map.find_of_not_mem_keys _ hm
    rw [sweep_buffer_eq]
    simp [sweep_due, hnone]

theorem find_keep_open (m : Map LogFile) (h : m.ordered) (name : String) :
    Map.find (m.filter fun e => e.2.is_open) name = keep_open (m.find name) := by
  rw [Map.find_filter_ordered m h]
  cases m.find name <;> rfl

/-- C19 (background sweep step), as the code has it. In a running manager
whose maps have distinct keys, one iteration of the flush loop at time `now`
does to every stream whose buffer is due exactly what a drain of that stream
does in the state before the iteration, and leaves the buffer and the files
of every other stream unchanged; then every open sink is kept open with its
counter and every closed sink is erased from the sink map. A buffer is due
when it is non-empty and its idle time in whole milliseconds exceeds 30000,
that is `now` minus the last write is at least 30001 ms, or its size exceeds
half the buffer threshold. The timed wait is 15 seconds in normal mode and 60
seconds in low-power mode, and when the running flag is false the iteration
changes nothing. -/
theorem background_sweep_step (env : IOEnv) (now : Int) (s : Logger) (hwf : s.wf) :
    (s.running = true → ∀ name,
      (sweep_due s now name = true →
        (flush_thread_step env now s).log_buffers.find name =
          (flush_buffer_internal env s name).log_buffers.find name ∧
        (flush_thread_step env now s).disk.find (name ++ ".log") =
          (flush_buffer_internal env s name).disk.find (name ++ ".log") ∧
        (flush_thread_step env now s).disk.find (name ++ ".log" ++ ".old") =
          (flush_buffer_internal env s name).disk.find (name ++ ".log" ++ ".old") ∧
        (flush_thread_step env now s).log_files.find name =
          keep_open ((flush_buffer_internal env s name).log_files.find name)) ∧
      (sweep_due s now name = false →
        (flush_thread_step env now s).log_buffers.find name = s.log_buffers.find name ∧
        (flush_thread_step env now s).disk.find (name ++ ".log") =
          s.disk.find (name ++ ".log") ∧
        (flush_thread_step env now s).disk.find (name ++ ".log" ++ ".old") =
          s.disk.find (name ++ ".log" ++ ".old") ∧
        (flush_thread_step env now s).log_files.find name =
          keep_open (s.log_files.find name))) ∧
    (∀ name, sweep_due s now name = true ↔
      ∃ b, s.log_buffers.find name = some b ∧ b.content ≠ "" ∧
        (idle_time now b > 30000 ∨ b.content.length > s.buffer_max_size / 2)) ∧
    (∀ b : LogBuffer, idle_time now b > 30000 ↔ now - b.last_write ≥ 30001 * ticks_per_ms) ∧
    wait_seconds s = (if s.low_power_mode = true then 60 else 15) ∧
    (s.running = false → flush_thread_step env now s = s) := by
  refine ⟨fun hrun name => ?_, sweep_due_iff s now, idle_time_threshold now, rfl,
    fun hrun => by simp [flush_thread_step, hrun]⟩
  have hview := sweep_view env now s hwf name
  have hwf1 : (s.log_buffers.keys.foldl (sweep_buffer env now) s).wf :=
    foldl_drain_induct env _ (sweep_buffer_cases env now) Logger.wf
      (fun s1 t h1 => fbi_wf env s1 t h1) s.log_buffers.keys s hwf
  have hfiles : (flush_thread_step env now s).log_files.find name =
      keep_open ((s.log_buffers.keys.foldl (sweep_buffer env now) s).log_files.find name) := by
    unfold flush_thread_step
    rw [if_neg (by simp [hrun])]
    exact find_keep_open _ hwf1.1 name
  have hrest : (flush_thread_step env now s).log_buffers =
        (s.log_buffers.keys.foldl (sweep_buffer env now) s).log_buffers ∧
      (flush_thread_step env now s).disk =
        (s.log_buffers.keys.foldl (sweep_buffer env now) s).disk := by
    unfold flush_thread_step
    rw [if_neg (by simp [hrun])]
    exact ⟨rfl, rfl⟩
  rw [sweep_buffer_eq] at hview
  constructor
  · intro hdue
    rw [if_pos hdue] at hview
    simp only [stream_view, Prod.mk.injEq] at hview
    rw [hfiles, hrest.1, hrest.2]
    exact ⟨hview.1, hview.2.2.1, hview.2.2.2, by rw [hview.2.1]⟩
  · intro hdue
    have hnd : ¬ sweep_due s now name = true := by simp [hdue]
    rw [if_neg hnd] at hview
    simp only [stream_view, Prod.mk.injEq] at hview
    rw [hfiles, hrest.1, hrest.2]
    exact ⟨hview.1, hview.2.2.1, hview.2.2.2, by rw [hview.2.1]⟩

theorem pending_wf : pending.wf := by
  simp [Logger.wf, Map.ordered, pending, Logger.init]

/-- Witness of C19: at 40 s the buffer of "a", last written at tick 7, is due
and the sweep does to it what the drain does. -/
theorem background_sweep_step_witness :
    (flush_thread_step IOEnv.good 40000000000 pending).log_buffers.find "a" =
      (flush_buffer_internal IOEnv.good pending "a").log_buffers.find "a" :=
  (((background_sweep_step IOEnv.good 40000000000 pending pending_wf).1 (by decide) "a").1
    (by decide)).1

/-- Counterexample to C19 as stated: the buffer of "a" was last written at tick
7 and the loop wakes at tick 30000500007, so the idle time is 30.0005 s, more
than 30 seconds; the buffer holds 3 bytes, less than half the threshold. The
iteration does not drain it: the state is unchanged. -/
theorem idle_just_over_30s_not_drained :
    pending.running = true ∧ buffer_content pending "a" = "new" ∧
    pending.log_buffers.find "a" = some { content := "new", last_write := 7 } ∧
    (30000500007 : Int) - 7 > 30 * (1000 * ticks_per_ms) ∧
    ¬ (3 > pending.buffer_max_size / 2) ∧
    flush_thread_step IOEnv.good 30000500007 pending = pending := by
  decide

/-! ## Shutdown, stream by stream -/

theorem drain_base_congr (env : IOEnv) {s1 s2 : Logger} {name : String}
    (hv : stream_view s1 name = stream_view s2 name)
    (hl : s1.log_size_limit = s2.log_size_limit) : drain_base env s1 name = drain_base env s2 name := by
  simp only [stream_view, Prod.mk.injEq] at hv
  obtain ⟨_, hf, hd, _⟩ := hv
  simp [drain_base, must_rotate, sink_of, hf, hl, file_content, hd]

theorem good_succeeds : IOEnv.good.succeeds := ⟨good_no_failure, fun _ => rfl⟩

theorem append_file_find (disk : Map String) (path text : String) :
    (append_file disk path text).find path = some (file_content disk path ++ text) := by
  simp [append_file, Map.find_set_self]

/-- The two files of a stream after a drain of its non-empty buffer whose file
is open after the open stage. -/
theorem fbi_files_find (env : IOEnv) (s : Logger) {name : String} {b : LogBuffer}
    (hb : s.log_buffers.find name = some b) (hne : b.content ≠ "")
    (ho : needs_open s name = false ∨ env.open_ok (name ++ ".log") = true) :
    (flush_buffer_internal env s name).disk.find (name ++ ".log") =
      some (drain_base env s name ++ delivered env (name ++ ".log") b.content) ∧
    (flush_buffer_internal env s name).disk.find (name ++ ".log" ++ ".old") =
      (rotate_stage env s name).2.find (name ++ ".log" ++ ".old") := by
  have hopen := rotate_stage_needs_open env s name
  obtain ⟨opened, hop⟩ : ∃ opened,
      open_stage env (name ++ ".log") (rotate_stage env s name) = some opened := by
    rcases ho with h | h
    · exact ⟨_, open_stage_open env _ (by rw [hopen, h]; rfl)⟩
    · exact open_stage_some env _ h
  rw [(fbi_opened env s hb hne hop).1]
  constructor
  · rw [append_file_find, open_stage_content env hop, rotate_stage_content]
  · rw [append_file_frame _ _ (path_ne_old _), open_stage_frame env hop (path_ne_old _)]

theorem ends_in_of_eq {text suffix : String} (h : suffix = text) : ends_in text suffix :=
  ⟨"", by rw [h]; simp⟩

theorem ends_in_append {text suffix : String} (h : ends_in text suffix) (more : String) :
    ends_in (text ++ more) (suffix ++ more) := by
  obtain ⟨front, hf⟩ := h
  exact ⟨front, by rw [hf, String.append_assoc]⟩

theorem ends_in_drop {text a b : String} (h : ends_in text (a ++ b)) : ends_in text b := by
  obtain ⟨front, hf⟩ := h
  exact ⟨front ++ a, by rw [hf, String.append_assoc]⟩

/-- One drain under lazy rotation: the invariant is kept and the buffer is
empty afterwards. -/
theorem lazily_rotated_drain (env : IOEnv) (henv : env.succeeds) (N : Nat) (s : Logger)
    (name text : String) (hlim : s.log_size_limit = N)
    (hne : buffer_content s name ≠ "") (h : lazily_rotated N s name text) :
    lazily_rotated N (flush_buffer_internal env s name) name text ∧
    buffer_content (flush_buffer_internal env s name) name = "" := by
  obtain ⟨b, hb, hbc, hbne⟩ := buffer_find_of_nonempty s name hne
  have ho : env.open_ok (name ++ ".log") = true := (henv.1 _).1
  have hw : env.write_fail (name ++ ".log") = none := (henv.1 _).2
  have hwf : write_fails env (name ++ ".log") = false := write_fails_complete hw
  have hfind := fbi_files_find env s hb hbne (Or.inr ho)
  rw [delivered_complete hw] at hfind
  have hbuf : buffer_content (flush_buffer_internal env s name) name = "" := by
    have := ((fbi_cases env s hb hbne).2 (Or.inr ho)).2.2 hwf
    simp [buffer_content, this]
  have hsinks := fbi_sink_cases env s hb hbne
  refine ⟨Or.inr ?_, hbuf⟩
  rcases h with ⟨hs, hd, hold, htext⟩ | ⟨file, hs, hd, hrest⟩
  · -- the first drain
    have hsink : sink_of s name = { is_open := false, current_size := 0 } := by
      simp [sink_of, hs]
    have hrot : must_rotate s name = false := by simp [must_rotate, hsink]
    have hno : needs_open s name = true := by simp [needs_open, hsink]
    have hbase : drain_base env s name = "" := by
      rw [drain_base_keep env s name (Or.inl hrot)]
      simp [file_content, hd]
    rw [hbase, rotate_stage_keep env s name hrot] at hfind
    refine ⟨b.content, ?_, by simpa using hfind.1, Or.inl ⟨hfind.2.trans hold, ?_⟩⟩
    · rw [hsinks.2.2.1 hno ho hwf, hbase]
      simp
    · rw [hbuf, hbc, htext]; simp
  · have hsink : sink_of s name = { is_open := true, current_size := file.length } := by
      simp [sink_of, hs]
    by_cases hbig : file.length > N
    · -- the file is above the limit: the drain rotates
      have hrot : must_rotate s name = true := by
        simp [must_rotate, hsink, hlim, hbig]
      have hno : needs_open s name = true := by simp [needs_open, hrot]
      have hbase : drain_base env s name = "" := drain_base_restart env s name hrot (henv.2 _)
      have hdone := rotate_stage_done env s hrot hd (henv.2 _)
      rw [hbase, hdone.2.2] at hfind
      refine ⟨b.content, ?_, by simpa using hfind.1, Or.inr ⟨file, hfind.2, hbig, ?_⟩⟩
      · rw [hsinks.2.2.1 hno ho hwf, hbase]
        simp
      · rw [hbuf, hbc]
        rcases hrest with ⟨_, htext⟩ | ⟨old, _, _, hend⟩
        · exact ends_in_of_eq (by rw [← htext]; simp)
        · have := ends_in_drop (a := old) (b := file ++ buffer_content s name)
            (by rw [← String.append_assoc]; exact hend)
          rw [String.append_assoc]
          simpa using this
    · -- the file is within the limit: the drain appends
      have hrot : must_rotate s name = false := by
        simp [must_rotate, hsink, hlim]
        omega
      have hno : needs_open s name = false := by simp [needs_open, hsink, hrot]
      have hbase : drain_base env s name = file := by
        rw [drain_base_keep env s name (Or.inl hrot)]
        simp [file_content, hd]
      rw [hbase, rotate_stage_keep env s name hrot] at hfind
      refine ⟨file ++ b.content, ?_, hfind.1, ?_⟩
      · rw [hsinks.1 hno hwf, hsink]
        simp [String.length_append]
      · rw [hbuf, hbc]
        rcases hrest with ⟨hold, htext⟩ | ⟨old, hold, hlen, hend⟩
        · exact Or.inl ⟨hfind.2.trans hold, by rw [← htext]; simp⟩
        · refine Or.inr ⟨old, hfind.2.trans hold, hlen, ?_⟩
          rw [← String.append_assoc]
          simpa using hend

theorem lazily_rotated_append (N : Nat) (now : Int) (s : Logger) (name text content : String)
    (h : lazily_rotated N s name text) :
    lazily_rotated N (append_content now s name content) name (text ++ content) := by
  have hb := append_content_buffer now s name content
  have hf : (append_content now s name content).log_files = s.log_files := rfl
  have hd : (append_content now s name content).disk = s.disk := rfl
  unfold lazily_rotated
  rw [hb, hf, hd]
  rcases h with ⟨hs, hd1, hold, htext⟩ | ⟨file, hs, hd1, hrest⟩
  · exact Or.inl ⟨hs, hd1, hold, by rw [htext]⟩
  · refine Or.inr ⟨file, hs, hd1, ?_⟩
    rcases hrest with ⟨hold, htext⟩ | ⟨old, hold, hlen, hend⟩
    · exact Or.inl ⟨hold, by rw [← String.append_assoc, htext]⟩
    · refine Or.inr ⟨old, hold, hlen, ?_⟩
      rw [← String.append_assoc]
      exact ends_in_append hend content

/-- One `write_log` to the stream under lazy rotation. -/
theorem lazily_rotated_step (N : Nat) (s : Logger) (c : IOEnv × Op) (name text : String)
    (hop : c.2.writes_to name = true) (henv : c.1.succeeds)
    (hlim : s.log_size_limit = N) (hrun : s.running = true)
    (h : lazily_rotated N s name text) :
    lazily_rotated N (step s c) name (text ++ submitted_by s.log_level name c.2) ∧
    (step s c).log_size_limit = N ∧ (step s c).running = true ∧
    (step s c).log_level = s.log_level := by
  obtain ⟨env, op⟩ := c
  cases op with
  | write_log ts now n level msg =>
    simp only [Op.writes_to, decide_eq_true_eq] at hop
    subst hop
    simp only [step, submitted_by, true_and]
    by_cases hacc : level.val ≤ s.log_level.val
    · rw [if_pos hacc, write_log_accepted env ts now s n level msg hrun hacc]
      have happ := lazily_rotated_append N now s n text (rendered_line ts level msg) h
      rcases add_to_buffer_cases env now s n (rendered_line ts level msg) level with e | e
      · rw [e]
        exact ⟨happ, hlim, hrun, rfl⟩
      · rw [e]
        obtain ⟨b, hb, _, hbne⟩ := append_content_nonempty now s n (rendered_line ts level msg)
          (rendered_line_ne_empty ts level msg)
        have hne : buffer_content (append_content now s n (rendered_line ts level msg)) n ≠ "" := by
          rw [buffer_content_of_find hb]; exact hbne
        have hcfg := fbi_config env (append_content now s n (rendered_line ts level msg)) n
        exact ⟨(lazily_rotated_drain env henv N
            (append_content now s n (rendered_line ts level msg)) n _ hlim hne happ).1,
          hcfg.2.2.2.1.trans hlim, hcfg.1.trans hrun, hcfg.2.2.2.2⟩
    · rw [if_neg hacc, write_log_rejected env ts now s n level msg (by omega)]
      exact ⟨by simpa using h, hlim, hrun, rfl⟩
  | _ => simp [Op.writes_to] at hop

theorem submitted_cons (level : LogLevel) (name : String) (c : IOEnv × Op)
    (rest : List (IOEnv × Op)) :
    submitted level name (c :: rest) = submitted_by level name c.2 ++ submitted level name rest := by
  simp [submitted, concat_all]

/-- A run of writes to one stream under lazy rotation. -/
theorem lazily_rotated_run (N : Nat) (name : String) (trace : List (IOEnv × Op))
    (hops : ∀ c ∈ trace, c.2.writes_to name = true ∧ c.1.succeeds) (s : Logger) (text : String)
    (hlim : s.log_size_limit = N) (hrun : s.running = true)
    (h : lazily_rotated N s name text) :
    lazily_rotated N (run s trace) name (text ++ submitted s.log_level name trace) ∧
    (run s trace).log_size_limit = N := by
  induction trace generalizing s text with
  | nil => exact ⟨by simpa [run, submitted, concat_all] using h, hlim⟩
  | cons c rest ih =>
    have hc := hops c (List.mem_cons_self _ _)
    obtain ⟨h1, h2, h3, h4⟩ := lazily_rotated_step N s c name text hc.1 hc.2 hlim hrun h
    have := ih (fun d hd => hops d (List.mem_cons_of_mem _ hd)) (step s c) _ h2 h3 h1
    have hrun_eq : run s (c :: rest) = run (step s c) rest := rfl
    rw [hrun_eq, submitted_cons, ← String.append_assoc]
    rw [h4] at this
    exact this

theorem lazily_rotated_init (level : LogLevel) (N : Nat) (name : String) :
    lazily_rotated N (Logger.init level N []) name "" :=
  Or.inl ⟨rfl, rfl, rfl, rfl⟩

/-- The drain that follows a state whose sink is open on a file of known
content: it rotates exactly when the file holds more than the limit. -/
theorem next_drain (env : IOEnv) (henv : env.succeeds) (now : Int) (s : Logger)
    (name file text : String) (htext : text ≠ "")
    (hs : s.log_files.find name = some { is_open := true, current_size := file.length })
    (hd : s.disk.find (name ++ ".log") = some file) (hbuf : buffer_content s name = "") :
    (file.length > s.log_size_limit →
      (flush_buffer_internal env (append_content now s name text) name).disk.find
        (name ++ ".log" ++ ".old") = some file ∧
      (flush_buffer_internal env (append_content now s name text) name).disk.find
        (name ++ ".log") = some text) ∧
    (file.length ≤ s.log_size_limit →
      (flush_buffer_internal env (append_content now s name text) name).disk.find
        (name ++ ".log" ++ ".old") = s.disk.find (name ++ ".log" ++ ".old") ∧
      (flush_buffer_internal env (append_content now s name text) name).disk.find
        (name ++ ".log") = some (file ++ text)) := by
  obtain ⟨b, hb, hbc, hbne⟩ := append_content_nonempty now s name text htext
  have hbt : b.content = text := by rw [hbc, hbuf]; simp
  have ho : env.open_ok (name ++ ".log") = true := (henv.1 _).1
  have hw : env.write_fail (name ++ ".log") = none := (henv.1 _).2
  have hs2 : (append_content now s name text).log_files.find name =
      some { is_open := true, current_size := file.length } := hs
  have hd2 : (append_content now s name text).disk.find (name ++ ".log") = some file := hd
  have hl2 : (append_content now s name text).log_size_limit = s.log_size_limit := rfl
  have hsink : sink_of (append_content now s name text) name =
      { is_open := true, current_size := file.length } := by
    simp [sink_of, hs2]
  constructor
  · intro hbig
    have := rotating_drain env _ hs2 rfl (by rw [hl2]; exact hbig) hb hbne hd2 (henv.2 _) ho hw
    rw [hbt] at this
    exact this
  · intro hsmall
    have hrot : must_rotate (append_content now s name text) name = false := by
      simp [must_rotate, hsink, hl2]
      omega
    have hfind := fbi_files_find env _ hb hbne (Or.inr ho)
    rw [delivered_complete hw, drain_base_keep env _ name (Or.inl hrot),
      rotate_stage_keep env _ name hrot, hbt] at hfind
    refine ⟨hfind.2, ?_⟩
    rw [hfind.1]
    simp [file_content, hd2]

/-- C12 (rotation scenario), as the code has it. Rotation is lazy: a drain
compares the limit with the bytes already in the file, before it writes, and
only for a handle that is already open. On a fresh manager with an empty
directory and rotation limit N, let accepted writes to one stream amount to
more than N bytes and be followed by a flush of that stream, every open,
output and rename succeeding. After the flush the buffer is empty and the
sink is open with `current_size` equal to the size of `name.log`. Either no
drain has rotated: there is no `name.log.old` and `name.log` holds all the
written bytes, more than N; or `name.log.old` holds more than N bytes and the
written text ends with `name.log.old` followed by `name.log`. The next drain
rotates exactly when `name.log` holds more than N bytes: then `name.log.old`
gets its content and `name.log` holds what that drain wrote; otherwise the
drain appends. When the writes stay in the buffer until the flush (no Error
entry, buffer below the buffer threshold), no drain has rotated, whatever the
other operations of the run are: `name.log` holds all the written bytes, and
the next drain rotates. -/
theorem rotation_scenario (level : LogLevel) (N : Nat) (trace : List (IOEnv × Op))
    (name : String) (env : IOEnv)
    (hsize : (submitted level name trace).length > N)
    (henv : env.succeeds) :
    ((∀ c ∈ trace, c.2.writes_to name = true ∧ c.1.succeeds) →
      buffer_content (flush_buffer env (run (Logger.init level N []) trace) name) name = "" ∧
      ∃ file : String,
        (flush_buffer env (run (Logger.init level N []) trace) name).log_files.find name =
          some { is_open := true, current_size := file.length } ∧
        (flush_buffer env (run (Logger.init level N []) trace) name).disk.find (name ++ ".log") =
          some file ∧
        (((flush_buffer env (run (Logger.init level N []) trace) name).disk.find
              (name ++ ".log" ++ ".old") = none ∧
            file = submitted level name trace) ∨
          ∃ old : String,
            (flush_buffer env (run (Logger.init level N []) trace) name).disk.find
              (name ++ ".log" ++ ".old") = some old ∧
            old.length > N ∧ ends_in (submitted level name trace) (old ++ file)) ∧
        ∀ (env2 : IOEnv) (now : Int) (text : String), text ≠ "" → env2.succeeds →
          (file.length > N →
            (flush_buffer env2
              (append_content now (flush_buffer env (run (Logger.init level N []) trace) name)
                name text) name).disk.find (name ++ ".log" ++ ".old") = some file ∧
            (flush_buffer env2
              (append_content now (flush_buffer env (run (Logger.init level N []) trace) name)
                name text) name).disk.find (name ++ ".log") = some text) ∧
          (file.length ≤ N →
            (flush_buffer env2
              (append_content now (flush_buffer env (run (Logger.init level N []) trace) name)
                name text) name).disk.find (name ++ ".log" ++ ".old") =
              (flush_buffer env (run (Logger.init level N []) trace) name).disk.find
                (name ++ ".log" ++ ".old") ∧
            (flush_buffer env2
              (append_content now (flush_buffer env (run (Logger.init level N []) trace) name)
                name text) name).disk.find (name ++ ".log") = some (file ++ text))) ∧
    (all_buffered (Logger.init level N []) trace = true →
      (flush_buffer env (run (Logger.init level N []) trace) name).disk.find (name ++ ".log") =
        some (submitted level name trace) ∧
      (file_content (flush_buffer env (run (Logger.init level N []) trace) name).disk
        (name ++ ".log")).length > N ∧
      (flush_buffer env (run (Logger.init level N []) trace) name).disk.find
        (name ++ ".log" ++ ".old") = none ∧
      (flush_buffer env (run (Logger.init level N []) trace) name).log_files.find name =
        some { is_open := true, current_size := (submitted level name trace).length } ∧
      ∀ (env2 : IOEnv) (now : Int) (text : String), text ≠ "" →
        env2.rename_ok (name ++ ".log") = true → env2.open_ok (name ++ ".log") = true →
        env2.write_fail (name ++ ".log") = none →
        (flush_buffer env2
          (append_content now (flush_buffer env (run (Logger.init level N []) trace) name)
            name text) name).disk.find (name ++ ".log" ++ ".old") =
          some (submitted level name trace) ∧
        (flush_buffer env2
          (append_content now (flush_buffer env (run (Logger.init level N []) trace) name)
            name text) name).disk.find (name ++ ".log") = some text) := by
  refine ⟨fun hops => ?_, fun hbuf => buffered_then_flushed level N trace name env hbuf hsize henv.1⟩
  simp only [flush_buffer]
  obtain ⟨hinv, hlim⟩ := lazily_rotated_run N name trace hops (Logger.init level N []) ""
    rfl rfl (lazily_rotated_init level N name)
  have hinit : (Logger.init level N []).log_level = level := rfl
  rw [hinit, String.empty_append] at hinv
  have hfinal : lazily_rotated N
      (flush_buffer_internal env (run (Logger.init level N []) trace) name) name
        (submitted level name trace) ∧
      buffer_content (flush_buffer_internal env (run (Logger.init level N []) trace) name)
        name = "" := by
    by_cases hempty : buffer_content (run (Logger.init level N []) trace) name = ""
    · rw [fbi_noop env _ name hempty]
      exact ⟨hinv, hempty⟩
    · exact lazily_rotated_drain env henv N _ name _ hlim hempty hinv
  obtain ⟨hrot, hbuf⟩ := hfinal
  have hlim2 : (flush_buffer_internal env (run (Logger.init level N []) trace)
      name).log_size_limit = N := (fbi_config env _ name).2.2.2.1.trans hlim
  refine ⟨hbuf, ?_⟩
  rcases hrot with ⟨_, _, _, htext⟩ | ⟨file, hs, hd, hrest⟩
  · rw [hbuf] at htext
    rw [← htext] at hsize
    exact absurd hsize (by simp)
  · refine ⟨file, hs, hd, ?_, fun env2 now text htext henv2 => ?_⟩
    · rw [hbuf] at hrest
      simpa using hrest
    · have := next_drain env2 henv2 now _ name file text htext hs hd hbuf
      rw [hlim2] at this
      exact this

/-- Witness of C12: limit 5, an Error entry, drained at once, then an Info
entry and the flush, which rotates. -/
theorem rotation_scenario_witness :
    buffer_content (flush_buffer IOEnv.good (run (Logger.init .INFO 5 []) two_writes) "main")
      "main" = "" :=
  ((rotation_scenario .INFO 5 two_writes "main" IOEnv.good (by decide) good_succeeds).1
    (fun c hc => by
      simp only [two_writes, List.mem_cons, List.mem_singleton, List.not_mem_nil, or_false] at hc
      rcases hc with rfl | rfl <;> exact ⟨rfl, good_succeeds⟩)).1

/-! ## Severity of a batch line -/

theorem digits_value_fold (ds : List Char) (acc : Nat) :
    ds.foldl (fun n d => 10 * n + (d.toNat - 48)) acc = acc * 10 ^ ds.length + decimal ds := by
  induction ds generalizing acc with
  | nil => simp [decimal]
  | cons d rest ih =>
    simp only [List.foldl_cons, ih, List.length_cons]
    have hd : decimal (d :: rest) = decimal rest + 10 ^ rest.length * (d.toNat - 48) := by
      unfold decimal
      simp only [List.reverse_cons, List.map_append, List.map_cons, List.map_nil,
        Nat.ofDigits_append, List.length_map, List.length_reverse, Nat.ofDigits_singleton]
      rfl
    rw [hd]
    ring

theorem digits_value_eq (ds : List Char) : digits_value ds = decimal ds := by
  unfold digits_value
  rw [digits_value_fold]
  simp

theorem is_space_iff (c : Char) : is_space c = true ↔ white_space c := by
  simp [is_space, white_space, or_assoc]

theorem is_space_false_iff (c : Char) : is_space c = false ↔ ¬ white_space c := by
  rw [← is_space_iff]
  simp

theorem digit_not_space (c : Char) (h : c.isDigit = true) : is_space c = false := by
  by_contra hs
  have hs2 : is_space c = true := by simpa using hs
  rw [is_space_iff] at hs2
  unfold white_space at hs2
  rcases hs2 with h1 | h1 | h1 | h1 | h1 | h1 <;> (rw [h1] at h; revert h; decide)

theorem digit_not_sign (c : Char) (h : c.isDigit = true) : c ≠ '-' ∧ c ≠ '+' := by
  constructor <;> (intro h1; rw [h1] at h; revert h; decide)

theorem takeWhile_head_neg {p : Char → Bool} (l : List Char)
    (h : ∀ c, l.head? = some c → p c = false) : l.takeWhile p = [] := by
  cases l with
  | nil => rfl
  | cons a t =>
    have := h a rfl
    simp [this]

theorem dropWhile_head_neg {p : Char → Bool} (l : List Char)
    (h : ∀ c, l.head? = some c → p c = false) : l.dropWhile p = l := by
  cases l with
  | nil => rfl
  | cons a t =>
    have := h a rfl
    simp [this]

theorem takeWhile_digits (ds rest : List Char) (hdig : ∀ c ∈ ds, c.isDigit = true)
    (hrest : ∀ c, rest.head? = some c → c.isDigit = false) :
    (ds ++ rest).takeWhile Char.isDigit = ds := by
  rw [List.takeWhile_append_of_pos hdig, takeWhile_head_neg rest hrest]
  simp

/-- What `stoi` reads in a field that starts, after white space and an optional
sign, with decimal digits: the number they write, whatever follows them. -/
theorem stoi_number (ws sign ds rest : List Char) (hws : ∀ c ∈ ws, is_space c = true)
    (hsign : sign = [] ∨ sign = ['+'] ∨ sign = ['-']) (hds : ds ≠ [])
    (hdig : ∀ c ∈ ds, c.isDigit = true)
    (hrest : ∀ c, rest.head? = some c → c.isDigit = false) :
    stoi (String.mk (ws ++ sign ++ ds ++ rest)) =
      if sign = ['-'] then
        (if (decimal ds : Int) > 2147483648 then none else some (-(decimal ds : Int)))
      else (if (decimal ds : Int) > 2147483647 then none else some (decimal ds : Int)) := by
  obtain ⟨d, ds1, rfl⟩ := List.exists_cons_of_ne_nil hds
  have hd : d.isDigit = true := hdig d (List.mem_cons_self _ _)
  have hdsp := digit_not_space d hd
  have hdsg := digit_not_sign d hd
  have htake := takeWhile_digits (d :: ds1) rest hdig hrest
  have hval := digits_value_eq (d :: ds1)
  have hnn : (0 : Int) ≤ (decimal (d :: ds1) : Int) := Int.ofNat_nonneg _
  unfold stoi
  simp only [List.append_assoc]
  rw [List.dropWhile_append_of_pos hws]
  rcases hsign with rfl | rfl | rfl
  · have hdrop : (([] : List Char) ++ (d :: ds1 ++ rest)).dropWhile is_space =
        d :: ds1 ++ rest := by
      simp [hdsp]
    rw [hdrop]
    simp only [List.cons_append, List.head?_cons, Option.some.injEq, hdsg.1, hdsg.2, or_self,
      if_false]
    rw [← List.cons_append, htake, hval]
    simp only [reduceCtorEq, if_false, List.nil_eq, List.cons_ne_self]
    split_ifs <;> first | rfl | omega
  · have hdrop : (['+'] ++ (d :: ds1 ++ rest)).dropWhile is_space =
        '+' :: (d :: ds1 ++ rest) := by
      simp [is_space]
    rw [hdrop]
    have h1 : ¬ ('+' = '-') := by decide
    have h2 : ¬ (['+'] = ['-']) := by decide
    simp only [List.head?_cons, Option.some.injEq, List.tail_cons, or_true, if_true, h1, h2,
      if_false]
    rw [htake, hval]
    simp only [reduceCtorEq, if_false]
    split_ifs <;> first | rfl | omega
  · have hdrop : (['-'] ++ (d :: ds1 ++ rest)).dropWhile is_space =
        '-' :: (d :: ds1 ++ rest) := by
      simp [is_space]
    rw [hdrop]
    simp only [List.head?_cons, Option.some.injEq, List.tail_cons, true_or, if_true]
    rw [htake, hval]
    simp only [reduceCtorEq, if_false]
    split_ifs <;> first | rfl | omega

/-- A field that has no digit after its white space and optional sign: `stoi`
reads no number. -/
theorem stoi_no_number (ws sign rest : List Char) (hws : ∀ c ∈ ws, is_space c = true)
    (hsign : sign = [] ∨ sign = ['+'] ∨ sign = ['-'])
    (hrest : ∀ c, rest.head? = some c →
      c.isDigit = false ∧ (sign = [] → is_space c = false ∧ c ≠ '+' ∧ c ≠ '-')) :
    stoi (String.mk (ws ++ sign ++ rest)) = none := by
  have htake := takeWhile_head_neg (p := Char.isDigit) rest (fun c hc => (hrest c hc).1)
  unfold stoi
  simp only [List.append_assoc]
  rw [List.dropWhile_append_of_pos hws]
  rcases hsign with rfl | rfl | rfl
  · have hdrop : (([] : List Char) ++ rest).dropWhile is_space = rest := by
      rw [List.nil_append]
      exact dropWhile_head_neg rest (fun c hc => ((hrest c hc).2 rfl).1)
    rw [hdrop]
    have hbody : (if rest.head? = some '-' ∨ rest.head? = some '+' then rest.tail else rest) =
        rest := by
      rw [if_neg]
      rintro (h | h)
      · exact ((hrest _ h).2 rfl).2.2 rfl
      · exact ((hrest _ h).2 rfl).2.1 rfl
    simp only [hbody, htake, if_true]
  · have hdrop : (['+'] ++ rest).dropWhile is_space = '+' :: rest := by
      simp [is_space]
    rw [hdrop]
    simp only [List.head?_cons, Option.some.injEq, List.tail_cons, or_true, if_true, htake]
  · have hdrop : (['-'] ++ rest).dropWhile is_space = '-' :: rest := by
      simp [is_space]
    rw [hdrop]
    simp only [List.head?_cons, Option.some.injEq, List.tail_cons, true_or, if_true, htake]

theorem not_level_name (cs : List Char) (c : Char) (h : cs.head? = some c)
    (hc : c ≠ 'E' ∧ c ≠ 'W' ∧ c ≠ 'D') :
    String.mk cs ≠ "ERROR" ∧ String.mk cs ≠ "WARN" ∧ String.mk cs ≠ "DEBUG" := by
  refine ⟨fun e => ?_, fun e => ?_, fun e => ?_⟩ <;>
  · have e2 := congrArg String.data e
    simp only at e2
    rw [e2] at h
    simp only [String.data, List.head?_cons, Option.some.injEq] at h
    first
      | exact hc.1 h.symm
      | exact hc.2.1 h.symm
      | exact hc.2.2 h.symm

theorem number_head (ws sign ds rest : List Char) (hws : ∀ c ∈ ws, is_space c = true)
    (hsign : sign = [] ∨ sign = ['+'] ∨ sign = ['-']) (hds : ds ≠ [])
    (hdig : ∀ c ∈ ds, c.isDigit = true) :
    ∃ c, (ws ++ sign ++ ds ++ rest).head? = some c ∧ c ≠ 'E' ∧ c ≠ 'W' ∧ c ≠ 'D' := by
  have key : ∀ c : Char, is_space c = true ∨ c = '+' ∨ c = '-' ∨ c.isDigit = true →
      c ≠ 'E' ∧ c ≠ 'W' ∧ c ≠ 'D' := by
    intro c h
    refine ⟨fun e => ?_, fun e => ?_, fun e => ?_⟩ <;>
    · rw [e] at h
      revert h
      decide
  cases ws with
  | cons w t => exact ⟨w, rfl, key w (Or.inl (hws w (List.mem_cons_self _ _)))⟩
  | nil =>
    rcases hsign with rfl | rfl | rfl
    · obtain ⟨d, ds1, rfl⟩ := List.exists_cons_of_ne_nil hds
      exact ⟨d, rfl, key d (Or.inr (Or.inr (Or.inr (hdig d (List.mem_cons_self _ _)))))⟩
    · exact ⟨'+', rfl, key _ (Or.inr (Or.inl rfl))⟩
    · exact ⟨'-', rfl, key _ (Or.inr (Or.inr (Or.inl rfl)))⟩

/-- The severity of a field that starts with a number: the level of that
number when it is in 1..4, Info otherwise. -/
theorem parse_level_number (ws sign ds rest : List Char) (hws : ∀ c ∈ ws, is_space c = true)
    (hsign : sign = [] ∨ sign = ['+'] ∨ sign = ['-']) (hds : ds ≠ [])
    (hdig : ∀ c ∈ ds, c.isDigit = true)
    (hrest : ∀ c, rest.head? = some c → c.isDigit = false) :
    (sign ≠ ['-'] → 1 ≤ decimal ds → decimal ds ≤ 4 →
      (parse_level (String.mk (ws ++ sign ++ ds ++ rest))).val = decimal ds) ∧
    ((sign = ['-'] ∨ decimal ds = 0 ∨ 4 < decimal ds) →
      parse_level (String.mk (ws ++ sign ++ ds ++ rest)) = LogLevel.INFO) := by
  have hst := stoi_number ws sign ds rest hws hsign hds hdig hrest
  obtain ⟨c, hc, hcn⟩ := number_head ws sign ds rest hws hsign hds hdig
  have hname := not_level_name _ c hc hcn
  have hnone : stoi (String.mk (ws ++ sign ++ ds ++ rest)) = none →
      parse_level (String.mk (ws ++ sign ++ ds ++ rest)) = LogLevel.INFO := by
    intro h
    exact (parse_level_cases _).2.2 h hname.1 hname.2.1 hname.2.2
  constructor
  · intro hs h1 h4
    rw [if_neg hs, if_neg (by omega)] at hst
    have := (parse_level_cases _).1 _ hst (by omega)
    exact_mod_cast this
  · intro h
    by_cases hs : sign = ['-']
    · rw [if_pos hs] at hst
      split_ifs at hst
      · exact hnone hst
      · exact (parse_level_cases _).2.1 _ hst (by omega)
    · rw [if_neg hs] at hst
      split_ifs at hst
      · exact hnone hst
      · refine (parse_level_cases _).2.1 _ hst ?_
        rcases h with h | h | h
        · exact absurd h hs
        · omega
        · omega

/-- The severity of a field that starts with no number: the level it names,
Info when it names none. -/
theorem parse_level_no_number (ws sign rest : List Char) (hws : ∀ c ∈ ws, is_space c = true)
    (hsign : sign = [] ∨ sign = ['+'] ∨ sign = ['-'])
    (hrest : ∀ c, rest.head? = some c →
      c.isDigit = false ∧ (sign = [] → is_space c = false ∧ c ≠ '+' ∧ c ≠ '-')) :
    parse_level (String.mk (ws ++ sign ++ rest)) =
      if String.mk (ws ++ sign ++ rest) = "ERROR" then LogLevel.ERROR
      else if String.mk (ws ++ sign ++ rest) = "WARN" then LogLevel.WARN
      else if String.mk (ws ++ sign ++ rest) = "DEBUG" then LogLevel.DEBUG
      else LogLevel.INFO := by
  have hst := stoi_no_number ws sign rest hws hsign hrest
  unfold parse_level
  rw [hst]
  simp only
  split_ifs with h1 h2 h3 h4
  · rfl
  · rfl
  · rw [h3] at h4
    exact absurd h4 (by decide)
  · rfl
  · rfl
  · rfl

/-- Every field has one of the two forms: white space, an optional sign, then
either at least one digit and a rest that starts with no digit, or a rest that
starts with no digit and, when there is no sign, with no white space and no
sign. -/
theorem field_forms (cs : List Char) :
    (∃ ws sign ds rest, cs = ws ++ sign ++ ds ++ rest ∧ (∀ c ∈ ws, is_space c = true) ∧
      (sign = [] ∨ sign = ['+'] ∨ sign = ['-']) ∧ ds ≠ [] ∧ (∀ c ∈ ds, c.isDigit = true) ∧
      (∀ c, rest.head? = some c → c.isDigit = false)) ∨
    (∃ ws sign rest, cs = ws ++ sign ++ rest ∧ (∀ c ∈ ws, is_space c = true) ∧
      (sign = [] ∨ sign = ['+'] ∨ sign = ['-']) ∧
      (∀ c, rest.head? = some c →
        c.isDigit = false ∧ (sign = [] → is_space c = false ∧ c ≠ '+' ∧ c ≠ '-'))) := by
  have hsplit := (List.takeWhile_append_dropWhile is_space cs).symm
  have hws : ∀ c ∈ cs.takeWhile is_space, is_space c = true := fun c hc =>
    List.mem_takeWhile_imp hc
  have hhead := List.head?_dropWhile_not is_space cs
  -- the part after the sign
  have body : ∀ (sign r : List Char), (sign = [] ∨ sign = ['+'] ∨ sign = ['-']) →
      cs = cs.takeWhile is_space ++ sign ++ r →
      (sign = [] → ∀ c, r.head? = some c → is_space c = false ∧ c ≠ '+' ∧ c ≠ '-') →
      _ := fun sign r hsign hcs hr => show
        (∃ ws sign ds rest, cs = ws ++ sign ++ ds ++ rest ∧ (∀ c ∈ ws, is_space c = true) ∧
          (sign = [] ∨ sign = ['+'] ∨ sign = ['-']) ∧ ds ≠ [] ∧ (∀ c ∈ ds, c.isDigit = true) ∧
          (∀ c, rest.head? = some c → c.isDigit = false)) ∨
        (∃ ws sign rest, cs = ws ++ sign ++ rest ∧ (∀ c ∈ ws, is_space c = true) ∧
          (sign = [] ∨ sign = ['+'] ∨ sign = ['-']) ∧
          (∀ c, rest.head? = some c →
            c.isDigit = false ∧ (sign = [] → is_space c = false ∧ c ≠ '+' ∧ c ≠ '-'))) from by
      have hr2 := (List.takeWhile_append_dropWhile Char.isDigit r).symm
      have hnd : ∀ c, (r.dropWhile Char.isDigit).head? = some c → c.isDigit = false := by
        intro c hc
        have := List.head?_dropWhile_not Char.isDigit r
        rw [hc] at this
        simpa using this
      by_cases hds : r.takeWhile Char.isDigit = []
      · right
        refine ⟨_, sign, r, hcs, hws, hsign, fun c hc => ⟨?_, fun hs => hr hs c hc⟩⟩
        have : r.dropWhile Char.isDigit = r := by
          rw [hds] at hr2
          simpa using hr2.symm
        rw [← this] at hc
        exact hnd c hc
      · left
        refine ⟨_, sign, r.takeWhile Char.isDigit, r.dropWhile Char.isDigit, ?_, hws, hsign, hds,
          fun c hc => List.mem_takeWhile_imp hc, hnd⟩
        rw [List.append_assoc _ (List.takeWhile Char.isDigit r), ← hr2]
        exact hcs
  cases hr : cs.dropWhile is_space with
  | nil =>
    right
    rw [hr, List.append_nil] at hsplit
    exact ⟨_, [], [], by rw [List.append_nil, List.append_nil]; exact hsplit, hws,
      Or.inl rfl, fun c hc => by simp at hc⟩
  | cons c t =>
    rw [hr] at hhead hsplit
    have hcsp : is_space c = false := by simpa using hhead
    by_cases hplus : c = '+'
    · subst hplus
      exact body ['+'] t (Or.inr (Or.inl rfl)) (by rw [List.append_assoc]; exact hsplit)
        (fun h => by simp at h)
    · by_cases hminus : c = '-'
      · subst hminus
        exact body ['-'] t (Or.inr (Or.inr rfl)) (by rw [List.append_assoc]; exact hsplit)
          (fun h => by simp at h)
      · refine body [] (c :: t) (Or.inl rfl) (by rw [List.append_nil]; exact hsplit) ?_
        intro _ c2 hc2
        simp only [List.head?_cons, Option.some.injEq] at hc2
        subst hc2
        exact ⟨hcsp, hplus, hminus⟩

/-- C17 (batch-line parser), as the code has it. For every line of a batch
file: an empty line or a line starting with '#' yields no entry; a line
without '|' yields no entry; every other line splits at its first '|' into a
field and a rest and yields exactly one entry, whose text is the rest without
its leading spaces and tabs and whose severity is that of the field without
its leading and trailing spaces and tabs. The severity of a field is read as
`std::stoi` reads a number: after optional white space and an optional sign,
the longest run of decimal digits, whatever follows it. When the field starts
with such a number the severity is the level of that number if it is in 1..4
and Info otherwise (a negative number, 0, more than 4). When it starts with no
number the severity is the level the field names ("ERROR", "WARN", "INFO",
"DEBUG") and Info when it names none. Every field has one of these two forms.
The entries of a file are the entries of its lines, in line order. -/
theorem batch_line_parsing :
    (∀ line : String, line = "" ∨ line.data.head? = some '#' → parse_line line = none) ∧
    (∀ line : String, '|' ∉ line.data → parse_line line = none) ∧
    (∀ line : String, line ≠ "" → line.data.head? ≠ some '#' → '|' ∈ line.data →
      ∃ field rest : List Char, '|' ∉ field ∧ line.data = field ++ '|' :: rest ∧
        parse_line line =
          some (parse_level (trim_right (trim_left (String.mk field))),
            trim_left (String.mk rest))) ∧
    (∀ text : String, ∃ blanks : List Char, text.data = blanks ++ (trim_left text).data ∧
      (∀ c ∈ blanks, c = ' ' ∨ c = '\t') ∧
      (trim_left text).data.head? ≠ some ' ' ∧ (trim_left text).data.head? ≠ some '\t') ∧
    (∀ text : String, ∃ blanks : List Char, text.data = (trim_right text).data ++ blanks ∧
      (∀ c ∈ blanks, c = ' ' ∨ c = '\t') ∧
      (trim_right text).data.getLast? ≠ some ' ' ∧
      (trim_right text).data.getLast? ≠ some '\t') ∧
    (∀ ws sign ds rest : List Char, (∀ c ∈ ws, white_space c) →
      (sign = [] ∨ sign = ['+'] ∨ sign = ['-']) → ds ≠ [] → (∀ c ∈ ds, c.isDigit = true) →
      (∀ c, rest.head? = some c → c.isDigit = false) →
      (sign ≠ ['-'] → 1 ≤ decimal ds → decimal ds ≤ 4 →
        (parse_level (String.mk (ws ++ sign ++ ds ++ rest))).val = decimal ds) ∧
      ((sign = ['-'] ∨ decimal ds = 0 ∨ 4 < decimal ds) →
        parse_level (String.mk (ws ++ sign ++ ds ++ rest)) = LogLevel.INFO)) ∧
    (∀ ws sign rest : List Char, (∀ c ∈ ws, white_space c) →
      (sign = [] ∨ sign = ['+'] ∨ sign = ['-']) →
      (∀ c, rest.head? = some c →
        c.isDigit = false ∧ (sign = [] → ¬ white_space c ∧ c ≠ '+' ∧ c ≠ '-')) →
      parse_level (String.mk (ws ++ sign ++ rest)) =
        if String.mk (ws ++ sign ++ rest) = "ERROR" then LogLevel.ERROR
        else if String.mk (ws ++ sign ++ rest) = "WARN" then LogLevel.WARN
        else if String.mk (ws ++ sign ++ rest) = "DEBUG" then LogLevel.DEBUG
        else LogLevel.INFO) ∧
    (∀ field : String,
      (∃ ws sign ds rest, field.data = ws ++ sign ++ ds ++ rest ∧ (∀ c ∈ ws, white_space c) ∧
        (sign = [] ∨ sign = ['+'] ∨ sign = ['-']) ∧ ds ≠ [] ∧ (∀ c ∈ ds, c.isDigit = true) ∧
        (∀ c, rest.head? = some c → c.isDigit = false)) ∨
      (∃ ws sign rest, field.data = ws ++ sign ++ rest ∧ (∀ c ∈ ws, white_space c) ∧
        (sign = [] ∨ sign = ['+'] ∨ sign = ['-']) ∧
        (∀ c, rest.head? = some c →
          c.isDigit = false ∧ (sign = [] → ¬ white_space c ∧ c ≠ '+' ∧ c ≠ '-')))) ∧
    (parse_level "ERROR" = .ERROR ∧ parse_level "WARN" = .WARN ∧ parse_level "INFO" = .INFO ∧
      parse_level "DEBUG" = .DEBUG) ∧
    (∀ lines : List String, parse_batch lines = lines.filterMap parse_line) := by
  refine ⟨fun line h => ?_, parse_line_no_bar, fun line h1 h2 h3 => ?_, trim_left_spec,
    trim_right_spec, fun ws sign ds rest hws hsign hds hdig hrest => ?_,
    fun ws sign rest hws hsign hrest => ?_, fun field => ?_, by decide, parse_batch_eq⟩
  · simp [parse_line, h]
  · obtain ⟨field, rest, hsplit, hnot⟩ := List.eq_append_cons_of_mem h3
    exact ⟨field, rest, hnot, hsplit, parse_line_bar line field rest h1 h2 hnot hsplit⟩
  · exact parse_level_number ws sign ds rest (fun c hc => (is_space_iff c).mpr (hws c hc))
      hsign hds hdig hrest
  · refine parse_level_no_number ws sign rest (fun c hc => (is_space_iff c).mpr (hws c hc))
      hsign (fun c hc => ⟨(hrest c hc).1, fun hs => ?_⟩)
    obtain ⟨h1, h2, h3⟩ := (hrest c hc).2 hs
    exact ⟨(is_space_false_iff c).mpr h1, h2, h3⟩
  · rcases field_forms field.data with ⟨ws, sign, ds, rest, h1, h2, h3, h4, h5, h6⟩ |
      ⟨ws, sign, rest, h1, h2, h3, h4⟩
    · exact Or.inl ⟨ws, sign, ds, rest, h1, fun c hc => (is_space_iff c).mp (h2 c hc), h3, h4,
        h5, h6⟩
    · refine Or.inr ⟨ws, sign, rest, h1, fun c hc => (is_space_iff c).mp (h2 c hc), h3,
        fun c hc => ⟨(h4 c hc).1, fun hs => ?_⟩⟩
      obtain ⟨g1, g2, g3⟩ := (h4 c hc).2 hs
      exact ⟨(is_space_false_iff c).mp g1, g2, g3⟩

/-- Witness of C17: the line " 4 | hi there " gives an entry with the text
"hi there ", the line "nobar" gives none, and the field "2x" has severity 2. -/
theorem batch_line_parsing_witness :
    parse_line "nobar" = none ∧
    (∃ field rest : List Char, '|' ∉ field ∧ (" 4 | hi there " : String).data = field ++ '|' :: rest ∧
      parse_line " 4 | hi there " =
        some (parse_level (trim_right (trim_left (String.mk field))),
          trim_left (String.mk rest))) ∧
    (parse_level (String.mk ([] ++ [] ++ ['2'] ++ ['x']))).val = decimal ['2'] :=
  ⟨batch_line_parsing.2.1 "nobar" (by decide),
   batch_line_parsing.2.2.1 " 4 | hi there " (by decide) (by decide) (by decide),
   (batch_line_parsing.2.2.2.2.2.1 [] [] ['2'] ['x'] (by simp) (Or.inl rfl) (by simp)
      (by decide) (by decide)).1 (by decide) (by decide) (by decide)⟩

/-- Counterexample to C17 as stated: the fields "2x", "1.5" and "1ERROR" are
neither a number nor a level name, and the entries do not get severity Info:
`std::stoi` reads the digits they start with. A carriage return before the
number is skipped as well. -/
theorem digits_before_text_are_read :
    parse_line "2x|m" = some (.WARN, "m") ∧ parse_line "1.5|m" = some (.ERROR, "m") ∧
    parse_line "1ERROR|m" = some (.ERROR, "m") ∧ parse_line "\r1|m" = some (.ERROR, "m") := by
  decide

/-! ## Time stamps -/

/-- An accepted entry that stays in the buffer is appended to the buffer of
its stream, which gets the clock reading of the call as its last write: the
time from which the flush thread counts the idle time. -/
theorem write_log_stamps (env : IOEnv) (ts : String) (now : Int) (s : Logger)
    (name : String) (level : LogLevel) (msg : String)
    (h : buffered_write s (.write_log ts now name level msg) = true) :
    (write_log env ts now s name level msg).log_buffers.find name =
      some ⟨buffer_content s name ++ rendered_line ts level msg, now⟩ ∧
    ∀ later : Int, idle_time later ⟨buffer_content s name ++ rendered_line ts level msg, now⟩ =
      Int.tdiv (later - now) ticks_per_ms := by
  simp only [buffered_write, Bool.and_eq_true, decide_eq_true_eq] at h
  obtain ⟨⟨⟨hrun, hacc⟩, hl⟩, hsz⟩ := h
  rw [write_log_accepted env ts now s name level msg hrun hacc,
    add_to_buffer_keeps env now s name _ level hl hsz]
  refine ⟨?_, fun later => rfl⟩
  unfold append_content buffer_content
  rw [Map.find_set_self]
  cases s.log_buffers.find name <;> rfl

end LogMonitor
